import Mathlib

/-!
# bidq: the job-auction broker

A shallow embedding of `bidq.go`, `connset/connset.go` and `enums/enums.go`.

* The process-wide variables `pending` and `outgoing`, together with the
  goroutines started by `go setupCleanup`, form an explicit `State` that every
  handler receives and returns.
* A send on the channel `outgoing` appends to `State.outgoing`.
* `uuid.New().String()` is an input of `handleSubmit`: the caller supplies the
  string the generator returns.
* The handlers are embedded twice: as functions on `State` that run a call to
  its end, and as steps of the coordinator and of the cleanup goroutines that
  a schedule interleaves (`Sys`, `micro`).
* `encoding/json` is split in two layers.  The text layer (which byte strings
  are well-formed documents, and how a document is printed) is the record
  `JsonText`.  The binding of a document to the fields of a Go struct, and the
  printing order of the fields of a struct, follow the struct tags of `bidq.go`
  and are written out below.
-/

namespace Bidq

/-- Identity of a `*net.TCPConn`; two connections are the same when the pointers are. -/
abbrev Conn := Nat

/-- Go `[]byte`. -/
abbrev Bytes := List Nat

/-! ## enums/enums.go -/

namespace enums

/-- Go `type Target int`. -/
abbrev Target := Int

def Direct : Target := 0
def Spread : Target := 1
def Broadcast : Target := 2

/-- Go `type Message string`. -/
abbrev Message := String

def Submit : Message := "SUBMIT"
def SubmitAck : Message := "SUBMIT_ACK"
def Bid : Message := "BID"
def BidAck : Message := "BID_ACK"
def BidReject : Message := "BID_REJECT"
def JobSuccess : Message := "JOB_SUCCESS"
def JobFailure : Message := "JOB_FAILURE"
def Cancel : Message := "CANCEL"

end enums

/-! ## connset/connset.go -/

/-- The key set of `map[*net.TCPConn]void`.  `keys` lists the keys in the order
in which a `range` loop over the map yields them; that order is unspecified in
Go, and every duplicate-free list is a value of this type. -/
structure ConnectionsSet where
  keys : List Conn
  nodup : keys.Nodup

/-- Go `MakeConnectionSet`. -/
def MakeConnectionSet : ConnectionsSet := ⟨[], List.nodup_nil⟩

/-- Go `cs.set[conn] = member`. -/
def ConnectionsSet.Add (cs : ConnectionsSet) (conn : Conn) : ConnectionsSet :=
  if h : conn ∈ cs.keys then cs else ⟨conn :: cs.keys, List.nodup_cons.mpr ⟨h, cs.nodup⟩⟩

/-- Go `_, ok := cs.set[conn]; return ok`. -/
def ConnectionsSet.Has (cs : ConnectionsSet) (conn : Conn) : Bool :=
  decide (conn ∈ cs.keys)

/-- Go `len(cs.set)`; the argument is unused, as in the source. -/
def ConnectionsSet.Size (cs : ConnectionsSet) (_conn : Conn) : Nat :=
  cs.keys.length

/-- Go `delete(cs.set, conn)`. -/
def ConnectionsSet.Delete (cs : ConnectionsSet) (conn : Conn) : ConnectionsSet :=
  ⟨cs.keys.filter (fun c => c ≠ conn), cs.nodup.filter _⟩

/-- Go `for conn := range cs.set { handler(conn) }`, the handler acting on a state `σ`. -/
def ConnectionsSet.ForEach {σ : Type} (cs : ConnectionsSet) (handler : Conn → σ → σ) (s : σ) : σ :=
  cs.keys.foldl (fun acc conn => handler conn acc) s

/-! ## encoding/json -/

/-- A JSON document as a tree.  A number keeps its literal. -/
inductive JVal where
  | null
  | bool (b : Bool)
  | num (lit : String)
  | str (s : String)
  | arr (items : List JVal)
  | obj (members : List (String × JVal))

/-- The text layer of `encoding/json`.
* `parse b` is the document that the bytes `b` spell, `none` when `b` is not
  well-formed JSON (`json.Unmarshal` then returns a syntax error).
* `print d` is the text `json.Marshal` writes for the document `d`.
* `iface d` is the document that `json.Marshal` writes for the Go value that
  decoding `d` into an `interface{}` produced; `none` when that decoding
  fails (a number outside the range of `float64`). -/
structure JsonText where
  parse : Bytes → Option JVal
  print : JVal → Bytes
  iface : JVal → Option JVal

/-- Printing and parsing agree: a printed document parses back to itself. -/
def JsonText.RoundTrip (t : JsonText) : Prop :=
  ∀ d : JVal, t.parse (t.print d) = some d

/-- Key folding of the decoder: an object key selects the struct field whose
name equals it up to ASCII case. -/
def asciiFold (s : String) : String := String.mk (s.data.map Char.toLower)

/-- Decoding a JSON value into a field of kind `string` holding `cur`:
a string is stored, `null` leaves the field alone, anything else is an
`UnmarshalTypeError` (`none`). -/
def storeString (cur : String) : JVal → Option String
  | JVal.str s => some s
  | JVal.null => some cur
  | _ => none

/-! ## bidq.go: types -/

structure reply where
  Data : Bytes
  Origin : Conn
  To : enums.Target
deriving DecidableEq

structure request where
  Data : Bytes
  Origin : Conn
deriving DecidableEq

structure job where
  Conn : Conn
  Bid : Bool
deriving DecidableEq

/-- The Go field is `Type`, a reserved word here. -/
structure BaseRequest where
  Type_ : enums.Message
  Id : String
deriving DecidableEq

structure SubmitRequest where
  Type_ : enums.Message
  Id : String
  Topic : String
  Payload : JVal

structure AckSubmitReply where
  Type_ : enums.Message
  Id : String
  ClientId : String

structure FailureReply where
  Type_ : enums.Message
  Id : String
  Reason : String

/-- Go `CancelRequest`: the fields and tags of `BaseRequest`. -/
abbrev CancelRequest := BaseRequest

/-- Go `BidRequest`: the fields and tags of `BaseRequest`. -/
abbrev BidRequest := BaseRequest

/-- One object member decoded into a `BaseRequest` (tags `type`, `id`);
a key that selects no field is skipped. -/
def BaseRequest.member (acc : BaseRequest) (kv : String × JVal) : Option BaseRequest :=
  if asciiFold kv.1 = "type" then
    (storeString acc.Type_ kv.2).map (fun s => { acc with Type_ := s })
  else if asciiFold kv.1 = "id" then
    (storeString acc.Id kv.2).map (fun s => { acc with Id := s })
  else some acc

/-- Members are decoded in document order, so a repeated key overwrites. -/
def BaseRequest.members (acc : BaseRequest) : List (String × JVal) → Option BaseRequest
  | [] => some acc
  | kv :: rest =>
    match BaseRequest.member acc kv with
    | none => none
    | some acc1 => BaseRequest.members acc1 rest

/-- Go `var m BaseRequest; err := json.Unmarshal(data, &m)`: `none` is `err != nil`.
A top-level `null` leaves the zero struct; any top-level value other than an
object or `null` is an `UnmarshalTypeError`. -/
def BaseRequest.unmarshal (t : JsonText) (data : Bytes) : Option BaseRequest :=
  match t.parse data with
  | none => none
  | some JVal.null => some ⟨"", ""⟩
  | some (JVal.obj ms) => BaseRequest.members ⟨"", ""⟩ ms
  | some _ => none

/-- One object member decoded into a `SubmitRequest` (tags `type`, `id`, `topic`, `payload`). -/
def SubmitRequest.member (t : JsonText) (acc : SubmitRequest) (kv : String × JVal) :
    Option SubmitRequest :=
  if asciiFold kv.1 = "type" then
    (storeString acc.Type_ kv.2).map (fun s => { acc with Type_ := s })
  else if asciiFold kv.1 = "id" then
    (storeString acc.Id kv.2).map (fun s => { acc with Id := s })
  else if asciiFold kv.1 = "topic" then
    (storeString acc.Topic kv.2).map (fun s => { acc with Topic := s })
  else if asciiFold kv.1 = "payload" then
    (t.iface kv.2).map (fun p => { acc with Payload := p })
  else some acc

def SubmitRequest.members (t : JsonText) (acc : SubmitRequest) :
    List (String × JVal) → Option SubmitRequest
  | [] => some acc
  | kv :: rest =>
    match SubmitRequest.member t acc kv with
    | none => none
    | some acc1 => SubmitRequest.members t acc1 rest

/-- Go `var sr SubmitRequest; err := json.Unmarshal(data, &sr)`. -/
def SubmitRequest.unmarshal (t : JsonText) (data : Bytes) : Option SubmitRequest :=
  match t.parse data with
  | none => none
  | some JVal.null => some ⟨"", "", "", JVal.null⟩
  | some (JVal.obj ms) => SubmitRequest.members t ⟨"", "", "", JVal.null⟩ ms
  | some _ => none

/-- A field tagged `omitempty` is printed only when it is not the empty string. -/
def omitempty (key : String) (v : String) : List (String × JVal) :=
  if v = "" then [] else [(key, JVal.str v)]

/-- Document of `json.Marshal(BidRequest{..})`: fields in declaration order. -/
def BaseRequest.doc (r : BaseRequest) : JVal :=
  JVal.obj (omitempty "type" r.Type_ ++ [("id", JVal.str r.Id)])

/-- Document of `json.Marshal(sr)` for a `SubmitRequest`. -/
def SubmitRequest.doc (r : SubmitRequest) : JVal :=
  JVal.obj (omitempty "type" r.Type_ ++ [("id", JVal.str r.Id)] ++ omitempty "topic" r.Topic
    ++ [("payload", r.Payload)])

/-- Document of `json.Marshal(AckSubmitReply{..})`. -/
def AckSubmitReply.doc (r : AckSubmitReply) : JVal :=
  JVal.obj (omitempty "type" r.Type_ ++ [("id", JVal.str r.Id), ("clientId", JVal.str r.ClientId)])

/-- Document of `json.Marshal(FailureReply{..})`. -/
def FailureReply.doc (r : FailureReply) : JVal :=
  JVal.obj (omitempty "type" r.Type_ ++ [("id", JVal.str r.Id), ("reason", JVal.str r.Reason)])

/-! ## bidq.go: state -/

/-- Go `map[string]*job`.  Every key owns its own `job`, allocated by `handleSubmit`. -/
abbrev Pending := String → Option job

def Pending.empty : Pending := fun _ => none

/-- Go `pending[k] = &job{..}`, and the write `job.Bid = true` through the pointer stored at `k`. -/
def Pending.set (p : Pending) (k : String) (v : job) : Pending :=
  fun x => if x = k then some v else p x

/-- Go `delete(pending, k)`. -/
def Pending.delete (p : Pending) (k : String) : Pending :=
  fun x => if x = k then none else p x

/-- A goroutine started by `go setupCleanup(jobId, req, timeout)` that is still asleep. -/
structure Cleanup where
  jobId : String
  req : request
  timeout : Nat

/-- The package-level variables and the sleeping cleanup goroutines. -/
structure State where
  pending : Pending
  outgoing : List reply
  cleanups : List Cleanup

/-- Go `make(map[string]*job)`, nothing sent, nothing scheduled. -/
def State.init : State := ⟨Pending.empty, [], []⟩

/-- Go `outgoing <- r`. -/
def State.send (st : State) (r : reply) : State :=
  { st with outgoing := st.outgoing ++ [r] }

/-- What a handler leaves behind: whether it returned a non-nil error, and the state. -/
structure Ret where
  err : Bool
  st : State

/-! ## bidq.go: the coordinator

`json.Marshal` cannot fail on the values marshalled here (structs of strings,
and a payload that came out of `json.Unmarshal`), so the `err == nil` tests
after `json.Marshal` always pass. -/

/-- Go `cancelJob`. -/
def cancelJob (t : JsonText) (jobId : String) (req : request) (reason : String) (st : State) :
    State :=
  match st.pending jobId with
  | some _ =>
    let failureReply := t.print (FailureReply.doc ⟨enums.JobFailure, jobId, reason⟩)
    let st1 := st.send ⟨failureReply, req.Origin, enums.Direct⟩
    { st1 with pending := Pending.delete st1.pending jobId }
  | none => st

/-- Go `setupCleanup`, from the moment `time.Sleep` returns. -/
def setupCleanup (t : JsonText) (jobId : String) (req : request) (_timeout : Nat) (st : State) :
    State :=
  cancelJob t jobId req "Queue timeout" st

/-- Go `handleSubmit`; `id` is the value of `uuid.New().String()`. -/
def handleSubmit (t : JsonText) (req : request) (timeout : Nat) (id : String) (st : State) : Ret :=
  match SubmitRequest.unmarshal t req.Data with
  | none => ⟨true, st⟩
  | some sr =>
    let submitAck := t.print (AckSubmitReply.doc ⟨enums.SubmitAck, id, sr.Id⟩)
    let st1 : State := st.send ⟨submitAck, req.Origin, enums.Direct⟩
    let st2 : State := { st1 with pending := Pending.set st1.pending id ⟨req.Origin, false⟩ }
    let st3 : State := { st2 with cleanups := st2.cleanups ++ [⟨id, req, timeout⟩] }
    let sr1 : SubmitRequest := { sr with Id := id }
    let submitReply := t.print (SubmitRequest.doc sr1)
    ⟨false, st3.send ⟨submitReply, req.Origin, enums.Spread⟩⟩

/-- Go `handleCancel`. -/
def handleCancel (t : JsonText) (req : request) (st : State) : Ret :=
  match BaseRequest.unmarshal t req.Data with
  | none => ⟨true, st⟩
  | some cr => ⟨false, cancelJob t cr.Id req "Client cancel" st⟩

/-- Go `handleBid`. -/
def handleBid (t : JsonText) (req : request) (st : State) : Ret :=
  match BaseRequest.unmarshal t req.Data with
  | none => ⟨true, st⟩
  | some br =>
    match st.pending br.Id with
    | some jb =>
      let msg := if !jb.Bid then enums.BidAck else enums.BidReject
      let st1 := if !jb.Bid then { st with pending := Pending.set st.pending br.Id { jb with Bid := true } }
                 else st
      let re := t.print (BaseRequest.doc ⟨msg, br.Id⟩)
      ⟨false, st1.send ⟨re, req.Origin, enums.Direct⟩⟩
    | none => ⟨false, st⟩

/-- Go `handleJobResult`. -/
def handleJobResult (t : JsonText) (req : request) (st : State) : Ret :=
  match BaseRequest.unmarshal t req.Data with
  | none => ⟨true, st⟩
  | some br =>
    match st.pending br.Id with
    | some jb => ⟨false, st.send ⟨req.Data, jb.Conn, enums.Direct⟩⟩
    | none => ⟨false, st⟩

/-- Go `processMessage`; `id` is what `uuid.New().String()` returns if `handleSubmit` asks. -/
def processMessage (t : JsonText) (req : request) (timeout : Nat) (id : String) (st : State) :
    Ret :=
  match BaseRequest.unmarshal t req.Data with
  | none => ⟨true, st⟩
  | some m =>
    if m.Type_ = enums.Submit then handleSubmit t req timeout id st
    else if m.Type_ = enums.Cancel then handleCancel t req st
    else if m.Type_ = enums.Bid then handleBid t req st
    else if m.Type_ = enums.JobFailure ∨ m.Type_ = enums.JobSuccess then handleJobResult t req st
    else ⟨true, st⟩

/-! ## bidq.go: the dispatcher -/

/-- The closure passed to `cs.ForEach` in `publish`, acting on the log of
`c.Write(reply.Data)` calls (connection, bytes), oldest first. -/
def publishVisit (r : reply) (c : Conn) (log : List (Conn × Bytes)) : List (Conn × Bytes) :=
  if r.To = enums.Direct then
    (if r.Origin = c then log ++ [(c, r.Data)] else log)
  else if r.To = enums.Spread then
    (if r.Origin ≠ c then log ++ [(c, r.Data)] else log)
  else if r.To = enums.Broadcast then
    log ++ [(c, r.Data)]
  else log

/-- One turn of the loop of Go `publish`: the envelope `r` was received from `outgoing`. -/
def publishOne (cs : ConnectionsSet) (r : reply) (log : List (Conn × Bytes)) :
    List (Conn × Bytes) :=
  cs.ForEach (publishVisit r) log

/-- Go `publish` over the envelopes `rs` received in this order, the registry staying `cs`. -/
def publish (cs : ConnectionsSet) (rs : List reply) (log : List (Conn × Bytes)) :
    List (Conn × Bytes) :=
  rs.foldl (fun acc r => publishOne cs r acc) log

/-- The payloads written to connection `c`, in order. -/
def writtenTo (c : Conn) (log : List (Conn × Bytes)) : List Bytes :=
  (log.filter (fun w => w.1 = c)).map Prod.snd

/-! ## The broker, one call at a time

The coordinator loop `handleMessages` takes one request at a time from
`incoming`; a cleanup goroutine wakes at some later moment.  In this section
each of the two is one event, taken to its end before the next begins: the
call of `processMessage` with all its sends, or the tail of `setupCleanup`
with its send.  These are the schedules of the program in which no goroutine
runs while another is inside a handler or inside `cancelJob`; the section
`The broker as interleaved goroutines` below has the schedules of the
coordinator and the cleanup goroutines cut at every send and at every write
to the table, and `step_recv_is_a_schedule`, `step_wake_is_a_schedule` place
the events of this section among them. -/

inductive Event where
  /-- The loop of `handleMessages` receives `req`; `id` is what `uuid.New()` returns if asked. -/
  | recv (req : request) (id : String)
  /-- The `k`-th sleeping cleanup goroutine returns from `time.Sleep`. -/
  | wake (k : Nat)

/-- One turn of the loop of Go `handleMessages`: the error of `processMessage` is dropped. -/
def handleMessages (t : JsonText) (timeout : Nat) (req : request) (id : String) (st : State) :
    State :=
  (processMessage t req timeout id st).st

/-- The `k`-th sleeping goroutine runs the rest of `setupCleanup` and ends. -/
def wake (t : JsonText) (k : Nat) (st : State) : State :=
  match st.cleanups.get? k with
  | none => st
  | some c => setupCleanup t c.jobId c.req c.timeout { st with cleanups := st.cleanups.eraseIdx k }

def step (t : JsonText) (timeout : Nat) (st : State) : Event → State
  | Event.recv req id => handleMessages t timeout req id st
  | Event.wake k => wake t k st

/-- The state after the events `es`, starting from `st`. -/
def run (t : JsonText) (timeout : Nat) (es : List Event) (st : State) : State :=
  es.foldl (step t timeout) st

/-- Whether `processMessage` on this frame reaches `uuid.New()`. -/
def drawsId (t : JsonText) (req : request) : Bool :=
  match BaseRequest.unmarshal t req.Data, SubmitRequest.unmarshal t req.Data with
  | some m, some _ => decide (m.Type_ = enums.Submit)
  | _, _ => false

/-- The job ids the generator handed out during `es`, oldest first. -/
def generated (t : JsonText) : List Event → List String
  | [] => []
  | Event.recv req id :: es => if drawsId t req then id :: generated t es else generated t es
  | Event.wake _ :: es => generated t es

/-- The envelopes sent while going from `st` to `st1`. -/
def emitted (st st1 : State) : List reply :=
  st1.outgoing.drop st.outgoing.length

/-- A peer that decodes the envelope reads message type `ty` and id `id`. -/
def reply.carries (t : JsonText) (ty : enums.Message) (id : String) (r : reply) : Prop :=
  BaseRequest.unmarshal t r.Data = some ⟨ty, id⟩

instance (t : JsonText) (ty : enums.Message) (id : String) (r : reply) :
    Decidable (r.carries t ty id) := by
  unfold reply.carries; infer_instance

/-! ## A text layer to run the broker on

`wire` is an instance of `JsonText` with computable `parse` and `print` that
satisfies `JsonText.RoundTrip`: documents are written as tagged,
length-prefixed sequences.  It is not the JSON grammar; it serves to evaluate
the definitions above on concrete frames. -/

namespace Wire

def putString (s : String) : List Nat := s.data.length :: s.data.map Char.toNat

def getString : List Nat → Option (String × List Nat)
  | [] => none
  | n :: r =>
    if n ≤ r.length then some (String.mk ((r.take n).map Char.ofNat), r.drop n) else none

mutual
def put : JVal → List Nat
  | JVal.null => [0]
  | JVal.bool b => [1, b.toNat]
  | JVal.num l => 2 :: putString l
  | JVal.str l => 3 :: putString l
  | JVal.arr xs => 4 :: putItems xs
  | JVal.obj kvs => 5 :: putMembers kvs
def putItems : List JVal → List Nat
  | [] => [0]
  | x :: xs => 1 :: (put x ++ putItems xs)
def putMembers : List (String × JVal) → List Nat
  | [] => [0]
  | (k, v) :: xs => 1 :: (putString k ++ (put v ++ putMembers xs))
end

mutual
def get : Nat → List Nat → Option (JVal × List Nat)
  | 0, _ => none
  | _ + 1, [] => none
  | f + 1, tag :: r =>
    if tag = 0 then some (JVal.null, r)
    else if tag = 1 then
      match r with
      | b :: r1 => some (JVal.bool (decide (b = 1)), r1)
      | [] => none
    else if tag = 2 then (getString r).map (fun p => (JVal.num p.1, p.2))
    else if tag = 3 then (getString r).map (fun p => (JVal.str p.1, p.2))
    else if tag = 4 then (getItems f r).map (fun p => (JVal.arr p.1, p.2))
    else if tag = 5 then (getMembers f r).map (fun p => (JVal.obj p.1, p.2))
    else none
def getItems : Nat → List Nat → Option (List JVal × List Nat)
  | 0, _ => none
  | _ + 1, [] => none
  | f + 1, tag :: r =>
    if tag = 0 then some ([], r)
    else
      match get f r with
      | none => none
      | some (x, r1) => (getItems f r1).map (fun p => (x :: p.1, p.2))
def getMembers : Nat → List Nat → Option (List (String × JVal) × List Nat)
  | 0, _ => none
  | _ + 1, [] => none
  | f + 1, tag :: r =>
    if tag = 0 then some ([], r)
    else
      match getString r with
      | none => none
      | some (k, r0) =>
        match get f r0 with
        | none => none
        | some (x, r1) => (getMembers f r1).map (fun p => ((k, x) :: p.1, p.2))
end

/-- The whole input must spell one document. -/
def parse (b : Bytes) : Option JVal :=
  match get b.length b with
  | some (d, []) => some d
  | _ => none

end Wire

/-- The text layer `Wire`; decoding into `interface{}` keeps the document. -/
def wire : JsonText := ⟨Wire.parse, Wire.put, some⟩

/-! ### Concrete frames -/

/-- The frame `BID` with id `j1`. -/
def bidFrame : Bytes := wire.print (JVal.obj [("type", JVal.str "BID"), ("id", JVal.str "j1")])

/-- A table holding the unclaimed job `j1`, submitted by connection `3`. -/
def oneOpenJob : State := ⟨Pending.set Pending.empty "j1" ⟨3, false⟩, [], []⟩

/-- The routing table of the specification: `Direct` selects the origin alone
(when it is registered), `Spread` every registered peer except the origin,
`Broadcast` every registered peer. -/
def selects (cs : ConnectionsSet) (r : reply) (c : Conn) : Prop :=
  (r.To = enums.Direct ∧ c = r.Origin ∧ c ∈ cs.keys) ∨
  (r.To = enums.Spread ∧ c ≠ r.Origin ∧ c ∈ cs.keys) ∨
  (r.To = enums.Broadcast ∧ c ∈ cs.keys)

instance (cs : ConnectionsSet) (r : reply) (c : Conn) : Decidable (selects cs r c) := by
  unfold selects; infer_instance

/-- The frame `SUBMIT` with client id `c1`, topic `t` and payload `42`. -/
def submitFrame : Bytes :=
  wire.print (JVal.obj [("type", JVal.str "SUBMIT"), ("id", JVal.str "c1"),
    ("topic", JVal.str "t"), ("payload", JVal.num "42")])

/-- The frame `CANCEL` with id `j1`. -/
def cancelFrame : Bytes :=
  wire.print (JVal.obj [("type", JVal.str "CANCEL"), ("id", JVal.str "j1")])

/-- The frame `JOB_SUCCESS` with id `j1` and value `ok`. -/
def successFrame : Bytes :=
  wire.print (JVal.obj [("type", JVal.str "JOB_SUCCESS"), ("id", JVal.str "j1"),
    ("value", JVal.str "ok")])

/-- The frame `BID` with id `bogus`. -/
def bogusBidFrame : Bytes :=
  wire.print (JVal.obj [("type", JVal.str "BID"), ("id", JVal.str "bogus")])

/-- A registry holding the connections `3`, `5` and `8`. -/
def threePeers : ConnectionsSet := ⟨[3, 5, 8], by decide⟩

/-- The six things one event can do to the table and to the sent envelopes. -/
inductive Effect (t : JsonText) (st : State) (ev : Event) (s1 : State) : Prop where
  /-- Nothing is sent and the table is as before. -/
  | idle (hp : s1.pending = st.pending) (ho : s1.outgoing = st.outgoing)
  /-- The branch of `handleSubmit` past `json.Unmarshal`. -/
  | submit (req : request) (id : String) (sr : SubmitRequest) (hev : ev = Event.recv req id)
      (hdraw : drawsId t req = true)
      (hp : s1.pending = Pending.set st.pending id ⟨req.Origin, false⟩)
      (ho : s1.outgoing = st.outgoing ++
        [⟨t.print (AckSubmitReply.doc ⟨enums.SubmitAck, id, sr.Id⟩), req.Origin, enums.Direct⟩,
         ⟨t.print (SubmitRequest.doc ⟨enums.Submit, id, sr.Topic, sr.Payload⟩), req.Origin,
           enums.Spread⟩])
  /-- The branch of `cancelJob` that finds the job, from `handleCancel` or from a cleanup. -/
  | cancel (J : String) (o : Conn) (reason : String) (jb : job) (hj : st.pending J = some jb)
      (hp : s1.pending = Pending.delete st.pending J)
      (ho : s1.outgoing = st.outgoing ++
        [⟨t.print (FailureReply.doc ⟨enums.JobFailure, J, reason⟩), o, enums.Direct⟩])
  /-- The branch of `handleBid` on an unclaimed job. -/
  | ack (req : request) (id : String) (J : String) (jb : job) (hev : ev = Event.recv req id)
      (hdec : BaseRequest.unmarshal t req.Data = some ⟨enums.Bid, J⟩)
      (hj : st.pending J = some jb) (hb : jb.Bid = false)
      (hp : s1.pending = Pending.set st.pending J ⟨jb.Conn, true⟩)
      (ho : s1.outgoing = st.outgoing ++
        [⟨t.print (BaseRequest.doc ⟨enums.BidAck, J⟩), req.Origin, enums.Direct⟩])
  /-- The branch of `handleBid` on a claimed job. -/
  | reject (req : request) (id : String) (J : String) (jb : job) (hev : ev = Event.recv req id)
      (hdec : BaseRequest.unmarshal t req.Data = some ⟨enums.Bid, J⟩)
      (hj : st.pending J = some jb) (hb : jb.Bid = true)
      (hp : s1.pending = st.pending)
      (ho : s1.outgoing = st.outgoing ++
        [⟨t.print (BaseRequest.doc ⟨enums.BidReject, J⟩), req.Origin, enums.Direct⟩])
  /-- The branch of `handleJobResult` that finds the job. -/
  | forward (req : request) (id : String) (m : BaseRequest) (jb : job)
      (hev : ev = Event.recv req id)
      (hdec : BaseRequest.unmarshal t req.Data = some m)
      (hty : m.Type_ = enums.JobFailure ∨ m.Type_ = enums.JobSuccess)
      (hj : st.pending m.Id = some jb)
      (hp : s1.pending = st.pending)
      (ho : s1.outgoing = st.outgoing ++ [⟨req.Data, jb.Conn, enums.Direct⟩])

/-- How many of the envelopes `l` read as `BID_ACK` for the job `J`. -/
def ackCount (t : JsonText) (J : String) (l : List reply) : Nat :=
  l.countP (fun r => decide (r.carries t enums.BidAck J))

/-- One object member decoded into a `FailureReply` (tags `type`, `id`, `reason`). -/
def FailureReply.member (acc : FailureReply) (kv : String × JVal) : Option FailureReply :=
  if asciiFold kv.1 = "type" then
    (storeString acc.Type_ kv.2).map (fun s => { acc with Type_ := s })
  else if asciiFold kv.1 = "id" then
    (storeString acc.Id kv.2).map (fun s => { acc with Id := s })
  else if asciiFold kv.1 = "reason" then
    (storeString acc.Reason kv.2).map (fun s => { acc with Reason := s })
  else some acc

def FailureReply.members (acc : FailureReply) : List (String × JVal) → Option FailureReply
  | [] => some acc
  | kv :: rest =>
    match FailureReply.member acc kv with
    | none => none
    | some acc1 => FailureReply.members acc1 rest

/-- What a peer obtains from `json.Unmarshal(data, &f)` with `f` a `FailureReply`.
The broker never decodes this type; it is how a recipient reads the reason. -/
def FailureReply.unmarshal (t : JsonText) (data : Bytes) : Option FailureReply :=
  match t.parse data with
  | none => none
  | some JVal.null => some ⟨"", "", ""⟩
  | some (JVal.obj ms) => FailureReply.members ⟨"", "", ""⟩ ms
  | some _ => none

/-- The terminal frames of the specification: the envelope is sent in `Direct`
mode to `s` and reads as `JOB_SUCCESS` for `J`, or as `JOB_FAILURE` for `J`
with reason `Client cancel` or `Queue timeout`. -/
def reply.terminal (t : JsonText) (J : String) (s : Conn) (r : reply) : Bool :=
  decide (r.To = enums.Direct) && decide (r.Origin = s) &&
  (decide (r.carries t enums.JobSuccess J) ||
    match FailureReply.unmarshal t r.Data with
    | some f => decide (f.Type_ = enums.JobFailure ∧ f.Id = J ∧
        (f.Reason = "Client cancel" ∨ f.Reason = "Queue timeout"))
    | none => false)

/-- How many of the envelopes `l` are terminal frames for `J` sent to `s`. -/
def terminalCount (t : JsonText) (J : String) (s : Conn) (l : List reply) : Nat :=
  l.countP (reply.terminal t J s)

/-- Connection `3` submits and gets `j1`; connections `5` and `8` bid on `j1`. -/
def twoBids : List Event :=
  [Event.recv ⟨submitFrame, 3⟩ "j1", Event.recv ⟨bidFrame, 5⟩ "u1",
   Event.recv ⟨bidFrame, 8⟩ "u2"]

/-- Connection `3` submits and gets `j1`; connection `5` reports success for
`j1`; the cleanup of `j1` wakes. -/
def resultThenTimeout : List Event :=
  [Event.recv ⟨submitFrame, 3⟩ "j1", Event.recv ⟨successFrame, 5⟩ "u1", Event.wake 0]

/-- A `SUBMIT` frame with no `id`, no `topic` and no `payload`. -/
def bareSubmitFrame : Bytes := wire.print (JVal.obj [("type", JVal.str "SUBMIT")])

/-- A `BID` frame with no `id`. -/
def bareBidFrame : Bytes := wire.print (JVal.obj [("type", JVal.str "BID")])

/-- A frame whose type is the broker's own tag `BID_ACK`. -/
def bidAckFrame : Bytes :=
  wire.print (JVal.obj [("type", JVal.str "BID_ACK"), ("id", JVal.str "j1")])

/-! ## Numbers through `interface{}`

`SubmitRequest.Payload` has type `interface{}`, so `json.Unmarshal` stores a
JSON number in it as a `float64` and `json.Marshal` writes that `float64` back.
`wire64` is the text layer `wire` with this effect on integer literals. -/

/-- The number a string of decimal digits spells; `none` for the empty string
and for a string with another character. -/
def digitsValue (s : String) : Option Nat :=
  if s.data = [] then none
  else s.data.foldl
    (fun acc c => acc.bind (fun n => if c.isDigit then some (10 * n + (c.toNat - 48)) else none))
    (some 0)

def bitsAux : Nat → Nat → Nat
  | 0, _ => 0
  | f + 1, n => if n = 0 then 0 else 1 + bitsAux f (n / 2)

/-- The number of binary digits of `n`. -/
def bitLength (n : Nat) : Nat := bitsAux n n

/-- The integer value of the `float64` nearest to the integer `n`, ties going
to the even significand, as `strconv.ParseFloat` rounds: 53 significant bits
are kept. -/
def roundFloat64 (n : Nat) : Nat :=
  if n < 2 ^ 53 then n
  else
    let e := bitLength n - 53
    let q := n / 2 ^ e
    let r := n % 2 ^ e
    let half := 2 ^ (e - 1)
    if half < r ∨ (r = half ∧ q % 2 = 1) then (q + 1) * 2 ^ e else q * 2 ^ e

/-- Decoding into `interface{}` and marshalling back.  A literal of decimal
digits below `10 ^ 16` is read as the nearest `float64` and written back as
that integer in decimal.  Every other document is returned as it is:
`encoding/json` also rewrites other number literals and sorts the keys of an
object, which this definition does not follow. -/
def ifaceFloat64 : JVal → Option JVal
  | JVal.num lit =>
    match digitsValue lit with
    | some n => if n < 10 ^ 16 then some (JVal.num (Nat.repr (roundFloat64 n))) else some (JVal.num lit)
    | none => some (JVal.num lit)
  | d => some d

/-- The text layer `wire` with numbers going through `float64`. -/
def wire64 : JsonText := ⟨Wire.parse, Wire.put, ifaceFloat64⟩

/-- The frame `SUBMIT` with client id `c1`, topic `t` and payload `9007199254740993`, which is `2 ^ 53 + 1`. -/
def bigPayloadFrame : Bytes :=
  wire64.print (JVal.obj [("type", JVal.str "SUBMIT"), ("id", JVal.str "c1"),
    ("topic", JVal.str "t"), ("payload", JVal.num "9007199254740993")])

/-- A peer that decodes the envelope reads the id `J`. -/
def reply.idIs (t : JsonText) (J : String) (r : reply) : Prop :=
  (BaseRequest.unmarshal t r.Data).map BaseRequest.Id = some J

/-- A table holding the claimed job `j1`, submitted by connection `3`. -/
def oneClaimedJob : State := ⟨Pending.set Pending.empty "j1" ⟨3, true⟩, [], []⟩

/-- The connections that `ForEach` hands to its visitor, in the order of the calls. -/
def ConnectionsSet.visited (cs : ConnectionsSet) : List Conn :=
  cs.ForEach (fun c log => log ++ [c]) []

/-- Go `publish` when every `range` loop over the registry yields the keys in
an order of its own: the envelope `p.2` is dispatched over the key order `p.1`. -/
def publishEach (steps : List (ConnectionsSet × reply)) (log : List (Conn × Bytes)) :
    List (Conn × Bytes) :=
  steps.foldl (fun acc p => publishOne p.1 p.2 acc) log

/-- The job id an event names in the state `st`: the id a frame decodes to, or
the id a waking cleanup was scheduled for. -/
def Event.jobId (t : JsonText) (st : State) : Event → Option String
  | Event.recv req _ => (BaseRequest.unmarshal t req.Data).map BaseRequest.Id
  | Event.wake k => (st.cleanups.get? k).map Cleanup.jobId

/-- The connection a received frame came from; a waking cleanup has none. -/
def Event.sender : Event → Option Conn
  | Event.recv req _ => some req.Origin
  | Event.wake _ => none

/-- The envelopes the event `ev` sends when it follows the events `es` from the empty table. -/
def sentBy (t : JsonText) (timeout : Nat) (es : List Event) (ev : Event) : List reply :=
  emitted (run t timeout es State.init) (step t timeout (run t timeout es State.init) ev)

/-! ## The broker as interleaved goroutines

`outgoing` is an unbuffered channel: `outgoing <- r` blocks until `publish`
takes `r`, and meanwhile the other goroutines run; a goroutine that has been
let through its send runs on only when it is scheduled again.  Here a schedule
is any order in which the coordinator and the cleanup goroutines are let
through, one step at a time, and a step holds at most one access to the map
`pending` by a statement of `bidq.go`, taken as a whole:

* the coordinator (`handleMessages`) is idle at the receive from `incoming`,
  or blocked in one of the five sends of the handlers, or past the send of
  `SUBMIT_ACK` and before line 150, or past the send of `cancelJob` and before
  its `delete`;
* a cleanup goroutine (`go setupCleanup`) sleeps, or is blocked in the send of
  `cancelJob`, or is past that send and before its `delete`, or has ended;
* the receive from `incoming`, `json.Unmarshal`, `uuid.New` and the return
  from `time.Sleep` use no variable that another goroutine of this model uses,
  and are taken together with the lookup that follows them; `job.Bid` is read
  and written by the coordinator alone, through the pointer it has just read
  from the map, and lines 177 to 183 are one step;
* `Sys.outgoing` lists the envelopes in the order `publish` takes them;
* `Sys.drawn` lists the strings `uuid.New()` has returned so far. -/

/-- Where the coordinator goroutine stands. -/
inductive CoordPc where
  /-- In `handleMessages`, at the receive from `incoming`. -/
  | idle
  /-- In `handleSubmit`, blocked in the send of `SUBMIT_ACK` (line 149); `id` is drawn. -/
  | submitAck (req : request) (id : String) (sr : SubmitRequest)
  /-- In `handleSubmit`, past the send of `SUBMIT_ACK`, before line 150. -/
  | submitStore (req : request) (id : String) (sr : SubmitRequest)
  /-- In `handleSubmit`, blocked in the `Spread` send (line 157); the job is stored, its cleanup started. -/
  | submitSpread (req : request) (id : String) (sr : SubmitRequest)
  /-- In `cancelJob` called by `handleCancel`, blocked in the send (line 127). -/
  | cancel (req : request) (jobId : String)
  /-- In `cancelJob` called by `handleCancel`, past the send, before the `delete` (line 128). -/
  | cancelDelete (req : request) (jobId : String)
  /-- In `handleBid`, blocked in the send of `msg` (line 186); the flag is already written. -/
  | bid (req : request) (jobId : String) (msg : enums.Message)
  /-- In `handleJobResult`, blocked in the send (line 200) to the submitter `conn` it read. -/
  | result (req : request) (conn : Conn)

/-- Where a cleanup goroutine stands. -/
inductive CleanupPc where
  /-- In `time.Sleep`. -/
  | sleeping (c : Cleanup)
  /-- In `cancelJob`, blocked in the send (line 127), after the lookup found the job. -/
  | sending (c : Cleanup)
  /-- In `cancelJob`, past the send, before the `delete` (line 128). -/
  | deleting (c : Cleanup)
  /-- Returned. -/
  | done (c : Cleanup)

/-- The arguments the goroutine was started with. -/
def CleanupPc.cleanup : CleanupPc → Cleanup
  | CleanupPc.sleeping c => c
  | CleanupPc.sending c => c
  | CleanupPc.deleting c => c
  | CleanupPc.done c => c

/-- The goroutine is past its send: its failure has been taken by `publish`. -/
def CleanupPc.past : CleanupPc → Bool
  | CleanupPc.deleting _ => true
  | CleanupPc.done _ => true
  | _ => false

/-- The package-level variables and the goroutines that use them. -/
structure Sys where
  pending : Pending
  outgoing : List reply
  coord : CoordPc
  tasks : List CleanupPc
  drawn : List String

/-- The program at start: empty table, nothing sent, the coordinator at its receive. -/
def Sys.init : Sys := ⟨Pending.empty, [], CoordPc.idle, [], []⟩

/-- Go `reply{..}` of `handleSubmit` for `SUBMIT_ACK`. -/
def ackReply (t : JsonText) (req : request) (id : String) (sr : SubmitRequest) : reply :=
  ⟨t.print (AckSubmitReply.doc ⟨enums.SubmitAck, id, sr.Id⟩), req.Origin, enums.Direct⟩

/-- Go `reply{..}` of `handleSubmit` for the submission with `sr.Id = id`. -/
def spreadReply (t : JsonText) (req : request) (id : String) (sr : SubmitRequest) : reply :=
  ⟨t.print (SubmitRequest.doc { sr with Id := id }), req.Origin, enums.Spread⟩

/-- Go `reply{..}` of `cancelJob`. -/
def failureReply (t : JsonText) (jobId : String) (req : request) (reason : String) : reply :=
  ⟨t.print (FailureReply.doc ⟨enums.JobFailure, jobId, reason⟩), req.Origin, enums.Direct⟩

/-- Go `reply{..}` of `handleBid`. -/
def bidReply (t : JsonText) (req : request) (jobId : String) (msg : enums.Message) : reply :=
  ⟨t.print (BaseRequest.doc ⟨msg, jobId⟩), req.Origin, enums.Direct⟩

/-- Go `reply{..}` of `handleJobResult`. -/
def resultReply (req : request) (conn : Conn) : reply :=
  ⟨req.Data, conn, enums.Direct⟩

/-- The envelope the coordinator is blocked sending, if it is. -/
def CoordPc.held (t : JsonText) : CoordPc → Option reply
  | CoordPc.idle => none
  | CoordPc.submitAck req id sr => some (ackReply t req id sr)
  | CoordPc.submitStore _ _ _ => none
  | CoordPc.submitSpread req id sr => some (spreadReply t req id sr)
  | CoordPc.cancel req jobId => some (failureReply t jobId req "Client cancel")
  | CoordPc.cancelDelete _ _ => none
  | CoordPc.bid req jobId msg => some (bidReply t req jobId msg)
  | CoordPc.result req conn => some (resultReply req conn)

/-- The id that `handleSubmit` has drawn and not yet stored. -/
def CoordPc.reserved : CoordPc → Option String
  | CoordPc.submitAck _ id _ => some id
  | CoordPc.submitStore _ id _ => some id
  | _ => none

/-- Go `processMessage` from the receive of `req` up to its first send, or to
its return when it sends nothing.  `id` is what `uuid.New()` returns if asked.
The handlers decode the frame again into `CancelRequest`, `BidRequest`,
`BaseRequest`, which have the fields of `m` and yield `m`. -/
def accept (t : JsonText) (req : request) (id : String) (σ : Sys) : Sys :=
  match BaseRequest.unmarshal t req.Data with
  | none => σ
  | some m =>
    if m.Type_ = enums.Submit then
      match SubmitRequest.unmarshal t req.Data with
      | none => σ
      | some sr => { σ with coord := CoordPc.submitAck req id sr, drawn := σ.drawn ++ [id] }
    else if m.Type_ = enums.Cancel then
      match σ.pending m.Id with
      | some _ => { σ with coord := CoordPc.cancel req m.Id }
      | none => σ
    else if m.Type_ = enums.Bid then
      match σ.pending m.Id with
      | some jb =>
        if !jb.Bid then
          { σ with pending := Pending.set σ.pending m.Id { jb with Bid := true },
                   coord := CoordPc.bid req m.Id enums.BidAck }
        else { σ with coord := CoordPc.bid req m.Id enums.BidReject }
      | none => σ
    else if m.Type_ = enums.JobFailure ∨ m.Type_ = enums.JobSuccess then
      match σ.pending m.Id with
      | some jb => { σ with coord := CoordPc.result req jb.Conn }
      | none => σ
    else σ

/-- What lets a goroutine through. -/
inductive Act where
  /-- The coordinator receives `req` from `incoming`. -/
  | recv (req : request) (id : String)
  /-- The function `publish` takes the envelope the coordinator is blocked sending. -/
  | coordSent
  /-- The coordinator runs on from a send that `publish` has taken. -/
  | coordRuns
  /-- The `k`-th cleanup goroutine returns from `time.Sleep`. -/
  | wake (k : Nat)
  /-- The function `publish` takes the envelope the `k`-th cleanup goroutine is blocked sending. -/
  | taskSent (k : Nat)
  /-- The `k`-th cleanup goroutine runs on from the send that `publish` has taken. -/
  | taskRuns (k : Nat)

/-- One goroutine makes one step.  An action whose goroutine is not at that
point changes nothing. -/
def micro (t : JsonText) (timeout : Nat) (σ : Sys) : Act → Sys
  | Act.recv req id =>
    match σ.coord with
    | CoordPc.idle => accept t req id σ
    | _ => σ
  | Act.coordSent =>
    match σ.coord with
    | CoordPc.submitAck req id sr =>
      { σ with outgoing := σ.outgoing ++ [ackReply t req id sr],
               coord := CoordPc.submitStore req id sr }
    | CoordPc.submitSpread req id sr =>
      { σ with outgoing := σ.outgoing ++ [spreadReply t req id sr], coord := CoordPc.idle }
    | CoordPc.cancel req jobId =>
      { σ with outgoing := σ.outgoing ++ [failureReply t jobId req "Client cancel"],
               coord := CoordPc.cancelDelete req jobId }
    | CoordPc.bid req jobId msg =>
      { σ with outgoing := σ.outgoing ++ [bidReply t req jobId msg], coord := CoordPc.idle }
    | CoordPc.result req conn =>
      { σ with outgoing := σ.outgoing ++ [resultReply req conn], coord := CoordPc.idle }
    | _ => σ
  | Act.coordRuns =>
    match σ.coord with
    | CoordPc.submitStore req id sr =>
      { σ with pending := Pending.set σ.pending id ⟨req.Origin, false⟩,
               tasks := σ.tasks ++ [CleanupPc.sleeping ⟨id, req, timeout⟩],
               coord := CoordPc.submitSpread req id sr }
    | CoordPc.cancelDelete _ jobId =>
      { σ with pending := Pending.delete σ.pending jobId, coord := CoordPc.idle }
    | _ => σ
  | Act.wake k =>
    match σ.tasks.get? k with
    | some (CleanupPc.sleeping c) =>
      match σ.pending c.jobId with
      | some _ => { σ with tasks := σ.tasks.set k (CleanupPc.sending c) }
      | none => { σ with tasks := σ.tasks.set k (CleanupPc.done c) }
    | _ => σ
  | Act.taskSent k =>
    match σ.tasks.get? k with
    | some (CleanupPc.sending c) =>
      { σ with outgoing := σ.outgoing ++ [failureReply t c.jobId c.req "Queue timeout"],
               tasks := σ.tasks.set k (CleanupPc.deleting c) }
    | _ => σ
  | Act.taskRuns k =>
    match σ.tasks.get? k with
    | some (CleanupPc.deleting c) =>
      { σ with pending := Pending.delete σ.pending c.jobId,
               tasks := σ.tasks.set k (CleanupPc.done c) }
    | _ => σ

/-- The state after the schedule `acts`, starting from `σ`. -/
def mrun (t : JsonText) (timeout : Nat) (acts : List Act) (σ : Sys) : Sys :=
  acts.foldl (micro t timeout) σ

/-- Some goroutine of `σ` is blocked in the send of `r`. -/
def Sys.holds (t : JsonText) (σ : Sys) (r : reply) : Prop :=
  σ.coord.held t = some r ∨
  ∃ c, CleanupPc.sending c ∈ σ.tasks ∧ r = failureReply t c.jobId c.req "Queue timeout"

/-- The seventeen things one action can do. -/
inductive MicroEffect (t : JsonText) (timeout : Nat) (σ : Sys) (a : Act) (σ1 : Sys) : Prop where
  /-- The goroutine is not at that point, or the frame asks for nothing. -/
  | stay (h : σ1 = σ)
  /-- The coordinator enters `handleSubmit`, draws `id` and blocks in the first send. -/
  | gotSubmit (req : request) (id : String) (sr : SubmitRequest) (ha : a = Act.recv req id)
      (hc : σ.coord = CoordPc.idle) (hdec : SubmitRequest.unmarshal t req.Data = some sr)
      (hty : sr.Type_ = enums.Submit)
      (h : σ1 = { σ with coord := CoordPc.submitAck req id sr, drawn := σ.drawn ++ [id] })
  /-- The coordinator enters `cancelJob`, finds the job and blocks in the send. -/
  | gotCancel (req : request) (id : String) (J : String) (jb : job) (ha : a = Act.recv req id)
      (hc : σ.coord = CoordPc.idle)
      (hdec : BaseRequest.unmarshal t req.Data = some ⟨enums.Cancel, J⟩)
      (hj : σ.pending J = some jb)
      (h : σ1 = { σ with coord := CoordPc.cancel req J })
  /-- The coordinator claims the job in `handleBid` and blocks in the send of `BID_ACK`. -/
  | gotBidAck (req : request) (id : String) (J : String) (jb : job) (ha : a = Act.recv req id)
      (hc : σ.coord = CoordPc.idle)
      (hdec : BaseRequest.unmarshal t req.Data = some ⟨enums.Bid, J⟩)
      (hj : σ.pending J = some jb) (hb : jb.Bid = false)
      (h : σ1 = { σ with pending := Pending.set σ.pending J ⟨jb.Conn, true⟩,
                         coord := CoordPc.bid req J enums.BidAck })
  /-- The coordinator finds the job claimed and blocks in the send of `BID_REJECT`. -/
  | gotBidReject (req : request) (id : String) (J : String) (jb : job)
      (ha : a = Act.recv req id) (hc : σ.coord = CoordPc.idle)
      (hdec : BaseRequest.unmarshal t req.Data = some ⟨enums.Bid, J⟩)
      (hj : σ.pending J = some jb) (hb : jb.Bid = true)
      (h : σ1 = { σ with coord := CoordPc.bid req J enums.BidReject })
  /-- The coordinator finds the job in `handleJobResult` and blocks in the forward. -/
  | gotResult (req : request) (id : String) (m : BaseRequest) (jb : job)
      (ha : a = Act.recv req id) (hc : σ.coord = CoordPc.idle)
      (hdec : BaseRequest.unmarshal t req.Data = some m)
      (hty : m.Type_ = enums.JobFailure ∨ m.Type_ = enums.JobSuccess)
      (hj : σ.pending m.Id = some jb)
      (h : σ1 = { σ with coord := CoordPc.result req jb.Conn })
  /-- `SUBMIT_ACK` is taken. -/
  | sentAck (req : request) (id : String) (sr : SubmitRequest) (ha : a = Act.coordSent)
      (hc : σ.coord = CoordPc.submitAck req id sr)
      (h : σ1 = { σ with outgoing := σ.outgoing ++ [ackReply t req id sr],
                         coord := CoordPc.submitStore req id sr })
  /-- The job is stored, its cleanup started, the `Spread` send begins. -/
  | stored (req : request) (id : String) (sr : SubmitRequest) (ha : a = Act.coordRuns)
      (hc : σ.coord = CoordPc.submitStore req id sr)
      (h : σ1 = { σ with pending := Pending.set σ.pending id ⟨req.Origin, false⟩,
                         tasks := σ.tasks ++ [CleanupPc.sleeping ⟨id, req, timeout⟩],
                         coord := CoordPc.submitSpread req id sr })
  /-- The re-emitted submission is taken; `handleSubmit` returns. -/
  | sentSpread (req : request) (id : String) (sr : SubmitRequest) (ha : a = Act.coordSent)
      (hc : σ.coord = CoordPc.submitSpread req id sr)
      (h : σ1 = { σ with outgoing := σ.outgoing ++ [spreadReply t req id sr],
                         coord := CoordPc.idle })
  /-- The failure of a `CANCEL` is taken. -/
  | sentCancel (req : request) (J : String) (ha : a = Act.coordSent)
      (hc : σ.coord = CoordPc.cancel req J)
      (h : σ1 = { σ with outgoing := σ.outgoing ++ [failureReply t J req "Client cancel"],
                         coord := CoordPc.cancelDelete req J })
  /-- The coordinator deletes the job; `handleCancel` returns. -/
  | cancelled (req : request) (J : String) (ha : a = Act.coordRuns)
      (hc : σ.coord = CoordPc.cancelDelete req J)
      (h : σ1 = { σ with pending := Pending.delete σ.pending J, coord := CoordPc.idle })
  /-- The answer to a bid is taken. -/
  | sentBid (req : request) (J : String) (msg : enums.Message) (ha : a = Act.coordSent)
      (hc : σ.coord = CoordPc.bid req J msg)
      (h : σ1 = { σ with outgoing := σ.outgoing ++ [bidReply t req J msg],
                         coord := CoordPc.idle })
  /-- The forwarded result is taken. -/
  | sentResult (req : request) (conn : Conn) (ha : a = Act.coordSent)
      (hc : σ.coord = CoordPc.result req conn)
      (h : σ1 = { σ with outgoing := σ.outgoing ++ [resultReply req conn],
                         coord := CoordPc.idle })
  /-- A cleanup wakes, finds its job and blocks in the send. -/
  | woke (k : Nat) (c : Cleanup) (jb : job) (ha : a = Act.wake k)
      (hk : σ.tasks.get? k = some (CleanupPc.sleeping c)) (hj : σ.pending c.jobId = some jb)
      (h : σ1 = { σ with tasks := σ.tasks.set k (CleanupPc.sending c) })
  /-- A cleanup wakes, does not find its job and returns. -/
  | wokeLate (k : Nat) (c : Cleanup) (ha : a = Act.wake k)
      (hk : σ.tasks.get? k = some (CleanupPc.sleeping c)) (hj : σ.pending c.jobId = none)
      (h : σ1 = { σ with tasks := σ.tasks.set k (CleanupPc.done c) })
  /-- The failure of a timeout is taken. -/
  | sentTimeout (k : Nat) (c : Cleanup) (ha : a = Act.taskSent k)
      (hk : σ.tasks.get? k = some (CleanupPc.sending c))
      (h : σ1 = { σ with outgoing := σ.outgoing ++ [failureReply t c.jobId c.req "Queue timeout"],
                         tasks := σ.tasks.set k (CleanupPc.deleting c) })
  /-- The cleanup deletes the job and returns. -/
  | timedOut (k : Nat) (c : Cleanup) (ha : a = Act.taskRuns k)
      (hk : σ.tasks.get? k = some (CleanupPc.deleting c))
      (h : σ1 = { σ with pending := Pending.delete σ.pending c.jobId,
                         tasks := σ.tasks.set k (CleanupPc.done c) })

/-- The job id a cleanup goroutine was started for. -/
def CleanupPc.jobId (p : CleanupPc) : String := p.cleanup.jobId

/-- The types the coordinator is about to write are those of its handlers. -/
def CoordPc.wellTyped : CoordPc → Prop
  | CoordPc.submitAck _ _ sr => sr.Type_ = enums.Submit
  | CoordPc.submitStore _ _ sr => sr.Type_ = enums.Submit
  | CoordPc.submitSpread _ _ sr => sr.Type_ = enums.Submit
  | CoordPc.bid _ _ msg => msg = enums.BidAck ∨ msg = enums.BidReject
  | _ => True

/-- What holds of every state a schedule with distinct ids reaches: pending ids
and the ids of the cleanup goroutines were drawn and are not the id
`handleSubmit` is about to store; a cancel under way is for a drawn id; no two
cleanup goroutines were started for the same id. -/
structure Sys.Good (σ : Sys) : Prop where
  pend : ∀ J jb, σ.pending J = some jb → J ∈ σ.drawn ∧ σ.coord.reserved ≠ some J
  task : ∀ p ∈ σ.tasks, p.jobId ∈ σ.drawn ∧ σ.coord.reserved ≠ some p.jobId
  canc : ∀ req J, σ.coord = CoordPc.cancel req J ∨ σ.coord = CoordPc.cancelDelete req J →
    J ∈ σ.drawn
  resv : ∀ N, σ.coord.reserved = some N → N ∈ σ.drawn
  uniq : (σ.tasks.map CleanupPc.jobId).Nodup
  typed : σ.coord.wellTyped

instance (t : JsonText) (J : String) (r : reply) : Decidable (r.idIs t J) := by
  unfold reply.idIs; infer_instance

/-- Connection `3` submits and gets `j1`; both sends of `handleSubmit` are taken. -/
def submitted : List Act :=
  [Act.recv ⟨submitFrame, 3⟩ "j1", Act.coordSent, Act.coordRuns, Act.coordSent]

/-- After `submitted`, connection `3` sends `CANCEL`; the coordinator finds
`j1` and blocks in its send; the cleanup of `j1` wakes, finds `j1` too and
blocks in its send. -/
def bothInCancelJob : List Act :=
  submitted ++ [Act.recv ⟨cancelFrame, 3⟩ "u1", Act.wake 0]

/-- After `bothInCancelJob`, both failures are taken, the one of the `CANCEL`
first; the two goroutines stand before `delete(pending, "j1")`. -/
def bothBeforeDelete : List Act :=
  bothInCancelJob ++ [Act.coordSent, Act.taskSent 0]

/-- A peer that decodes the envelope as a `FailureReply` reads `JOB_FAILURE`,
the id `J` and the reason `reason`. -/
def reply.failureFor (t : JsonText) (J reason : String) (r : reply) : Bool :=
  match FailureReply.unmarshal t r.Data with
  | some f => decide (f.Type_ = enums.JobFailure ∧ f.Id = J ∧ f.Reason = reason)
  | none => false

/-- How many of the envelopes `l` read as `JOB_FAILURE` for `J` with the reason `reason`. -/
def failureCount (t : JsonText) (J reason : String) (l : List reply) : Nat :=
  l.countP (reply.failureFor t J reason)

/-- How many of the envelopes `l` read as `JOB_SUCCESS` for `J`. -/
def successCount (t : JsonText) (J : String) (l : List reply) : Nat :=
  l.countP (fun r => decide (r.carries t enums.JobSuccess J))

/-- The frame is one that `processMessage` hands to `handleJobResult`, and it names `J`. -/
def request.reportsOn (t : JsonText) (J : String) (req : request) : Bool :=
  match BaseRequest.unmarshal t req.Data with
  | some m => decide ((m.Type_ = enums.JobFailure ∨ m.Type_ = enums.JobSuccess) ∧ m.Id = J)
  | none => false

/-- The action is the receive of a frame that reports on `J`. -/
def Act.reportsOn (t : JsonText) (J : String) : Act → Bool
  | Act.recv req _ => req.reportsOn t J
  | _ => false

/-- The envelope that `publish` takes in the action `a`, if `a` lets a send through. -/
def Sys.taken (t : JsonText) (σ : Sys) : Act → Option reply
  | Act.coordSent => σ.coord.held t
  | Act.taskSent k =>
    match σ.tasks.get? k with
    | some (CleanupPc.sending c) => some (failureReply t c.jobId c.req "Queue timeout")
    | _ => none
  | _ => none

/-- Once the failure `Client cancel` for `J` has been taken, it has been taken
once, `handleCancel` is not sending it again, and `J` is deleted or the
coordinator stands before deleting it. -/
structure Sys.CancelSeen (t : JsonText) (J : String) (σ : Sys) : Prop where
  once : failureCount t J "Client cancel" σ.outgoing ≤ 1
  gen : 1 ≤ failureCount t J "Client cancel" σ.outgoing → J ∈ σ.drawn
  resv : 1 ≤ failureCount t J "Client cancel" σ.outgoing → σ.coord.reserved ≠ some J
  left : 1 ≤ failureCount t J "Client cancel" σ.outgoing → ∀ req, σ.coord ≠ CoordPc.cancel req J
  gone : 1 ≤ failureCount t J "Client cancel" σ.outgoing →
    σ.pending J = none ∨ ∃ req, σ.coord = CoordPc.cancelDelete req J

/-- Once the failure `Queue timeout` for `J` has been taken, it has been taken
once and every cleanup goroutine of `J` is past its send. -/
structure Sys.TimeoutSeen (t : JsonText) (J : String) (σ : Sys) : Prop where
  once : failureCount t J "Queue timeout" σ.outgoing ≤ 1
  gen : 1 ≤ failureCount t J "Queue timeout" σ.outgoing → J ∈ σ.drawn
  resv : 1 ≤ failureCount t J "Queue timeout" σ.outgoing → σ.coord.reserved ≠ some J
  past : 1 ≤ failureCount t J "Queue timeout" σ.outgoing →
    ∀ p ∈ σ.tasks, p.jobId = J → p.past = true

/-- The goroutine has returned. -/
def CleanupPc.isDone : CleanupPc → Bool
  | CleanupPc.done _ => true
  | _ => false

/-- Every pending job has a cleanup goroutine that has not returned. -/
def Sys.Live (σ : Sys) : Prop :=
  ∀ J jb, σ.pending J = some jb →
    ∃ k p, σ.tasks.get? k = some p ∧ p.jobId = J ∧ p.isDone = false

/-- The `k`-th cleanup goroutine is let through, from wherever it stands to
its return, and no other goroutine is. -/
def cleanupAlone (k : Nat) : List Act := [Act.wake k, Act.taskSent k, Act.taskRuns k]

/-- Connection `3` submits and gets `j1`, and sends `CANCEL`: the coordinator
is blocked in the send of `handleCancel`. -/
def cancelUnderWay : List Act := submitted ++ [Act.recv ⟨cancelFrame, 3⟩ "u1"]

/-! # Theorems -/


/-! ## The text layer `wire` round-trips -/

theorem Wire.getString_putString (s : String) (rest : List Nat) :
    Wire.getString (Wire.putString s ++ rest) = some (s, rest) := by
  cases s with
  | mk cs =>
    simp [Wire.putString, Wire.getString, List.take_append_eq_append_take,
      List.drop_append_eq_append_drop, Function.comp_def]

mutual
theorem Wire.get_put : ∀ (d : JVal) (f : Nat) (rest : List Nat), (Wire.put d).length ≤ f →
    Wire.get f (Wire.put d ++ rest) = some (d, rest)
  | JVal.null, f, rest, h => by
    cases f with
    | zero => simp [Wire.put] at h
    | succ f => simp [Wire.put, Wire.get]
  | JVal.bool b, f, rest, h => by
    cases f with
    | zero => simp [Wire.put] at h
    | succ f => cases b <;> simp [Wire.put, Wire.get]
  | JVal.num l, f, rest, h => by
    cases f with
    | zero => simp [Wire.put] at h
    | succ f => simp [Wire.put, Wire.get, Wire.getString_putString]
  | JVal.str l, f, rest, h => by
    cases f with
    | zero => simp [Wire.put] at h
    | succ f => simp [Wire.put, Wire.get, Wire.getString_putString]
  | JVal.arr xs, f, rest, h => by
    cases f with
    | zero => simp [Wire.put] at h
    | succ f =>
      have h1 : (Wire.putItems xs).length ≤ f := by simp [Wire.put] at h; omega
      simp [Wire.put, Wire.get, Wire.getItems_putItems xs f rest h1]
  | JVal.obj xs, f, rest, h => by
    cases f with
    | zero => simp [Wire.put] at h
    | succ f =>
      have h1 : (Wire.putMembers xs).length ≤ f := by simp [Wire.put] at h; omega
      simp [Wire.put, Wire.get, Wire.getMembers_putMembers xs f rest h1]
theorem Wire.getItems_putItems : ∀ (xs : List JVal) (f : Nat) (rest : List Nat),
    (Wire.putItems xs).length ≤ f → Wire.getItems f (Wire.putItems xs ++ rest) = some (xs, rest)
  | [], f, rest, h => by
    cases f with
    | zero => simp [Wire.putItems] at h
    | succ f => simp [Wire.putItems, Wire.getItems]
  | x :: xs, f, rest, h => by
    cases f with
    | zero => simp [Wire.putItems] at h
    | succ f =>
      have h1 : (Wire.put x).length ≤ f := by simp [Wire.putItems] at h; omega
      have h2 : (Wire.putItems xs).length ≤ f := by simp [Wire.putItems] at h; omega
      simp [Wire.putItems, Wire.getItems, List.append_assoc, Wire.get_put x f _ h1,
        Wire.getItems_putItems xs f rest h2]
theorem Wire.getMembers_putMembers : ∀ (xs : List (String × JVal)) (f : Nat) (rest : List Nat),
    (Wire.putMembers xs).length ≤ f →
    Wire.getMembers f (Wire.putMembers xs ++ rest) = some (xs, rest)
  | [], f, rest, h => by
    cases f with
    | zero => simp [Wire.putMembers] at h
    | succ f => simp [Wire.putMembers, Wire.getMembers]
  | (k, x) :: xs, f, rest, h => by
    cases f with
    | zero => simp [Wire.putMembers] at h
    | succ f =>
      have h1 : (Wire.put x).length ≤ f := by simp [Wire.putMembers] at h; omega
      have h2 : (Wire.putMembers xs).length ≤ f := by simp [Wire.putMembers] at h; omega
      simp [Wire.putMembers, Wire.getMembers, List.append_assoc, Wire.getString_putString,
        Wire.get_put x f _ h1, Wire.getMembers_putMembers xs f rest h2]
end

theorem wire_roundTrip : wire.RoundTrip := by
  intro d
  have h := Wire.get_put d (Wire.put d).length [] (le_refl _)
  simp only [List.append_nil] at h
  simp [wire, Wire.parse, h]

/-! ## Decoding what the broker prints -/

theorem fold_type : asciiFold "type" = "type" := by decide
theorem fold_id : asciiFold "id" = "id" := by decide
theorem fold_topic : asciiFold "topic" = "topic" := by decide
theorem fold_payload : asciiFold "payload" = "payload" := by decide
theorem fold_clientId : asciiFold "clientId" = "clientid" := by decide
theorem fold_reason : asciiFold "reason" = "reason" := by decide

/-- A frame that decodes as a `SubmitRequest` decodes as a `BaseRequest`, to the same type and id. -/
theorem submit_members_base (t : JsonText) :
    ∀ (ms : List (String × JVal)) (acc r : SubmitRequest),
      SubmitRequest.members t acc ms = some r →
      BaseRequest.members ⟨acc.Type_, acc.Id⟩ ms = some ⟨r.Type_, r.Id⟩ := by
  intro ms
  induction ms with
  | nil =>
    intro acc r h
    simp [SubmitRequest.members] at h
    simp [BaseRequest.members, h]
  | cons kv rest ih =>
    intro acc r h
    simp only [SubmitRequest.members] at h
    cases hm : SubmitRequest.member t acc kv with
    | none => simp [hm] at h
    | some acc1 =>
      simp only [hm] at h
      have hb : BaseRequest.member ⟨acc.Type_, acc.Id⟩ kv = some ⟨acc1.Type_, acc1.Id⟩ := by
        unfold SubmitRequest.member at hm
        unfold BaseRequest.member
        by_cases h1 : asciiFold kv.1 = "type"
        · simp only [h1, if_true] at hm ⊢
          cases hs : storeString acc.Type_ kv.2 with
          | none => simp [hs] at hm
          | some v => simp [hs] at hm ⊢; simp [← hm]
        · by_cases h2 : asciiFold kv.1 = "id"
          · simp only [h1, h2, if_true, if_false] at hm ⊢
            cases hs : storeString acc.Id kv.2 with
            | none => simp [hs] at hm
            | some v => simp [hs] at hm ⊢; simp [← hm]
          · by_cases h3 : asciiFold kv.1 = "topic"
            · simp only [h1, h2, h3, if_true, if_false] at hm ⊢
              cases hs : storeString acc.Topic kv.2 with
              | none => simp [hs] at hm
              | some v => simp [hs] at hm; simp [← hm]
            · by_cases h4 : asciiFold kv.1 = "payload"
              · simp only [h1, h2, h3, h4, if_true, if_false] at hm ⊢
                cases hs : t.iface kv.2 with
                | none => simp [hs] at hm
                | some v => simp [hs] at hm; simp [← hm]
              · simp only [h1, h2, h3, h4, if_false] at hm ⊢
                simp at hm
                simp [← hm]
      simp only [BaseRequest.members, hb]
      exact ih acc1 r h

theorem submit_unmarshal_base (t : JsonText) (data : Bytes) (sr : SubmitRequest)
    (h : SubmitRequest.unmarshal t data = some sr) :
    BaseRequest.unmarshal t data = some ⟨sr.Type_, sr.Id⟩ := by
  unfold SubmitRequest.unmarshal at h
  unfold BaseRequest.unmarshal
  cases hp : t.parse data with
  | none => simp [hp] at h
  | some d =>
    cases d with
    | null => simp [hp] at h; simp [← h]
    | obj ms =>
      simp only [hp] at h ⊢
      exact submit_members_base t ms _ sr h
    | bool b => simp [hp] at h
    | num l => simp [hp] at h
    | str l => simp [hp] at h
    | arr l => simp [hp] at h

theorem base_unmarshal_doc (t : JsonText) (hrt : t.RoundTrip) (r : BaseRequest) :
    BaseRequest.unmarshal t (t.print (BaseRequest.doc r)) = some r := by
  obtain ⟨ty, id⟩ := r
  by_cases h : ty = "" <;>
    simp [BaseRequest.unmarshal, BaseRequest.doc, hrt _, omitempty, h, BaseRequest.members,
      BaseRequest.member, fold_type, fold_id, storeString]

theorem ack_unmarshal_doc (t : JsonText) (hrt : t.RoundTrip) (r : AckSubmitReply) :
    BaseRequest.unmarshal t (t.print (AckSubmitReply.doc r)) = some ⟨r.Type_, r.Id⟩ := by
  obtain ⟨ty, id, c⟩ := r
  by_cases h : ty = "" <;>
    simp [BaseRequest.unmarshal, AckSubmitReply.doc, hrt _, omitempty, h, BaseRequest.members,
      BaseRequest.member, fold_type, fold_id, fold_clientId, storeString]

theorem failure_unmarshal_doc (t : JsonText) (hrt : t.RoundTrip) (r : FailureReply) :
    BaseRequest.unmarshal t (t.print (FailureReply.doc r)) = some ⟨r.Type_, r.Id⟩ := by
  obtain ⟨ty, id, c⟩ := r
  by_cases h : ty = "" <;>
    simp [BaseRequest.unmarshal, FailureReply.doc, hrt _, omitempty, h, BaseRequest.members,
      BaseRequest.member, fold_type, fold_id, fold_reason, storeString]

theorem submit_unmarshal_doc (t : JsonText) (hrt : t.RoundTrip) (r : SubmitRequest) :
    BaseRequest.unmarshal t (t.print (SubmitRequest.doc r)) = some ⟨r.Type_, r.Id⟩ := by
  obtain ⟨ty, id, tp, pl⟩ := r
  by_cases h : ty = "" <;> by_cases h2 : tp = "" <;>
    simp [BaseRequest.unmarshal, SubmitRequest.doc, hrt _, omitempty, h, h2, BaseRequest.members,
      BaseRequest.member, fold_type, fold_id, fold_topic, fold_payload, storeString]

/-! ## Single handlers -/

/-- C1. `handleBid` on a decodable frame from `req.Origin` whose id is pending:
an unclaimed job is claimed and answered with one `BID_ACK` in `Direct` mode to
the sender; a claimed job is answered with one `BID_REJECT` in `Direct` mode to
the sender and the table stays as it is.  Either way the pending ids, the
submitters and every entry under another id are unchanged, and nothing is
scheduled. -/
theorem handleBid_ack_or_reject (t : JsonText) (st : State) (req : request) (br : BidRequest)
    (jb : job) (hdec : BaseRequest.unmarshal t req.Data = some br)
    (hjob : st.pending br.Id = some jb) :
    (handleBid t req st).err = false ∧
    (handleBid t req st).st.cleanups = st.cleanups ∧
    (jb.Bid = false →
      (handleBid t req st).st.outgoing = st.outgoing ++
        [⟨t.print (BaseRequest.doc ⟨enums.BidAck, br.Id⟩), req.Origin, enums.Direct⟩] ∧
      (handleBid t req st).st.pending = Pending.set st.pending br.Id ⟨jb.Conn, true⟩) ∧
    (jb.Bid = true →
      (handleBid t req st).st.outgoing = st.outgoing ++
        [⟨t.print (BaseRequest.doc ⟨enums.BidReject, br.Id⟩), req.Origin, enums.Direct⟩] ∧
      (handleBid t req st).st.pending = st.pending) ∧
    (∀ k, ((handleBid t req st).st.pending k).isSome = (st.pending k).isSome) ∧
    (∀ k, ((handleBid t req st).st.pending k).map job.Conn = (st.pending k).map job.Conn) ∧
    (∀ k, k ≠ br.Id → (handleBid t req st).st.pending k = st.pending k) := by
  obtain ⟨c, b⟩ := jb
  cases b with
  | false =>
    refine ⟨?_, ?_, ?_, ?_, ?_, ?_, ?_⟩ <;>
      simp [handleBid, hdec, hjob, State.send]
    · intro k
      by_cases hk : k = br.Id <;> simp [Pending.set, hk, hjob]
    · intro k
      by_cases hk : k = br.Id <;> simp [Pending.set, hk, hjob]
    · intro k hk
      simp [Pending.set, hk]
  | true =>
    refine ⟨?_, ?_, ?_, ?_, ?_, ?_, ?_⟩ <;>
      simp [handleBid, hdec, hjob, State.send]

/-- Witness for C1: connection `7` bids on the open job `j1`. -/
theorem handleBid_ack_or_reject_witness :
    BaseRequest.unmarshal wire bidFrame = some ⟨"BID", "j1"⟩ ∧
    oneOpenJob.pending "j1" = some ⟨3, false⟩ ∧
    (handleBid wire ⟨bidFrame, 7⟩ oneOpenJob).st.outgoing =
      [⟨wire.print (BaseRequest.doc ⟨enums.BidAck, "j1"⟩), 7, enums.Direct⟩] ∧
    (handleBid wire ⟨bidFrame, 7⟩ oneOpenJob).st.pending "j1" = some ⟨3, true⟩ :=
  ⟨rfl, rfl,
    ((handleBid_ack_or_reject wire oneOpenJob ⟨bidFrame, 7⟩ ⟨"BID", "j1"⟩ ⟨3, false⟩ rfl rfl).2.2.1
      rfl).1,
    by rw [((handleBid_ack_or_reject wire oneOpenJob ⟨bidFrame, 7⟩ ⟨"BID", "j1"⟩ ⟨3, false⟩
      rfl rfl).2.2.1 rfl).2]; rfl⟩

/-- C4. `handleSubmit` on a decodable `SUBMIT` frame with client id `sr.Id`,
topic `sr.Topic` and payload `sr.Payload`, the generator returning `J`: two
envelopes are sent, first `SUBMIT_ACK` with id `J` and clientId `sr.Id` in
`Direct` mode, then the submission with id `J` in `Spread` mode, both with the
sender as origin; the table becomes the old one with `J` mapped to the sender,
unclaimed; one cleanup for `J` is scheduled. -/
theorem handleSubmit_ack_then_spread (t : JsonText) (st : State) (req : request) (timeout : Nat)
    (J : String) (sr : SubmitRequest) (hdec : SubmitRequest.unmarshal t req.Data = some sr)
    (hty : sr.Type_ = enums.Submit) :
    (handleSubmit t req timeout J st).err = false ∧
    (handleSubmit t req timeout J st).st.outgoing = st.outgoing ++
      [⟨t.print (AckSubmitReply.doc ⟨enums.SubmitAck, J, sr.Id⟩), req.Origin, enums.Direct⟩,
       ⟨t.print (SubmitRequest.doc ⟨enums.Submit, J, sr.Topic, sr.Payload⟩), req.Origin,
         enums.Spread⟩] ∧
    (handleSubmit t req timeout J st).st.pending = Pending.set st.pending J ⟨req.Origin, false⟩ ∧
    (∀ k, k ≠ J → (handleSubmit t req timeout J st).st.pending k = st.pending k) ∧
    (handleSubmit t req timeout J st).st.cleanups = st.cleanups ++ [⟨J, req, timeout⟩] := by
  refine ⟨?_, ?_, ?_, ?_, ?_⟩ <;> simp [handleSubmit, hdec, State.send, ← hty]
  intro k hk
  simp [Pending.set, hk]

/-- Witness for C4: connection `3` submits `c1`, the generator returns `j1`. -/
theorem handleSubmit_ack_then_spread_witness :
    SubmitRequest.unmarshal wire submitFrame = some ⟨"SUBMIT", "c1", "t", JVal.num "42"⟩ ∧
    (handleSubmit wire ⟨submitFrame, 3⟩ 30 "j1" State.init).st.outgoing = [] ++
      [⟨wire.print (AckSubmitReply.doc ⟨enums.SubmitAck, "j1", "c1"⟩), 3, enums.Direct⟩,
       ⟨wire.print (SubmitRequest.doc ⟨enums.Submit, "j1", "t", JVal.num "42"⟩), 3,
         enums.Spread⟩] :=
  ⟨rfl, (handleSubmit_ack_then_spread wire State.init ⟨submitFrame, 3⟩ 30 "j1"
    ⟨"SUBMIT", "c1", "t", JVal.num "42"⟩ rfl rfl).2.1⟩

/-- C6. `handleCancel` on a decodable `CANCEL` frame with id `cr.Id` from any
connection: when the id is pending, one `JOB_FAILURE` with reason
`Client cancel` is sent in `Direct` mode with the sender of the cancel as
origin and the entry is removed; when it is not, the state is unchanged. -/
theorem handleCancel_removes (t : JsonText) (st : State) (req : request) (cr : CancelRequest)
    (hdec : BaseRequest.unmarshal t req.Data = some cr) :
    (handleCancel t req st).err = false ∧
    (handleCancel t req st).st.cleanups = st.cleanups ∧
    ((st.pending cr.Id).isSome = true →
      (handleCancel t req st).st.outgoing = st.outgoing ++
        [⟨t.print (FailureReply.doc ⟨enums.JobFailure, cr.Id, "Client cancel"⟩), req.Origin,
          enums.Direct⟩] ∧
      (handleCancel t req st).st.pending = Pending.delete st.pending cr.Id) ∧
    (st.pending cr.Id = none → (handleCancel t req st).st = st) := by
  cases hp : st.pending cr.Id with
  | none => simp [handleCancel, hdec, cancelJob, hp]
  | some jb => simp [handleCancel, hdec, cancelJob, hp, State.send]

/-- Witness for C6: connection `9`, not the submitter `3`, cancels `j1`. -/
theorem handleCancel_removes_witness :
    BaseRequest.unmarshal wire cancelFrame = some ⟨"CANCEL", "j1"⟩ ∧
    (handleCancel wire ⟨cancelFrame, 9⟩ oneOpenJob).st.outgoing = [] ++
      [⟨wire.print (FailureReply.doc ⟨enums.JobFailure, "j1", "Client cancel"⟩), 9,
        enums.Direct⟩] :=
  ⟨rfl, ((handleCancel_removes wire oneOpenJob ⟨cancelFrame, 9⟩ ⟨"CANCEL", "j1"⟩ rfl).2.2.1
    rfl).1⟩

/-- C7. `handleJobResult` on a decodable frame from any connection whose id is
pending, whatever the flag of the job: one envelope is sent, its data are the
bytes of the request, in `Direct` mode with the stored submitter as origin; the
table and the scheduled cleanups are unchanged. -/
theorem handleJobResult_forwards (t : JsonText) (st : State) (req : request) (br : BaseRequest)
    (jb : job) (hdec : BaseRequest.unmarshal t req.Data = some br)
    (hjob : st.pending br.Id = some jb) :
    (handleJobResult t req st).err = false ∧
    (handleJobResult t req st).st.outgoing =
      st.outgoing ++ [⟨req.Data, jb.Conn, enums.Direct⟩] ∧
    (handleJobResult t req st).st.pending = st.pending ∧
    (handleJobResult t req st).st.cleanups = st.cleanups := by
  simp [handleJobResult, hdec, hjob, State.send]

/-- Witness for C7: connection `5`, which never bid, reports success for `j1`. -/
theorem handleJobResult_forwards_witness :
    BaseRequest.unmarshal wire successFrame = some ⟨"JOB_SUCCESS", "j1"⟩ ∧
    (handleJobResult wire ⟨successFrame, 5⟩ oneOpenJob).st.outgoing =
      [] ++ [⟨successFrame, 3, enums.Direct⟩] :=
  ⟨rfl, (handleJobResult_forwards wire oneOpenJob ⟨successFrame, 5⟩ ⟨"JOB_SUCCESS", "j1"⟩
    ⟨3, false⟩ rfl rfl).2.1⟩

/-- C8. The cleanup that `handleSubmit` schedules for `J` is
`setupCleanup J req timeout` with the request of the submission; when it wakes
in a state where `J` is pending, one `JOB_FAILURE` with reason `Queue timeout`
is sent in `Direct` mode with the submitting connection as origin and `J` is
removed, the other entries staying; when `J` is not pending the state is
unchanged. -/
theorem setupCleanup_times_out (t : JsonText) (J : String) (req : request) (timeout : Nat)
    (st : State) :
    (∀ st0 sr, SubmitRequest.unmarshal t req.Data = some sr →
      (handleSubmit t req timeout J st0).st.cleanups = st0.cleanups ++ [⟨J, req, timeout⟩]) ∧
    ((st.pending J).isSome = true →
      (setupCleanup t J req timeout st).outgoing = st.outgoing ++
        [⟨t.print (FailureReply.doc ⟨enums.JobFailure, J, "Queue timeout"⟩), req.Origin,
          enums.Direct⟩] ∧
      (setupCleanup t J req timeout st).pending = Pending.delete st.pending J ∧
      (setupCleanup t J req timeout st).pending J = none ∧
      (∀ k, k ≠ J → (setupCleanup t J req timeout st).pending k = st.pending k)) ∧
    (st.pending J = none → setupCleanup t J req timeout st = st) := by
  refine ⟨?_, ?_, ?_⟩
  · intro st0 sr hdec
    simp [handleSubmit, hdec, State.send]
  · intro h
    cases hp : st.pending J with
    | none => simp [hp] at h
    | some jb =>
      refine ⟨?_, ?_, ?_, ?_⟩ <;> simp [setupCleanup, cancelJob, hp, State.send, Pending.delete]
      intro k hk
      simp [hk]
  · intro h
    simp [setupCleanup, cancelJob, h]

/-- C9. `processMessage` on a decodable `BID`, `CANCEL`, `JOB_SUCCESS` or
`JOB_FAILURE` frame whose id is not pending returns without error and leaves
the whole state, table and sent envelopes, as it was. -/
theorem processMessage_unknown_id (t : JsonText) (st : State) (req : request) (timeout : Nat)
    (id : String) (m : BaseRequest) (hdec : BaseRequest.unmarshal t req.Data = some m)
    (hty : m.Type_ = enums.Bid ∨ m.Type_ = enums.Cancel ∨ m.Type_ = enums.JobSuccess ∨
      m.Type_ = enums.JobFailure)
    (hmiss : st.pending m.Id = none) :
    processMessage t req timeout id st = ⟨false, st⟩ := by
  rcases hty with h | h | h | h <;>
    simp [processMessage, hdec, h, enums.Bid, enums.Cancel, enums.JobSuccess, enums.JobFailure,
      enums.Submit, handleBid, handleCancel, handleJobResult, cancelJob, hmiss]

/-- Witness for C9: a bid on the id `bogus` while only `j1` is pending. -/
theorem processMessage_unknown_id_witness :
    BaseRequest.unmarshal wire bogusBidFrame = some ⟨"BID", "bogus"⟩ ∧
    oneOpenJob.pending "bogus" = none ∧
    processMessage wire ⟨bogusBidFrame, 5⟩ 30 "j2" oneOpenJob = ⟨false, oneOpenJob⟩ :=
  ⟨rfl, rfl, processMessage_unknown_id wire oneOpenJob ⟨bogusBidFrame, 5⟩ 30 "j2"
    ⟨"BID", "bogus"⟩ rfl (Or.inl rfl) rfl⟩

/-! ## The dispatcher -/

theorem writtenTo_append (c : Conn) (l1 l2 : List (Conn × Bytes)) :
    writtenTo c (l1 ++ l2) = writtenTo c l1 ++ writtenTo c l2 := by
  simp [writtenTo]

/-- What one call of the visitor adds to the writes of connection `c`. -/
theorem writtenTo_publishVisit (r : reply) (k c : Conn) (log : List (Conn × Bytes)) :
    writtenTo c (publishVisit r k log) = writtenTo c log ++
      (if k = c ∧ ((r.To = enums.Direct ∧ c = r.Origin) ∨ (r.To = enums.Spread ∧ c ≠ r.Origin) ∨
        r.To = enums.Broadcast) then [r.Data] else []) := by
  unfold publishVisit
  by_cases hk : k = c
  · subst hk
    by_cases h0 : r.To = enums.Direct
    · by_cases ho : r.Origin = k
      · simp [h0, ho, writtenTo_append, writtenTo]
      · have ho1 : ¬ k = r.Origin := fun h => ho h.symm
        simp [h0, ho, ho1, enums.Direct, enums.Spread, enums.Broadcast]
    · by_cases h1 : r.To = enums.Spread
      · by_cases ho : r.Origin = k
        · simp [h1, ho, enums.Direct, enums.Spread, enums.Broadcast]
        · have ho1 : ¬ k = r.Origin := fun h => ho h.symm
          simp [h1, ho, ho1, enums.Direct, enums.Spread, enums.Broadcast, writtenTo_append,
            writtenTo]
      · by_cases h2 : r.To = enums.Broadcast
        · simp [h2, enums.Direct, enums.Spread, enums.Broadcast, writtenTo_append, writtenTo]
        · simp [h0, h1, h2]
  · have hw : writtenTo c (log ++ [(k, r.Data)]) = writtenTo c log := by
      simp [writtenTo, hk]
    simp only [hk, false_and, if_false, List.append_nil]
    split_ifs <;> simp [hw]

theorem writtenTo_foldl_publishVisit (r : reply) (c : Conn) :
    ∀ (ks : List Conn), ks.Nodup → ∀ (log : List (Conn × Bytes)),
      writtenTo c (ks.foldl (fun acc conn => publishVisit r conn acc) log) = writtenTo c log ++
        (if c ∈ ks ∧ ((r.To = enums.Direct ∧ c = r.Origin) ∨
          (r.To = enums.Spread ∧ c ≠ r.Origin) ∨ r.To = enums.Broadcast)
         then [r.Data] else []) := by
  intro ks
  induction ks with
  | nil => intro _ log; simp
  | cons k rest ih =>
    intro hnd log
    have hk : k ∉ rest := (List.nodup_cons.mp hnd).1
    have hrest : rest.Nodup := (List.nodup_cons.mp hnd).2
    simp only [List.foldl_cons]
    rw [ih hrest, writtenTo_publishVisit]
    by_cases hkc : k = c
    · subst hkc
      simp [hk]
    · have hck : ¬ c = k := fun h => hkc h.symm
      simp [hkc, hck]

/-- The writes one envelope adds to connection `c`, on top of any earlier log. -/
theorem writtenTo_publishOne (cs : ConnectionsSet) (r : reply) (c : Conn)
    (log : List (Conn × Bytes)) :
    writtenTo c (publishOne cs r log) =
      writtenTo c log ++ (if selects cs r c then [r.Data] else []) := by
  unfold publishOne ConnectionsSet.ForEach
  rw [writtenTo_foldl_publishVisit r c cs.keys cs.nodup log]
  congr 1
  by_cases hc : c ∈ cs.keys <;> simp [selects, hc]

/-- C5. Dispatching one envelope over the registry `cs` writes its data once to
every connection that the mode selects (the origin if registered for `Direct`,
the registered peers other than the origin for `Spread`, every registered peer
for `Broadcast`) and writes nothing to any other connection; every write goes
to a registered connection and carries the data of the envelope. -/
theorem publishOne_routes (cs : ConnectionsSet) (r : reply) :
    (∀ c, writtenTo c (publishOne cs r []) = if selects cs r c then [r.Data] else []) ∧
    (∀ w ∈ publishOne cs r [], w.1 ∈ cs.keys ∧ w.2 = r.Data) ∧
    (∀ c, c ∉ cs.keys → ∀ b, (c, b) ∉ publishOne cs r []) := by
  have hall : ∀ w ∈ publishOne cs r [], w.1 ∈ cs.keys ∧ w.2 = r.Data := by
    intro w hw
    have hmem : w.2 ∈ writtenTo w.1 (publishOne cs r []) := by
      simp only [writtenTo, List.mem_map, List.mem_filter]
      exact ⟨w, ⟨hw, by simp⟩, rfl⟩
    rw [writtenTo_publishOne] at hmem
    by_cases hs : selects cs r w.1
    · simp [hs, writtenTo] at hmem
      refine ⟨?_, hmem⟩
      rcases hs with ⟨_, _, h⟩ | ⟨_, _, h⟩ | ⟨_, h⟩ <;> exact h
    · simp [hs, writtenTo] at hmem
  refine ⟨?_, hall, ?_⟩
  · intro c
    rw [writtenTo_publishOne]
    simp [writtenTo]
  · intro c hc b hb
    exact hc (hall (c, b) hb).1

/-- C10. A registered connection submits; the envelopes `processMessage` sends
for it are dispatched over the registry.  The submitter is written exactly one
frame, the `SUBMIT_ACK` with the new id `J` and the client id of the
submission; every other registered connection is written exactly one frame,
the submission with id `J`; the two frames differ, one reading as `SUBMIT_ACK`
and the other as `SUBMIT`, both with id `J`; an unregistered connection is
written nothing. -/
theorem submit_reaches_each_peer_once (t : JsonText) (cs : ConnectionsSet) (st : State)
    (req : request) (timeout : Nat) (J : String) (sr : SubmitRequest)
    (hrt : t.RoundTrip) (hreg : req.Origin ∈ cs.keys)
    (hdec : SubmitRequest.unmarshal t req.Data = some sr) (hty : sr.Type_ = enums.Submit) :
    writtenTo req.Origin (publish cs (emitted st (processMessage t req timeout J st).st) []) =
      [t.print (AckSubmitReply.doc ⟨enums.SubmitAck, J, sr.Id⟩)] ∧
    (∀ c ∈ cs.keys, c ≠ req.Origin →
      writtenTo c (publish cs (emitted st (processMessage t req timeout J st).st) []) =
        [t.print (SubmitRequest.doc ⟨enums.Submit, J, sr.Topic, sr.Payload⟩)]) ∧
    (∀ c, c ∉ cs.keys →
      writtenTo c (publish cs (emitted st (processMessage t req timeout J st).st) []) = []) ∧
    BaseRequest.unmarshal t (t.print (AckSubmitReply.doc ⟨enums.SubmitAck, J, sr.Id⟩)) =
      some ⟨enums.SubmitAck, J⟩ ∧
    BaseRequest.unmarshal t
      (t.print (SubmitRequest.doc ⟨enums.Submit, J, sr.Topic, sr.Payload⟩)) =
      some ⟨enums.Submit, J⟩ ∧
    t.print (AckSubmitReply.doc ⟨enums.SubmitAck, J, sr.Id⟩) ≠
      t.print (SubmitRequest.doc ⟨enums.Submit, J, sr.Topic, sr.Payload⟩) := by
  have hbase := submit_unmarshal_base t req.Data sr hdec
  have hout : emitted st (processMessage t req timeout J st).st =
      [⟨t.print (AckSubmitReply.doc ⟨enums.SubmitAck, J, sr.Id⟩), req.Origin, enums.Direct⟩,
       ⟨t.print (SubmitRequest.doc ⟨enums.Submit, J, sr.Topic, sr.Payload⟩), req.Origin,
         enums.Spread⟩] := by
    rw [hty] at hbase
    simp [emitted, processMessage, hbase, handleSubmit, hdec, State.send, hty]
  have hack := ack_unmarshal_doc t hrt ⟨enums.SubmitAck, J, sr.Id⟩
  have hsub := submit_unmarshal_doc t hrt ⟨enums.Submit, J, sr.Topic, sr.Payload⟩
  have hw : ∀ c, writtenTo c (publish cs (emitted st (processMessage t req timeout J st).st) []) =
      (if c = req.Origin ∧ c ∈ cs.keys
        then [t.print (AckSubmitReply.doc ⟨enums.SubmitAck, J, sr.Id⟩)] else []) ++
      (if c ≠ req.Origin ∧ c ∈ cs.keys
        then [t.print (SubmitRequest.doc ⟨enums.Submit, J, sr.Topic, sr.Payload⟩)] else []) := by
    intro c
    rw [hout]
    simp only [publish, List.foldl_cons, List.foldl_nil]
    rw [writtenTo_publishOne, writtenTo_publishOne]
    simp [selects, writtenTo, enums.Direct, enums.Spread, enums.Broadcast]
  refine ⟨?_, ?_, ?_, hack, hsub, ?_⟩
  · rw [hw]; simp [hreg]
  · intro c hc hne
    rw [hw]; simp [hc, hne]
  · intro c hc
    rw [hw]; simp [hc]
  · intro heq
    rw [heq, hsub] at hack
    simp [enums.Submit, enums.SubmitAck] at hack

/-- Witness for C10: connection `3` of the registry `3, 5, 8` submits. -/
theorem submit_reaches_each_peer_once_witness :
    wire.RoundTrip ∧ (3 : Conn) ∈ threePeers.keys ∧
    SubmitRequest.unmarshal wire submitFrame = some ⟨"SUBMIT", "c1", "t", JVal.num "42"⟩ ∧
    writtenTo 3 (publish threePeers
      (emitted State.init (processMessage wire ⟨submitFrame, 3⟩ 30 "j1" State.init).st) []) =
      [wire.print (AckSubmitReply.doc ⟨enums.SubmitAck, "j1", "c1"⟩)] :=
  ⟨wire_roundTrip, by decide, rfl,
    (submit_reaches_each_peer_once wire threePeers State.init ⟨submitFrame, 3⟩ 30 "j1"
      ⟨"SUBMIT", "c1", "t", JVal.num "42"⟩ wire_roundTrip (by decide) rfl rfl).1⟩

/-! ## Runs of the broker -/

theorem step_effect (t : JsonText) (timeout : Nat) (st : State) (ev : Event) :
    Effect t st ev (step t timeout st ev) := by
  cases ev with
  | wake k =>
    simp only [step, wake]
    cases hk : st.cleanups.get? k with
    | none => exact Effect.idle rfl rfl
    | some c =>
      simp only [setupCleanup, cancelJob]
      cases hp : st.pending c.jobId with
      | none => exact Effect.idle rfl rfl
      | some jb =>
        exact Effect.cancel c.jobId c.req.Origin "Queue timeout" jb hp rfl rfl
  | recv req id =>
    simp only [step, handleMessages, processMessage]
    cases hb : BaseRequest.unmarshal t req.Data with
    | none => exact Effect.idle rfl rfl
    | some m =>
      obtain ⟨ty, J⟩ := m
      simp only
      by_cases h1 : ty = enums.Submit
      · subst h1
        simp only [if_true, handleSubmit]
        cases hs : SubmitRequest.unmarshal t req.Data with
        | none => exact Effect.idle rfl rfl
        | some sr =>
          have hty : sr.Type_ = enums.Submit := by
            have := submit_unmarshal_base t req.Data sr hs
            rw [hb] at this
            simp at this
            exact this.1.symm
          refine Effect.submit req id sr rfl ?_ rfl ?_
          · simp [drawsId, hb, hs]
          · simp [State.send, ← hty]
      · by_cases h2 : ty = enums.Cancel
        · subst h2
          simp only [h1, if_false, if_true, handleCancel, hb, cancelJob]
          cases hp : st.pending J with
          | none => exact Effect.idle rfl rfl
          | some jb => exact Effect.cancel J req.Origin "Client cancel" jb hp rfl rfl
        · by_cases h3 : ty = enums.Bid
          · subst h3
            simp only [h1, h2, if_false, if_true, handleBid, hb]
            cases hp : st.pending J with
            | none => exact Effect.idle rfl rfl
            | some jb =>
              obtain ⟨c, b⟩ := jb
              cases b with
              | false => exact Effect.ack req id J ⟨c, false⟩ rfl hb hp rfl rfl rfl
              | true => exact Effect.reject req id J ⟨c, true⟩ rfl hb hp rfl rfl rfl
          · by_cases h4 : ty = enums.JobFailure ∨ ty = enums.JobSuccess
            · simp only [h1, h2, h3, h4, if_false, if_true, handleJobResult, hb]
              cases hp : st.pending J with
              | none => exact Effect.idle rfl rfl
              | some jb => exact Effect.forward req id ⟨ty, J⟩ jb rfl hb h4 hp rfl rfl
            · simp only [h1, h2, h3, h4, if_false]
              exact Effect.idle rfl rfl

theorem run_append (t : JsonText) (timeout : Nat) (es es1 : List Event) (st : State) :
    run t timeout (es ++ es1) st = run t timeout es1 (run t timeout es st) := by
  simp [run, List.foldl_append]

theorem run_snoc (t : JsonText) (timeout : Nat) (es : List Event) (ev : Event) (st : State) :
    run t timeout (es ++ [ev]) st = step t timeout (run t timeout es st) ev := by
  simp [run, List.foldl_append]

theorem generated_append (t : JsonText) (es es1 : List Event) :
    generated t (es ++ es1) = generated t es ++ generated t es1 := by
  induction es with
  | nil => simp [generated]
  | cons ev rest ih =>
    cases ev with
    | wake k => simp [generated, ih]
    | recv req id =>
      by_cases h : drawsId t req <;> simp [generated, h, ih]

theorem ackCount_append (t : JsonText) (J : String) (l1 l2 : List reply) :
    ackCount t J (l1 ++ l2) = ackCount t J l1 + ackCount t J l2 := by
  simp [ackCount, List.countP_append]

/-- Along a run with distinct generated ids: a pending id was generated; at most
one `BID_ACK` for `J` was sent; once it was sent, `J` is claimed for as long as
it is pending. -/
theorem ack_invariant (t : JsonText) (timeout : Nat) (hrt : t.RoundTrip) (J : String) :
    ∀ es : List Event, (generated t es).Nodup →
      (∀ jb, (run t timeout es State.init).pending J = some jb → J ∈ generated t es) ∧
      ackCount t J (run t timeout es State.init).outgoing ≤ 1 ∧
      (1 ≤ ackCount t J (run t timeout es State.init).outgoing →
        J ∈ generated t es ∧
        ∀ jb, (run t timeout es State.init).pending J = some jb → jb.Bid = true) := by
  intro es
  induction es using List.reverseRecOn with
  | nil =>
    intro _
    simp [run, State.init, Pending.empty, ackCount]
  | append_singleton es ev ih =>
    intro hnd
    rw [generated_append] at hnd
    obtain ⟨ha, hb, hc⟩ := ih (List.nodup_append.mp hnd).1
    rw [run_snoc, generated_append]
    have heff := step_effect t timeout (run t timeout es State.init) ev
    cases heff with
    | idle hp ho =>
      rw [hp, ho]
      refine ⟨fun jb h => List.mem_append_left _ (ha jb h), hb, fun h => ?_⟩
      exact ⟨List.mem_append_left _ (hc h).1, (hc h).2⟩
    | submit req id sr hev hdraw hp ho =>
      subst hev
      have hgen : generated t [Event.recv req id] = [id] := by simp [generated, hdraw]
      rw [hgen] at hnd ⊢
      have hfresh : id ∉ generated t es := by
        intro hmem
        exact (List.nodup_append.mp hnd).2.2 hmem (List.mem_singleton_self id)
      have hcount : ackCount t J (step t timeout (run t timeout es State.init)
          (Event.recv req id)).outgoing = ackCount t J (run t timeout es State.init).outgoing := by
        rw [ho, ackCount_append]
        simp [ackCount, reply.carries, ack_unmarshal_doc t hrt,
          submit_unmarshal_doc t hrt, enums.SubmitAck, enums.BidAck, enums.Submit]
      rw [hcount, hp]
      refine ⟨?_, hb, ?_⟩
      · intro jb h
        by_cases hJ : J = id
        · simp [hJ]
        · simp only [Pending.set, hJ, if_false] at h
          exact List.mem_append_left _ (ha jb h)
      · intro h
        have hJ : J ≠ id := fun e => hfresh (e ▸ (hc h).1)
        refine ⟨List.mem_append_left _ (hc h).1, ?_⟩
        intro jb hjb
        simp only [Pending.set, hJ, if_false] at hjb
        exact (hc h).2 jb hjb
    | cancel J1 o reason jb1 hj hp ho =>
      have hcount : ackCount t J (step t timeout (run t timeout es State.init) ev).outgoing =
          ackCount t J (run t timeout es State.init).outgoing := by
        rw [ho, ackCount_append]
        simp [ackCount, reply.carries, failure_unmarshal_doc t hrt, enums.JobFailure,
          enums.BidAck]
      rw [hcount, hp]
      refine ⟨?_, hb, ?_⟩
      · intro jb h
        by_cases hJ : J = J1
        · simp [Pending.delete, hJ] at h
        · simp only [Pending.delete, hJ, if_false] at h
          exact List.mem_append_left _ (ha jb h)
      · intro h
        refine ⟨List.mem_append_left _ (hc h).1, ?_⟩
        intro jb hjb
        by_cases hJ : J = J1
        · simp [Pending.delete, hJ] at hjb
        · simp only [Pending.delete, hJ, if_false] at hjb
          exact (hc h).2 jb hjb
    | ack req id J1 jb1 hev hdec hj hbid hp ho =>
      rw [hp, ho, ackCount_append]
      by_cases hJ : J = J1
      · subst hJ
        have hzero : ackCount t J (run t timeout es State.init).outgoing = 0 := by
          by_contra hne
          have h1 : 1 ≤ ackCount t J (run t timeout es State.init).outgoing := by omega
          have := (hc h1).2 jb1 hj
          rw [hbid] at this
          exact Bool.noConfusion this
        have hone : ackCount t J
            [⟨t.print (BaseRequest.doc ⟨enums.BidAck, J⟩), req.Origin, enums.Direct⟩] = 1 := by
          simp [ackCount, reply.carries, base_unmarshal_doc t hrt]
        rw [hzero, hone]
        refine ⟨fun jb _ => List.mem_append_left _ (ha jb1 hj), by omega, fun _ => ?_⟩
        refine ⟨List.mem_append_left _ (ha jb1 hj), ?_⟩
        intro jb hjb
        simp [Pending.set] at hjb
        simp [← hjb]
      · have hnone : ackCount t J
            [⟨t.print (BaseRequest.doc ⟨enums.BidAck, J1⟩), req.Origin, enums.Direct⟩] = 0 := by
          have hJ1 : ¬ J1 = J := fun e => hJ e.symm
          simp [ackCount, reply.carries, base_unmarshal_doc t hrt, hJ1]
        rw [hnone, Nat.add_zero]
        refine ⟨?_, hb, ?_⟩
        · intro jb h
          simp only [Pending.set, hJ, if_false] at h
          exact List.mem_append_left _ (ha jb h)
        · intro h
          refine ⟨List.mem_append_left _ (hc h).1, ?_⟩
          intro jb hjb
          simp only [Pending.set, hJ, if_false] at hjb
          exact (hc h).2 jb hjb
    | reject req id J1 jb1 hev hdec hj hbid hp ho =>
      have hnone : ackCount t J
          [⟨t.print (BaseRequest.doc ⟨enums.BidReject, J1⟩), req.Origin, enums.Direct⟩] = 0 := by
        simp [ackCount, reply.carries, base_unmarshal_doc t hrt, enums.BidReject,
          enums.BidAck]
      rw [hp, ho, ackCount_append, hnone, Nat.add_zero]
      refine ⟨fun jb h => List.mem_append_left _ (ha jb h), hb, fun h => ?_⟩
      exact ⟨List.mem_append_left _ (hc h).1, (hc h).2⟩
    | forward req id m jb1 hev hdec hty hj hp ho =>
      have hnone : ackCount t J [⟨req.Data, jb1.Conn, enums.Direct⟩] = 0 := by
        rcases hty with h | h <;>
          simp [ackCount, reply.carries, hdec, enums.BidAck, enums.JobFailure, enums.JobSuccess]
            <;> intro e <;> rw [e] at h <;> simp [enums.JobFailure, enums.JobSuccess] at h
      rw [hp, ho, ackCount_append, hnone, Nat.add_zero]
      refine ⟨fun jb h => List.mem_append_left _ (ha jb h), hb, fun h => ?_⟩
      exact ⟨List.mem_append_left _ (hc h).1, (hc h).2⟩

/-- C2. Along any run from the empty table in which the generated ids are
distinct, at most one envelope reading as `BID_ACK` for `J` is sent; and a
`BID` for `J` received after that envelope was sent, while `J` is pending, is
answered with exactly one `BID_REJECT` for `J` in `Direct` mode to the bidder. -/
theorem bid_ack_at_most_once (t : JsonText) (timeout : Nat) (es : List Event) (J : String)
    (hrt : t.RoundTrip) (hfresh : (generated t es).Nodup) :
    ackCount t J (run t timeout es State.init).outgoing ≤ 1 ∧
    ∀ (es1 es2 : List Event) (req : request) (id : String),
      es = es1 ++ Event.recv req id :: es2 →
      1 ≤ ackCount t J (run t timeout es1 State.init).outgoing →
      BaseRequest.unmarshal t req.Data = some ⟨enums.Bid, J⟩ →
      ((run t timeout es1 State.init).pending J).isSome = true →
      emitted (run t timeout es1 State.init)
          (run t timeout (es1 ++ [Event.recv req id]) State.init) =
        [⟨t.print (BaseRequest.doc ⟨enums.BidReject, J⟩), req.Origin, enums.Direct⟩] ∧
      (run t timeout (es1 ++ [Event.recv req id]) State.init).pending =
        (run t timeout es1 State.init).pending := by
  refine ⟨(ack_invariant t timeout hrt J es hfresh).2.1, ?_⟩
  intro es1 es2 req id hes hack hdec hpend
  have hnd1 : (generated t es1).Nodup := by
    rw [hes, generated_append] at hfresh
    exact (List.nodup_append.mp hfresh).1
  have hinv := (ack_invariant t timeout hrt J es1 hnd1).2.2 hack
  cases hp : (run t timeout es1 State.init).pending J with
  | none => simp [hp] at hpend
  | some jb =>
    have hbid : jb.Bid = true := hinv.2 jb hp
    rw [run_snoc]
    simp [step, handleMessages, processMessage, hdec, enums.Bid, enums.Submit, enums.Cancel,
      handleBid, hp, hbid, emitted, State.send]

/-- Witness for C2: the run `twoBids` on the text layer `wire`. -/
theorem bid_ack_at_most_once_witness :
    wire.RoundTrip ∧ (generated wire twoBids).Nodup ∧
    ackCount wire "j1" (run wire 30 twoBids State.init).outgoing ≤ 1 :=
  ⟨wire_roundTrip, by decide,
    (bid_ack_at_most_once wire 30 twoBids "j1" wire_roundTrip (by decide)).1⟩

/-- A frame that decodes as a `FailureReply` decodes as a `BaseRequest`, to the same type and id. -/
theorem failure_members_base :
    ∀ (ms : List (String × JVal)) (acc r : FailureReply),
      FailureReply.members acc ms = some r →
      BaseRequest.members ⟨acc.Type_, acc.Id⟩ ms = some ⟨r.Type_, r.Id⟩ := by
  intro ms
  induction ms with
  | nil =>
    intro acc r h
    simp [FailureReply.members] at h
    simp [BaseRequest.members, h]
  | cons kv rest ih =>
    intro acc r h
    simp only [FailureReply.members] at h
    cases hm : FailureReply.member acc kv with
    | none => simp [hm] at h
    | some acc1 =>
      simp only [hm] at h
      have hb : BaseRequest.member ⟨acc.Type_, acc.Id⟩ kv = some ⟨acc1.Type_, acc1.Id⟩ := by
        unfold FailureReply.member at hm
        unfold BaseRequest.member
        by_cases h1 : asciiFold kv.1 = "type"
        · simp only [h1, if_true] at hm ⊢
          cases hs : storeString acc.Type_ kv.2 with
          | none => simp [hs] at hm
          | some v => simp [hs] at hm ⊢; simp [← hm]
        · by_cases h2 : asciiFold kv.1 = "id"
          · simp only [h1, h2, if_true, if_false] at hm ⊢
            cases hs : storeString acc.Id kv.2 with
            | none => simp [hs] at hm
            | some v => simp [hs] at hm ⊢; simp [← hm]
          · by_cases h3 : asciiFold kv.1 = "reason"
            · simp only [h1, h2, h3, if_true, if_false] at hm ⊢
              cases hs : storeString acc.Reason kv.2 with
              | none => simp [hs] at hm
              | some v => simp [hs] at hm; simp [← hm]
            · simp only [h1, h2, h3, if_false] at hm ⊢
              simp at hm
              simp [← hm]
      simp only [BaseRequest.members, hb]
      exact ih acc1 r h

theorem failure_unmarshal_base (t : JsonText) (data : Bytes) (f : FailureReply)
    (h : FailureReply.unmarshal t data = some f) :
    BaseRequest.unmarshal t data = some ⟨f.Type_, f.Id⟩ := by
  unfold FailureReply.unmarshal at h
  unfold BaseRequest.unmarshal
  cases hp : t.parse data with
  | none => simp [hp] at h
  | some d =>
    cases d with
    | null => simp [hp] at h; simp [← h]
    | obj ms =>
      simp only [hp] at h ⊢
      exact failure_members_base ms _ f h
    | bool b => simp [hp] at h
    | num l => simp [hp] at h
    | str l => simp [hp] at h
    | arr l => simp [hp] at h

/-- C3, as the code behaves. Connection `3` submits and gets `j1`, connection
`5` reports success for `j1`, and the cleanup of `j1` wakes: the submitter is
sent two terminal frames for `j1`, the forwarded `JOB_SUCCESS` and the
`JOB_FAILURE` with reason `Queue timeout`. -/
theorem terminal_frames_twice :
    (generated wire resultThenTimeout).Nodup ∧
    (run wire 30 [Event.recv ⟨submitFrame, 3⟩ "j1"] State.init).pending "j1" = some ⟨3, false⟩ ∧
    terminalCount wire "j1" 3 (run wire 30 resultThenTimeout State.init).outgoing = 2 := by
  decide

/-! ## Frames the coordinator does not act on -/

/-- C11. `processMessage` on a frame that `json.Unmarshal` rejects (bytes that
do not parse included), or that decodes to a type other than `SUBMIT`,
`CANCEL`, `BID`, `JOB_SUCCESS`, `JOB_FAILURE` (the empty type of a frame
without `type`, and the tags `SUBMIT_ACK`, `BID_ACK`, `BID_REJECT` among
them): it returns an error, sends nothing and leaves the table and the
scheduled cleanups as they were. -/
theorem processMessage_rejects_other_types (t : JsonText) (st : State) (req : request)
    (timeout : Nat) (id : String)
    (h : BaseRequest.unmarshal t req.Data = none ∨
      ∃ m, BaseRequest.unmarshal t req.Data = some m ∧
        m.Type_ ∉ [enums.Submit, enums.Cancel, enums.Bid, enums.JobSuccess, enums.JobFailure]) :
    processMessage t req timeout id st = ⟨true, st⟩ ∧
    (t.parse req.Data = none → BaseRequest.unmarshal t req.Data = none) ∧
    (∀ ty ∈ ["", enums.SubmitAck, enums.BidAck, enums.BidReject],
      ty ∉ [enums.Submit, enums.Cancel, enums.Bid, enums.JobSuccess, enums.JobFailure]) := by
  refine ⟨?_, ?_, by decide⟩
  · rcases h with h | ⟨m, hm, hty⟩
    · simp [processMessage, h]
    · simp only [List.mem_cons, List.mem_singleton, List.not_mem_nil, or_false, not_or] at hty
      obtain ⟨h1, h2, h3, h4, h5⟩ := hty
      simp [processMessage, hm, h1, h2, h3, h4, h5]
  · intro hp
    simp [BaseRequest.unmarshal, hp]

/-- Witness for C11: connection `5` sends a frame of type `BID_ACK` while `j1` is open. -/
theorem processMessage_rejects_other_types_witness :
    BaseRequest.unmarshal wire bidAckFrame = some ⟨"BID_ACK", "j1"⟩ ∧
    processMessage wire ⟨bidAckFrame, 5⟩ 30 "j2" oneOpenJob = ⟨true, oneOpenJob⟩ :=
  ⟨rfl, (processMessage_rejects_other_types wire oneOpenJob ⟨bidAckFrame, 5⟩ 30 "j2"
    (Or.inr ⟨⟨"BID_ACK", "j1"⟩, rfl, by decide⟩)).1⟩

/-! ## Frames that lack a field -/

/-- A `BaseRequest` keeps the id it had when no member of the object is keyed `id`. -/
theorem base_members_keep_id :
    ∀ (ms : List (String × JVal)) (acc r : BaseRequest),
      BaseRequest.members acc ms = some r → (∀ kv ∈ ms, asciiFold kv.1 ≠ "id") →
      r.Id = acc.Id := by
  intro ms
  induction ms with
  | nil =>
    intro acc r h _
    simp [BaseRequest.members] at h
    rw [h]
  | cons kv rest ih =>
    intro acc r h hno
    simp only [BaseRequest.members] at h
    cases hm : BaseRequest.member acc kv with
    | none => simp [hm] at h
    | some acc1 =>
      simp only [hm] at h
      have hkv : asciiFold kv.1 ≠ "id" := hno kv (by simp)
      have h1 : acc1.Id = acc.Id := by
        unfold BaseRequest.member at hm
        by_cases ht : asciiFold kv.1 = "type"
        · simp only [ht, if_true] at hm
          cases hs : storeString acc.Type_ kv.2 with
          | none => simp [hs] at hm
          | some v => simp [hs] at hm; simp [← hm]
        · simp only [ht, hkv, if_false] at hm
          simp at hm
          rw [hm]
      rw [ih acc1 r h (fun x hx => hno x (List.mem_cons_of_mem _ hx)), h1]

/-- A `SubmitRequest` keeps the id, topic and payload it had when no member of
the object carries the matching key. -/
theorem submit_members_keep (t : JsonText) :
    ∀ (ms : List (String × JVal)) (acc r : SubmitRequest),
      SubmitRequest.members t acc ms = some r →
      ((∀ kv ∈ ms, asciiFold kv.1 ≠ "id") → r.Id = acc.Id) ∧
      ((∀ kv ∈ ms, asciiFold kv.1 ≠ "topic") → r.Topic = acc.Topic) ∧
      ((∀ kv ∈ ms, asciiFold kv.1 ≠ "payload") → r.Payload = acc.Payload) := by
  intro ms
  induction ms with
  | nil =>
    intro acc r h
    simp [SubmitRequest.members] at h
    simp [h]
  | cons kv rest ih =>
    intro acc r h
    simp only [SubmitRequest.members] at h
    cases hm : SubmitRequest.member t acc kv with
    | none => simp [hm] at h
    | some acc1 =>
      simp only [hm] at h
      obtain ⟨i1, i2, i3⟩ := ih acc1 r h
      have hstep : (asciiFold kv.1 ≠ "id" → acc1.Id = acc.Id) ∧
          (asciiFold kv.1 ≠ "topic" → acc1.Topic = acc.Topic) ∧
          (asciiFold kv.1 ≠ "payload" → acc1.Payload = acc.Payload) := by
        unfold SubmitRequest.member at hm
        by_cases h1 : asciiFold kv.1 = "type"
        · simp only [h1, if_true] at hm
          cases hs : storeString acc.Type_ kv.2 with
          | none => simp [hs] at hm
          | some v => simp [hs] at hm; simp [← hm]
        · by_cases h2 : asciiFold kv.1 = "id"
          · simp only [h1, h2, if_true, if_false] at hm
            cases hs : storeString acc.Id kv.2 with
            | none => simp [hs] at hm
            | some v => simp [hs] at hm; simp [← hm, h2]
          · by_cases h3 : asciiFold kv.1 = "topic"
            · simp only [h1, h2, h3, if_true, if_false] at hm
              cases hs : storeString acc.Topic kv.2 with
              | none => simp [hs] at hm
              | some v => simp [hs] at hm; simp [← hm, h3]
            · by_cases h4 : asciiFold kv.1 = "payload"
              · simp only [h1, h2, h3, h4, if_true, if_false] at hm
                cases hs : t.iface kv.2 with
                | none => simp [hs] at hm
                | some v => simp [hs] at hm; simp [← hm, h4]
              · simp only [h1, h2, h3, h4, if_false] at hm
                simp at hm
                simp [hm]
      refine ⟨fun hno => ?_, fun hno => ?_, fun hno => ?_⟩
      · rw [i1 (fun x hx => hno x (List.mem_cons_of_mem _ hx)), hstep.1 (hno kv (by simp))]
      · rw [i2 (fun x hx => hno x (List.mem_cons_of_mem _ hx)), hstep.2.1 (hno kv (by simp))]
      · rw [i3 (fun x hx => hno x (List.mem_cons_of_mem _ hx)), hstep.2.2 (hno kv (by simp))]

/-- C12, as the code behaves. Connection `3` sends a `SUBMIT` frame that has
neither `id` nor `topic` nor `payload`: `processMessage` returns no error, sends
`SUBMIT_ACK` and the re-emitted submission, and the job `j1` is pending. -/
theorem submit_without_fields_creates_job :
    wire.parse bareSubmitFrame = some (JVal.obj [("type", JVal.str "SUBMIT")]) ∧
    (processMessage wire ⟨bareSubmitFrame, 3⟩ 30 "j1" State.init).err = false ∧
    (processMessage wire ⟨bareSubmitFrame, 3⟩ 30 "j1" State.init).st.outgoing =
      [⟨wire.print (AckSubmitReply.doc ⟨enums.SubmitAck, "j1", ""⟩), 3, enums.Direct⟩,
       ⟨wire.print (SubmitRequest.doc ⟨enums.Submit, "j1", "", JVal.null⟩), 3, enums.Spread⟩] ∧
    (processMessage wire ⟨bareSubmitFrame, 3⟩ 30 "j1" State.init).st.pending "j1" =
      some ⟨3, false⟩ :=
  ⟨rfl, by decide, by decide, by decide⟩

/-- C12, amended. A field that the object of a frame does not carry is left at
its zero value and the frame is processed as any other.  For a `BID` or
`CANCEL` frame without `id` the id is the empty string, and when that is not
pending nothing is sent and the state is unchanged.  A `SUBMIT` frame is
decoded with an empty id, an empty topic, a null payload for whichever of them
is missing, and then creates the job and sends `SUBMIT_ACK` and the re-emitted
submission. -/
theorem missing_fields_are_zero (t : JsonText) (st : State) (req : request) (timeout : Nat)
    (J : String) (ms : List (String × JVal)) (hparse : t.parse req.Data = some (JVal.obj ms)) :
    (∀ m, BaseRequest.unmarshal t req.Data = some m →
      (∀ kv ∈ ms, asciiFold kv.1 ≠ "id") → (m.Type_ = enums.Bid ∨ m.Type_ = enums.Cancel) →
      m.Id = "" ∧ (st.pending "" = none → processMessage t req timeout J st = ⟨false, st⟩)) ∧
    (∀ sr, SubmitRequest.unmarshal t req.Data = some sr → sr.Type_ = enums.Submit →
      ((∀ kv ∈ ms, asciiFold kv.1 ≠ "id") → sr.Id = "") ∧
      ((∀ kv ∈ ms, asciiFold kv.1 ≠ "topic") → sr.Topic = "") ∧
      ((∀ kv ∈ ms, asciiFold kv.1 ≠ "payload") → sr.Payload = JVal.null) ∧
      (processMessage t req timeout J st).err = false ∧
      (processMessage t req timeout J st).st.outgoing = st.outgoing ++
        [⟨t.print (AckSubmitReply.doc ⟨enums.SubmitAck, J, sr.Id⟩), req.Origin, enums.Direct⟩,
         ⟨t.print (SubmitRequest.doc ⟨enums.Submit, J, sr.Topic, sr.Payload⟩), req.Origin,
           enums.Spread⟩] ∧
      (processMessage t req timeout J st).st.pending =
        Pending.set st.pending J ⟨req.Origin, false⟩) := by
  refine ⟨?_, ?_⟩
  · intro m hm hno hty
    have hid : m.Id = "" := by
      simp only [BaseRequest.unmarshal, hparse] at hm
      exact base_members_keep_id ms _ m hm hno
    refine ⟨hid, fun hmiss => ?_⟩
    rw [← hid] at hmiss
    rcases hty with h | h <;>
      simp [processMessage, hm, h, enums.Bid, enums.Cancel, enums.Submit, handleBid,
        handleCancel, cancelJob, hmiss]
  · intro sr hsr hty
    have hkeep : ((∀ kv ∈ ms, asciiFold kv.1 ≠ "id") → sr.Id = "") ∧
        ((∀ kv ∈ ms, asciiFold kv.1 ≠ "topic") → sr.Topic = "") ∧
        ((∀ kv ∈ ms, asciiFold kv.1 ≠ "payload") → sr.Payload = JVal.null) := by
      have h := hsr
      simp only [SubmitRequest.unmarshal, hparse] at h
      exact submit_members_keep t ms _ sr h
    have hbase := submit_unmarshal_base t req.Data sr hsr
    rw [hty] at hbase
    refine ⟨hkeep.1, hkeep.2.1, hkeep.2.2, ?_, ?_, ?_⟩ <;>
      simp [processMessage, hbase, handleSubmit, hsr, State.send, hty]

/-- Witness for C12 amended: the frame `SUBMIT` without further fields, from connection `3`. -/
theorem missing_fields_are_zero_witness :
    wire.parse bareSubmitFrame = some (JVal.obj [("type", JVal.str "SUBMIT")]) ∧
    SubmitRequest.unmarshal wire bareSubmitFrame = some ⟨"SUBMIT", "", "", JVal.null⟩ ∧
    (processMessage wire ⟨bareSubmitFrame, 3⟩ 30 "j1" State.init).st.pending =
      Pending.set State.init.pending "j1" ⟨3, false⟩ :=
  ⟨rfl, rfl, ((missing_fields_are_zero wire State.init ⟨bareSubmitFrame, 3⟩ 30 "j1"
    [("type", JVal.str "SUBMIT")] rfl).2 ⟨"SUBMIT", "", "", JVal.null⟩ rfl rfl).2.2.2.2.2⟩

/-! ## The re-emitted submission -/

theorem wire64_roundTrip : wire64.RoundTrip := by
  intro d
  exact wire_roundTrip d

/-- A printed `SubmitRequest` decodes to itself when its payload is one that
decoding into `interface{}` leaves alone. -/
theorem submit_unmarshal_own_doc (t : JsonText) (hrt : t.RoundTrip) (r : SubmitRequest)
    (hstable : t.iface r.Payload = some r.Payload) :
    SubmitRequest.unmarshal t (t.print (SubmitRequest.doc r)) = some r := by
  obtain ⟨ty, id, tp, pl⟩ := r
  simp only at hstable
  by_cases h : ty = "" <;> by_cases h2 : tp = "" <;>
    simp [SubmitRequest.unmarshal, SubmitRequest.doc, hrt _, omitempty, h, h2,
      SubmitRequest.members, SubmitRequest.member, fold_type, fold_id, fold_topic, fold_payload,
      storeString, hstable]

set_option maxRecDepth 8000 in
/-- C13, as the code behaves. Connection `3` submits the payload
`9007199254740993`; the frame that `handleSubmit` re-emits carries the payload
`9007199254740992`, the nearest `float64`. -/
theorem big_payload_is_rounded :
    wire64.parse bigPayloadFrame = some (JVal.obj [("type", JVal.str "SUBMIT"),
      ("id", JVal.str "c1"), ("topic", JVal.str "t"), ("payload", JVal.num "9007199254740993")]) ∧
    (emitted State.init (handleSubmit wire64 ⟨bigPayloadFrame, 3⟩ 30 "j1" State.init).st).map
        (fun r => wire64.parse r.Data) =
      [some (JVal.obj [("type", JVal.str "SUBMIT_ACK"), ("id", JVal.str "j1"),
        ("clientId", JVal.str "c1")]),
       some (JVal.obj [("type", JVal.str "SUBMIT"), ("id", JVal.str "j1"),
        ("topic", JVal.str "t"), ("payload", JVal.num "9007199254740992")])] ∧
    JVal.num "9007199254740992" ≠ JVal.num "9007199254740993" :=
  ⟨rfl, rfl, by intro h; injection h with h; revert h; decide⟩

/-- C13, amended. For a decodable `SUBMIT` frame, the second envelope of
`handleSubmit` decodes to the type, topic and payload that the frame itself
decodes to, with the id replaced by `J`, when decoding the payload a second
time leaves it alone.  The payload compared is the one `json.Unmarshal` stored,
not the text of the frame. -/
theorem reemitted_submit_decodes_alike (t : JsonText) (st : State) (req : request)
    (timeout : Nat) (J : String) (sr : SubmitRequest) (hrt : t.RoundTrip)
    (hdec : SubmitRequest.unmarshal t req.Data = some sr)
    (hstable : t.iface sr.Payload = some sr.Payload) :
    ∃ data : Bytes,
      emitted st (handleSubmit t req timeout J st).st =
        [⟨t.print (AckSubmitReply.doc ⟨enums.SubmitAck, J, sr.Id⟩), req.Origin, enums.Direct⟩,
         ⟨data, req.Origin, enums.Spread⟩] ∧
      SubmitRequest.unmarshal t data = some ⟨sr.Type_, J, sr.Topic, sr.Payload⟩ := by
  refine ⟨t.print (SubmitRequest.doc ⟨sr.Type_, J, sr.Topic, sr.Payload⟩), ?_, ?_⟩
  · simp [emitted, handleSubmit, hdec, State.send]
  · exact submit_unmarshal_own_doc t hrt ⟨sr.Type_, J, sr.Topic, sr.Payload⟩ hstable

set_option maxRecDepth 8000 in
/-- Witness for C13 amended: the payload `9007199254740993` on the text layer `wire64`. -/
theorem reemitted_submit_decodes_alike_witness :
    wire64.RoundTrip ∧
    SubmitRequest.unmarshal wire64 bigPayloadFrame =
      some ⟨"SUBMIT", "c1", "t", JVal.num "9007199254740992"⟩ ∧
    wire64.iface (JVal.num "9007199254740992") = some (JVal.num "9007199254740992") ∧
    ∃ data : Bytes,
      emitted State.init (handleSubmit wire64 ⟨bigPayloadFrame, 3⟩ 30 "j1" State.init).st =
        [⟨wire64.print (AckSubmitReply.doc ⟨enums.SubmitAck, "j1", "c1"⟩), 3, enums.Direct⟩,
         ⟨data, 3, enums.Spread⟩] ∧
      SubmitRequest.unmarshal wire64 data =
        some ⟨"SUBMIT", "j1", "t", JVal.num "9007199254740992"⟩ :=
  ⟨wire64_roundTrip, rfl, rfl,
    reemitted_submit_decodes_alike wire64 State.init ⟨bigPayloadFrame, 3⟩ 30 "j1"
      ⟨"SUBMIT", "c1", "t", JVal.num "9007199254740992"⟩ wire64_roundTrip rfl rfl⟩

/-! ## The flag of a job -/

/-- C15. `handleSubmit` inserts the job unclaimed; and across any one event, a
frame or a waking cleanup, a job that is pending and claimed before and still
pending after is still claimed and has the same submitter, when an id drawn by
the event is not already pending. -/
theorem claimed_never_reset (t : JsonText) (timeout : Nat) (st : State) (ev : Event)
    (J : String) (c : Conn)
    (hfresh : ∀ req id, ev = Event.recv req id → drawsId t req = true → st.pending id = none)
    (hclaimed : st.pending J = some ⟨c, true⟩) :
    (∀ jb, (step t timeout st ev).pending J = some jb → jb = ⟨c, true⟩) ∧
    (∀ (req : request) (tmo : Nat) (id : String) (st0 : State) (sr : SubmitRequest),
      SubmitRequest.unmarshal t req.Data = some sr →
      (handleSubmit t req tmo id st0).st.pending id = some ⟨req.Origin, false⟩) := by
  refine ⟨?_, ?_⟩
  · intro jb h
    have heff := step_effect t timeout st ev
    cases heff with
    | idle hp ho =>
      rw [hp, hclaimed] at h
      exact (Option.some.inj h).symm
    | submit req id sr hev hdraw hp ho =>
      have hnone := hfresh req id hev hdraw
      have hJ : ¬ J = id := by
        intro e
        rw [e, hnone] at hclaimed
        exact Option.noConfusion hclaimed
      rw [hp] at h
      simp only [Pending.set, hJ, if_false] at h
      rw [hclaimed] at h
      exact (Option.some.inj h).symm
    | cancel J1 o reason jb1 hj hp ho =>
      rw [hp] at h
      by_cases hJ : J = J1
      · simp [Pending.delete, hJ] at h
      · simp only [Pending.delete, hJ, if_false] at h
        rw [hclaimed] at h
        exact (Option.some.inj h).symm
    | ack req id J1 jb1 hev hdec hj hbid hp ho =>
      have hJ : ¬ J = J1 := by
        intro e
        rw [← e, hclaimed] at hj
        rw [← Option.some.inj hj] at hbid
        exact Bool.noConfusion hbid
      rw [hp] at h
      simp only [Pending.set, hJ, if_false] at h
      rw [hclaimed] at h
      exact (Option.some.inj h).symm
    | reject req id J1 jb1 hev hdec hj hbid hp ho =>
      rw [hp, hclaimed] at h
      exact (Option.some.inj h).symm
    | forward req id m jb1 hev hdec hty hj hp ho =>
      rw [hp, hclaimed] at h
      exact (Option.some.inj h).symm
  · intro req tmo id st0 sr hdec
    simp [handleSubmit, hdec, State.send, Pending.set]

/-- Witness for C15: while `j1` is claimed, connection `5` submits and gets `j2`. -/
theorem claimed_never_reset_witness :
    oneClaimedJob.pending "j2" = none ∧
    oneClaimedJob.pending "j1" = some ⟨3, true⟩ ∧
    (step wire 30 oneClaimedJob (Event.recv ⟨submitFrame, 5⟩ "j2")).pending "j1" =
      some ⟨3, true⟩ ∧
    ∀ jb, (step wire 30 oneClaimedJob (Event.recv ⟨submitFrame, 5⟩ "j2")).pending "j1" =
      some jb → jb = ⟨3, true⟩ :=
  ⟨rfl, rfl, rfl,
    (claimed_never_reset wire 30 oneClaimedJob (Event.recv ⟨submitFrame, 5⟩ "j2") "j1" 3
      (fun _ _ h _ => by cases h; rfl) rfl).1⟩

/-! ## The connection registry -/

theorem ConnectionsSet.eq_of_keys (a b : ConnectionsSet) (h : a.keys = b.keys) : a = b := by
  cases a
  cases b
  simp only at h
  subst h
  rfl

theorem foldl_snoc_log (l : List Conn) :
    ∀ acc : List Conn, l.foldl (fun acc conn => acc ++ [conn]) acc = acc ++ l := by
  induction l with
  | nil => intro acc; simp
  | cons x rest ih => intro acc; simp [ih]

theorem ConnectionsSet.visited_eq_keys (cs : ConnectionsSet) : cs.visited = cs.keys := by
  simp [ConnectionsSet.visited, ConnectionsSet.ForEach, foldl_snoc_log]

/-- C16. The registry is a set.  `Add` twice is `Add` once, and `Add` of a
registered connection changes nothing; `Delete` of an unregistered connection
changes nothing, and `Delete` twice is `Delete` once.  `ForEach` calls its
visitor once for each registered connection and never for another.  After
`Delete c`, `Has c` is false and `ForEach` does not visit `c`; this stays so
under `Add` and `Delete` of other connections, and ends with `Add c`.  `Add`
and `Delete` of `c` do not change the membership of another connection. -/
theorem connectionsSet_is_a_set (cs : ConnectionsSet) (c d : Conn) :
    (cs.Add c).Add c = cs.Add c ∧
    (cs.Has c = true → cs.Add c = cs) ∧
    (cs.Has c = false → cs.Delete c = cs) ∧
    (cs.Delete c).Delete c = cs.Delete c ∧
    cs.visited.count c = (if cs.Has c = true then 1 else 0) ∧
    (cs.Add c).Has c = true ∧
    (cs.Delete c).Has c = false ∧
    (cs.Delete c).visited.count c = 0 ∧
    (d ≠ c → ((cs.Delete c).Add d).Has c = false ∧ ((cs.Delete c).Delete d).Has c = false) ∧
    ((cs.Delete c).Add c).Has c = true ∧
    ((cs.Delete c).Add c).visited.count c = 1 ∧
    (d ≠ c → (cs.Add c).Has d = cs.Has d ∧ (cs.Delete c).Has d = cs.Has d) := by
  have hadd : ∀ (s : ConnectionsSet) (x y : Conn),
      y ∈ (s.Add x).keys ↔ y = x ∨ y ∈ s.keys := by
    intro s x y
    unfold ConnectionsSet.Add
    by_cases hx : x ∈ s.keys
    · simp only [hx, dif_pos]
      constructor
      · exact Or.inr
      · rintro (h | h)
        · exact h ▸ hx
        · exact h
    · simp [hx]
  have hdel : ∀ (s : ConnectionsSet) (x y : Conn),
      y ∈ (s.Delete x).keys ↔ y ≠ x ∧ y ∈ s.keys := by
    intro s x y
    simp [ConnectionsSet.Delete, List.mem_filter, and_comm]
  have hhas : ∀ (s : ConnectionsSet) (x : Conn), s.Has x = true ↔ x ∈ s.keys := by
    intro s x
    simp [ConnectionsSet.Has]
  have hhasf : ∀ (s : ConnectionsSet) (x : Conn), s.Has x = false ↔ x ∉ s.keys := by
    intro s x
    simp [ConnectionsSet.Has]
  have hcount : ∀ (s : ConnectionsSet) (x : Conn),
      s.visited.count x = (if s.Has x = true then 1 else 0) := by
    intro s x
    rw [ConnectionsSet.visited_eq_keys, List.count_eq_of_nodup s.nodup]
    simp [ConnectionsSet.Has]
  have hpres : ∀ (s : ConnectionsSet) (x : Conn), x ∈ s.keys → s.Add x = s := by
    intro s x hx
    simp [ConnectionsSet.Add, hx]
  refine ⟨?_, ?_, ?_, ?_, hcount cs c, ?_, ?_, ?_, ?_, ?_, ?_, ?_⟩
  · exact hpres (cs.Add c) c ((hadd cs c c).2 (Or.inl rfl))
  · intro h
    exact hpres cs c ((hhas cs c).1 h)
  · intro h
    have hout : c ∉ cs.keys := (hhasf cs c).1 h
    apply ConnectionsSet.eq_of_keys
    simp only [ConnectionsSet.Delete]
    rw [List.filter_eq_self]
    intro a ha
    simp only [ne_eq, decide_eq_true_eq]
    intro e
    exact hout (e ▸ ha)
  · apply ConnectionsSet.eq_of_keys
    simp [ConnectionsSet.Delete, List.filter_filter]
  · exact (hhas _ c).2 ((hadd cs c c).2 (Or.inl rfl))
  · exact (hhasf _ c).2 (fun h => ((hdel cs c c).1 h).1 rfl)
  · rw [hcount]
    have : (cs.Delete c).Has c = false := (hhasf _ c).2 (fun h => ((hdel cs c c).1 h).1 rfl)
    simp [this]
  · intro hdc
    refine ⟨(hhasf _ c).2 ?_, (hhasf _ c).2 ?_⟩
    · intro h
      rcases (hadd _ d c).1 h with h1 | h1
      · exact hdc h1.symm
      · exact ((hdel cs c c).1 h1).1 rfl
    · intro h
      exact ((hdel cs c c).1 ((hdel _ d c).1 h).2).1 rfl
  · exact (hhas _ c).2 ((hadd _ c c).2 (Or.inl rfl))
  · rw [hcount]
    have : ((cs.Delete c).Add c).Has c = true := (hhas _ c).2 ((hadd _ c c).2 (Or.inl rfl))
    simp [this]
  · intro hdc
    refine ⟨?_, ?_⟩
    · rw [Bool.eq_iff_iff, hhas, hhas, hadd]
      simp [hdc]
    · rw [Bool.eq_iff_iff, hhas, hhas, hdel]
      simp [hdc]

/-! ## Order of the writes on one connection -/

theorem selects_of_same_keys (cs cs1 : ConnectionsSet) (r : reply) (c : Conn)
    (h : ∀ x, x ∈ cs1.keys ↔ x ∈ cs.keys) : selects cs1 r c ↔ selects cs r c := by
  simp [selects, h]

theorem writtenTo_publishEach (cs : ConnectionsSet) (c : Conn) :
    ∀ (steps : List (ConnectionsSet × reply)) (log : List (Conn × Bytes)),
      (∀ p ∈ steps, ∀ x, x ∈ p.1.keys ↔ x ∈ cs.keys) →
      writtenTo c (publishEach steps log) = writtenTo c log ++
        ((steps.map Prod.snd).filter (fun r => decide (selects cs r c))).map reply.Data := by
  intro steps
  induction steps with
  | nil => intro log _; simp [publishEach]
  | cons p rest ih =>
    intro log hsame
    have hp := hsame p (by simp)
    have hrest : ∀ q ∈ rest, ∀ x, x ∈ q.1.keys ↔ x ∈ cs.keys :=
      fun q hq => hsame q (List.mem_cons_of_mem _ hq)
    have hsel := selects_of_same_keys cs p.1 p.2 c hp
    have hfold : publishEach (p :: rest) log = publishEach rest (publishOne p.1 p.2 log) := by
      simp [publishEach]
    rw [hfold, ih _ hrest, writtenTo_publishOne]
    by_cases hs : selects cs p.2 c
    · simp [hs, hsel.2 hs]
    · have hs1 : ¬ selects p.1 p.2 c := fun h => hs (hsel.1 h)
      simp [hs, hs1]

theorem publish_eq_publishEach (cs : ConnectionsSet) (rs : List reply)
    (log : List (Conn × Bytes)) :
    publish cs rs log = publishEach (rs.map (fun r => (cs, r))) log := by
  simp [publish, publishEach, List.foldl_map]

/-- C18. Over a fixed registry, the payloads written to a connection `c` by
dispatching the envelopes `rs` in order are the data of those envelopes whose
mode and origin select `c`, in the order of `rs`, each once.  The same holds
when every envelope is dispatched with a key order of its own over the same
set of connections. -/
theorem publish_keeps_order (cs : ConnectionsSet) (rs : List reply) (c : Conn) :
    writtenTo c (publish cs rs []) =
      (rs.filter (fun r => decide (selects cs r c))).map reply.Data ∧
    ∀ steps : List (ConnectionsSet × reply),
      (∀ p ∈ steps, ∀ x, x ∈ p.1.keys ↔ x ∈ cs.keys) →
      writtenTo c (publishEach steps []) =
        ((steps.map Prod.snd).filter (fun r => decide (selects cs r c))).map reply.Data := by
  refine ⟨?_, ?_⟩
  · rw [publish_eq_publishEach, writtenTo_publishEach cs c _ [] (by simp)]
    simp [writtenTo, List.map_map, Function.comp_def]
  · intro steps hsame
    rw [writtenTo_publishEach cs c steps [] hsame]
    simp [writtenTo]

/-! ## What one event sends, and to whom -/

/-- The envelopes of one step, with their origins. -/
theorem step_emitted (t : JsonText) (timeout : Nat) (st : State) (ev : Event) :
    emitted st (step t timeout st ev) = [] ∨
    (∃ req id sr, ev = Event.recv req id ∧ SubmitRequest.unmarshal t req.Data = some sr ∧
      sr.Type_ = enums.Submit ∧
      emitted st (step t timeout st ev) =
        [⟨t.print (AckSubmitReply.doc ⟨enums.SubmitAck, id, sr.Id⟩), req.Origin, enums.Direct⟩,
         ⟨t.print (SubmitRequest.doc ⟨enums.Submit, id, sr.Topic, sr.Payload⟩), req.Origin,
           enums.Spread⟩]) ∨
    (∃ req id data, ev = Event.recv req id ∧
      emitted st (step t timeout st ev) = [⟨data, req.Origin, enums.Direct⟩]) ∨
    (∃ req id m jb, ev = Event.recv req id ∧ BaseRequest.unmarshal t req.Data = some m ∧
      st.pending m.Id = some jb ∧
      emitted st (step t timeout st ev) = [⟨req.Data, jb.Conn, enums.Direct⟩]) ∨
    (∃ k c jb, ev = Event.wake k ∧ st.cleanups.get? k = some c ∧
      st.pending c.jobId = some jb ∧
      emitted st (step t timeout st ev) =
        [⟨t.print (FailureReply.doc ⟨enums.JobFailure, c.jobId, "Queue timeout"⟩),
          c.req.Origin, enums.Direct⟩]) := by
  cases ev with
  | wake k =>
    cases hk : st.cleanups.get? k with
    | none =>
      left
      simp only [step, wake, hk]
      simp [emitted]
    | some c =>
      cases hp : st.pending c.jobId with
      | none =>
        left
        simp only [step, wake, hk, setupCleanup, cancelJob, hp]
        simp [emitted]
      | some jb =>
        right; right; right; right
        refine ⟨k, c, jb, rfl, hk, hp, ?_⟩
        simp only [step, wake, hk, setupCleanup, cancelJob, hp, State.send]
        simp [emitted]
  | recv req id =>
    simp only [step, handleMessages, processMessage]
    cases hb : BaseRequest.unmarshal t req.Data with
    | none => left; simp [emitted]
    | some m =>
      obtain ⟨ty, J⟩ := m
      simp only
      by_cases h1 : ty = enums.Submit
      · subst h1
        simp only [if_true, handleSubmit]
        cases hs : SubmitRequest.unmarshal t req.Data with
        | none => left; simp [emitted]
        | some sr =>
          have hty : sr.Type_ = enums.Submit := by
            have := submit_unmarshal_base t req.Data sr hs
            rw [hb] at this
            simp at this
            exact this.1.symm
          right; left
          refine ⟨req, id, sr, rfl, hs, hty, ?_⟩
          simp [emitted, State.send, ← hty]
      · by_cases h2 : ty = enums.Cancel
        · subst h2
          simp only [h1, if_false, if_true, handleCancel, hb, cancelJob]
          cases hp : st.pending J with
          | none => left; simp [emitted]
          | some jb =>
            right; right; left
            exact ⟨req, id, t.print (FailureReply.doc ⟨enums.JobFailure, J, "Client cancel"⟩),
              rfl, by simp [emitted, State.send]⟩
        · by_cases h3 : ty = enums.Bid
          · subst h3
            simp only [h1, h2, if_false, if_true, handleBid, hb]
            cases hp : st.pending J with
            | none => left; simp [emitted]
            | some jb =>
              right; right; left
              obtain ⟨c, b⟩ := jb
              cases b with
              | false =>
                exact ⟨req, id, t.print (BaseRequest.doc ⟨enums.BidAck, J⟩), rfl,
                  by simp [emitted, State.send]⟩
              | true =>
                exact ⟨req, id, t.print (BaseRequest.doc ⟨enums.BidReject, J⟩), rfl,
                  by simp [emitted, State.send]⟩
          · by_cases h4 : ty = enums.JobFailure ∨ ty = enums.JobSuccess
            · simp only [h1, h2, h3, h4, if_false, if_true, handleJobResult, hb]
              cases hp : st.pending J with
              | none => left; simp [emitted]
              | some jb =>
                right; right; right; left
                exact ⟨req, id, ⟨ty, J⟩, jb, rfl, hb, hp, by simp [emitted, State.send]⟩
            · simp only [h1, h2, h3, h4, if_false]
              left; simp [emitted]

/-- A cleanup of the next state was there before, or was scheduled by this
step for the id it drew and the request it handled. -/
theorem step_cleanups (t : JsonText) (timeout : Nat) (st : State) (ev : Event) :
    ∀ c ∈ (step t timeout st ev).cleanups,
      c ∈ st.cleanups ∨
      ∃ req id, ev = Event.recv req id ∧ drawsId t req = true ∧ c = ⟨id, req, timeout⟩ ∧
        (step t timeout st ev).pending = Pending.set st.pending id ⟨req.Origin, false⟩ := by
  intro c hc
  cases ev with
  | wake k =>
    left
    simp only [step, wake] at hc
    cases hk : st.cleanups.get? k with
    | none =>
      simp only [hk] at hc
      exact hc
    | some c1 =>
      simp only [hk, setupCleanup, cancelJob] at hc
      have hsub : c ∈ st.cleanups.eraseIdx k := by
        cases hp : st.pending c1.jobId with
        | none => simpa [hp] using hc
        | some jb => simpa [hp, State.send] using hc
      exact List.mem_of_mem_eraseIdx hsub
  | recv req id =>
    simp only [step, handleMessages, processMessage] at hc ⊢
    cases hb : BaseRequest.unmarshal t req.Data with
    | none =>
      left
      simpa [hb] using hc
    | some m =>
      obtain ⟨ty, J⟩ := m
      simp only [hb] at hc ⊢
      by_cases h1 : ty = enums.Submit
      · subst h1
        simp only [if_true, handleSubmit] at hc ⊢
        cases hs : SubmitRequest.unmarshal t req.Data with
        | none =>
          left
          simpa [hs] using hc
        | some sr =>
          simp only [hs, State.send, List.mem_append, List.mem_singleton] at hc
          rcases hc with h | h
          · exact Or.inl h
          · right
            refine ⟨req, id, rfl, by simp [drawsId, hb, hs], h, ?_⟩
            simp [State.send]
      · left
        by_cases h2 : ty = enums.Cancel
        · subst h2
          simp only [h1, if_false, if_true, handleCancel, hb, cancelJob] at hc
          cases hp : st.pending J with
          | none => simpa [hp] using hc
          | some jb => simpa [hp, State.send] using hc
        · by_cases h3 : ty = enums.Bid
          · subst h3
            simp only [h1, h2, if_false, if_true, handleBid, hb] at hc
            cases hp : st.pending J with
            | none => simpa [hp] using hc
            | some jb =>
              simp only [hp, State.send] at hc
              by_cases hbid : jb.Bid = true
              · simpa [hbid] using hc
              · simpa [hbid] using hc
          · by_cases h4 : ty = enums.JobFailure ∨ ty = enums.JobSuccess
            · simp only [h1, h2, h3, h4, if_false, if_true, handleJobResult, hb] at hc
              cases hp : st.pending J with
              | none => simpa [hp] using hc
              | some jb => simpa [hp, State.send] using hc
            · simpa [h1, h2, h3, h4] using hc

/-- Along a run with distinct generated ids, a sleeping cleanup was scheduled
for a generated id, and while that id is pending its stored submitter is the
origin of the request the cleanup holds. -/
theorem cleanups_agree (t : JsonText) (timeout : Nat) :
    ∀ es : List Event, (generated t es).Nodup →
      (∀ c ∈ (run t timeout es State.init).cleanups, c.jobId ∈ generated t es) ∧
      (∀ c ∈ (run t timeout es State.init).cleanups, ∀ jb,
        (run t timeout es State.init).pending c.jobId = some jb → jb.Conn = c.req.Origin) := by
  intro es
  induction es using List.reverseRecOn with
  | nil =>
    intro _
    simp [run, State.init]
  | append_singleton es ev ih =>
    intro hnd
    rw [generated_append] at hnd
    obtain ⟨hg, hagree⟩ := ih (List.nodup_append.mp hnd).1
    rw [run_snoc, generated_append]
    have hcl := step_cleanups t timeout (run t timeout es State.init) ev
    refine ⟨?_, ?_⟩
    · intro c hc
      rcases hcl c hc with h | ⟨req, id, hev, hdraw, hceq, _⟩
      · exact List.mem_append_left _ (hg c h)
      · subst hev
        subst hceq
        simp [generated, hdraw]
    · intro c hc jb hjb
      rcases hcl c hc with h | ⟨req, id, hev, hdraw, hceq, hp⟩
      · have heff := step_effect t timeout (run t timeout es State.init) ev
        cases heff with
        | idle hp ho =>
          rw [hp] at hjb
          exact hagree c h jb hjb
        | submit req id sr hev hdraw hp ho =>
          subst hev
          have hgen : generated t [Event.recv req id] = [id] := by simp [generated, hdraw]
          rw [hgen] at hnd
          have hJ : ¬ c.jobId = id := by
            intro e
            exact (List.nodup_append.mp hnd).2.2 (e ▸ hg c h) (List.mem_singleton_self id)
          rw [hp] at hjb
          simp only [Pending.set, hJ, if_false] at hjb
          exact hagree c h jb hjb
        | cancel J1 o reason jb1 hj hp ho =>
          rw [hp] at hjb
          by_cases hJ : c.jobId = J1
          · simp [Pending.delete, hJ] at hjb
          · simp only [Pending.delete, hJ, if_false] at hjb
            exact hagree c h jb hjb
        | ack req id J1 jb1 hev hdec hj hbid hp ho =>
          rw [hp] at hjb
          by_cases hJ : c.jobId = J1
          · simp only [Pending.set, hJ, if_true, Option.some.injEq] at hjb
            rw [← hjb]
            exact hagree c h jb1 (hJ ▸ hj)
          · simp only [Pending.set, hJ, if_false] at hjb
            exact hagree c h jb hjb
        | reject req id J1 jb1 hev hdec hj hbid hp ho =>
          rw [hp] at hjb
          exact hagree c h jb hjb
        | forward req id m jb1 hev hdec hty hj hp ho =>
          rw [hp] at hjb
          exact hagree c h jb hjb
      · subst hceq
        rw [hp] at hjb
        simp only [Pending.set, if_true, Option.some.injEq] at hjb
        rw [← hjb]

/-- C19. In a run from the empty table with distinct generated ids, any one
event, a frame or a waking cleanup, sends at most two envelopes; none is in
`Broadcast` mode; one in `Spread` mode is the submission re-emitted by
`handleSubmit` for the frame being processed; every other one is in `Direct`
mode, is written to its origin alone and at most once, and that origin is the
sender of the frame being processed or the stored submitter of the job the
event names. -/
theorem coordinator_emits_narrowly (t : JsonText) (timeout : Nat) (es : List Event)
    (ev : Event) (hfresh : (generated t (es ++ [ev])).Nodup) :
    (sentBy t timeout es ev).length ≤ 2 ∧
    (∀ r ∈ sentBy t timeout es ev, r.To ≠ enums.Broadcast) ∧
    (∀ r ∈ sentBy t timeout es ev, r.To = enums.Direct ∨ r.To = enums.Spread) ∧
    (∀ r ∈ sentBy t timeout es ev, r.To = enums.Spread →
      ∃ req id sr, ev = Event.recv req id ∧ SubmitRequest.unmarshal t req.Data = some sr ∧
        sr.Type_ = enums.Submit ∧
        r = ⟨t.print (SubmitRequest.doc ⟨enums.Submit, id, sr.Topic, sr.Payload⟩), req.Origin,
          enums.Spread⟩) ∧
    (∀ r ∈ sentBy t timeout es ev, r.To = enums.Direct →
      ev.sender = some r.Origin ∨
      ∃ J jb, Event.jobId t (run t timeout es State.init) ev = some J ∧
        (run t timeout es State.init).pending J = some jb ∧ jb.Conn = r.Origin) ∧
    (∀ r ∈ sentBy t timeout es ev, r.To = enums.Direct →
      ∀ (cs : ConnectionsSet) (c : Conn),
        writtenTo c (publishOne cs r []) =
          if c = r.Origin ∧ c ∈ cs.keys then [r.Data] else []) := by
  have hdirect : ∀ r : reply, r.To = enums.Direct →
      ∀ (cs : ConnectionsSet) (c : Conn),
        writtenTo c (publishOne cs r []) =
          if c = r.Origin ∧ c ∈ cs.keys then [r.Data] else [] := by
    intro r hr cs c
    rw [writtenTo_publishOne]
    simp [selects, hr, writtenTo, enums.Direct, enums.Spread, enums.Broadcast]
  have hnd : (generated t es).Nodup := by
    rw [generated_append] at hfresh
    exact (List.nodup_append.mp hfresh).1
  have hagree := (cleanups_agree t timeout es hnd).2
  unfold sentBy
  rcases step_emitted t timeout (run t timeout es State.init) ev with
    h | ⟨req, id, sr, hev, hdec, hty, h⟩ | ⟨req, id, data, hev, h⟩ |
    ⟨req, id, m, jb, hev, hdec, hj, h⟩ | ⟨k, c, jb, hev, hk, hj, h⟩
  · rw [h]
    simp
  · rw [h]
    refine ⟨by simp, ?_, ?_, ?_, ?_, ?_⟩
    · intro r hr
      simp only [List.mem_cons, List.mem_singleton, List.not_mem_nil, or_false] at hr
      rcases hr with hr | hr <;> subst hr <;>
        simp [enums.Direct, enums.Spread, enums.Broadcast]
    · intro r hr
      simp only [List.mem_cons, List.mem_singleton, List.not_mem_nil, or_false] at hr
      rcases hr with hr | hr <;> subst hr <;> simp
    · intro r hr hsp
      simp only [List.mem_cons, List.mem_singleton, List.not_mem_nil, or_false] at hr
      rcases hr with hr | hr
      · subst hr
        simp [enums.Direct, enums.Spread] at hsp
      · exact ⟨req, id, sr, hev, hdec, hty, hr⟩
    · intro r hr _
      left
      simp only [List.mem_cons, List.mem_singleton, List.not_mem_nil, or_false] at hr
      rcases hr with hr | hr <;> subst hr <;> subst hev <;> rfl
    · intro r _ hd
      exact hdirect r hd
  · rw [h]
    refine ⟨by simp, ?_, ?_, ?_, ?_, ?_⟩
    · intro r hr
      simp only [List.mem_singleton] at hr
      subst hr
      simp [enums.Direct, enums.Spread, enums.Broadcast]
    · intro r hr
      simp only [List.mem_singleton] at hr
      subst hr
      simp
    · intro r hr hsp
      simp only [List.mem_singleton] at hr
      subst hr
      simp [enums.Direct, enums.Spread] at hsp
    · intro r hr _
      left
      simp only [List.mem_singleton] at hr
      subst hr
      subst hev
      rfl
    · intro r _ hd
      exact hdirect r hd
  · rw [h]
    refine ⟨by simp, ?_, ?_, ?_, ?_, ?_⟩
    · intro r hr
      simp only [List.mem_singleton] at hr
      subst hr
      simp [enums.Direct, enums.Spread, enums.Broadcast]
    · intro r hr
      simp only [List.mem_singleton] at hr
      subst hr
      simp
    · intro r hr hsp
      simp only [List.mem_singleton] at hr
      subst hr
      simp [enums.Direct, enums.Spread] at hsp
    · intro r hr _
      right
      simp only [List.mem_singleton] at hr
      subst hr
      subst hev
      exact ⟨m.Id, jb, by simp [Event.jobId, hdec], hj, rfl⟩
    · intro r _ hd
      exact hdirect r hd
  · rw [h]
    refine ⟨by simp, ?_, ?_, ?_, ?_, ?_⟩
    · intro r hr
      simp only [List.mem_singleton] at hr
      subst hr
      simp [enums.Direct, enums.Spread, enums.Broadcast]
    · intro r hr
      simp only [List.mem_singleton] at hr
      subst hr
      simp
    · intro r hr hsp
      simp only [List.mem_singleton] at hr
      subst hr
      simp [enums.Direct, enums.Spread] at hsp
    · intro r hr _
      right
      simp only [List.mem_singleton] at hr
      subst hr
      subst hev
      have hcmem : c ∈ (run t timeout es State.init).cleanups := List.get?_mem hk
      refine ⟨c.jobId, jb, ?_, hj, hagree c hcmem jb hj⟩
      simp only [Event.jobId]
      rw [hk]
      rfl
    · intro r _ hd
      exact hdirect r hd

/-- Witness for C19: after connection `3` has submitted and got `j1`, the cleanup of `j1` wakes. -/
theorem coordinator_emits_narrowly_witness :
    (generated wire ([Event.recv ⟨submitFrame, 3⟩ "j1"] ++ [Event.wake 0])).Nodup ∧
    (sentBy wire 30 [Event.recv ⟨submitFrame, 3⟩ "j1"] (Event.wake 0)).length ≤ 2 ∧
    sentBy wire 30 [Event.recv ⟨submitFrame, 3⟩ "j1"] (Event.wake 0) =
      [⟨wire.print (FailureReply.doc ⟨enums.JobFailure, "j1", "Queue timeout"⟩), 3,
        enums.Direct⟩] :=
  ⟨by decide,
    (coordinator_emits_narrowly wire 30 [Event.recv ⟨submitFrame, 3⟩ "j1"] (Event.wake 0)
      (by decide)).1,
    by decide⟩


/-! ## The interleaved goroutines: one action -/

theorem micro_effect (t : JsonText) (timeout : Nat) (σ : Sys) (a : Act) :
    MicroEffect t timeout σ a (micro t timeout σ a) := by
  cases a with
  | recv req id =>
    simp only [micro]
    cases hc : σ.coord with
    | idle =>
      simp only [accept]
      cases hb : BaseRequest.unmarshal t req.Data with
      | none => exact MicroEffect.stay rfl
      | some m =>
        obtain ⟨ty, J⟩ := m
        simp only
        by_cases h1 : ty = enums.Submit
        · subst h1
          simp only [if_true]
          cases hs : SubmitRequest.unmarshal t req.Data with
          | none => exact MicroEffect.stay rfl
          | some sr =>
            have hty : sr.Type_ = enums.Submit := by
              have := submit_unmarshal_base t req.Data sr hs
              rw [hb] at this
              simp at this
              exact this.1.symm
            exact MicroEffect.gotSubmit req id sr rfl hc hs hty rfl
        · by_cases h2 : ty = enums.Cancel
          · subst h2
            simp only [h1, if_false, if_true]
            cases hp : σ.pending J with
            | none => exact MicroEffect.stay rfl
            | some jb => exact MicroEffect.gotCancel req id J jb rfl hc hb hp rfl
          · by_cases h3 : ty = enums.Bid
            · subst h3
              simp only [h1, h2, if_false, if_true]
              cases hp : σ.pending J with
              | none => exact MicroEffect.stay rfl
              | some jb =>
                obtain ⟨c, b⟩ := jb
                cases b with
                | false => exact MicroEffect.gotBidAck req id J ⟨c, false⟩ rfl hc hb hp rfl rfl
                | true => exact MicroEffect.gotBidReject req id J ⟨c, true⟩ rfl hc hb hp rfl rfl
            · by_cases h4 : ty = enums.JobFailure ∨ ty = enums.JobSuccess
              · simp only [h1, h2, h3, h4, if_false, if_true]
                cases hp : σ.pending J with
                | none => exact MicroEffect.stay rfl
                | some jb => exact MicroEffect.gotResult req id ⟨ty, J⟩ jb rfl hc hb h4 hp rfl
              · simp only [h1, h2, h3, h4, if_false]
                exact MicroEffect.stay rfl
    | submitAck _ _ _ => exact MicroEffect.stay rfl
    | submitStore _ _ _ => exact MicroEffect.stay rfl
    | submitSpread _ _ _ => exact MicroEffect.stay rfl
    | cancel _ _ => exact MicroEffect.stay rfl
    | cancelDelete _ _ => exact MicroEffect.stay rfl
    | bid _ _ _ => exact MicroEffect.stay rfl
    | result _ _ => exact MicroEffect.stay rfl
  | coordSent =>
    simp only [micro]
    cases hc : σ.coord with
    | idle => exact MicroEffect.stay rfl
    | submitAck req id sr => exact MicroEffect.sentAck req id sr rfl hc rfl
    | submitStore req id sr => exact MicroEffect.stay rfl
    | submitSpread req id sr => exact MicroEffect.sentSpread req id sr rfl hc rfl
    | cancel req J => exact MicroEffect.sentCancel req J rfl hc rfl
    | cancelDelete req J => exact MicroEffect.stay rfl
    | bid req J msg => exact MicroEffect.sentBid req J msg rfl hc rfl
    | result req conn => exact MicroEffect.sentResult req conn rfl hc rfl
  | coordRuns =>
    simp only [micro]
    cases hc : σ.coord with
    | idle => exact MicroEffect.stay rfl
    | submitAck req id sr => exact MicroEffect.stay rfl
    | submitStore req id sr => exact MicroEffect.stored req id sr rfl hc rfl
    | submitSpread req id sr => exact MicroEffect.stay rfl
    | cancel req J => exact MicroEffect.stay rfl
    | cancelDelete req J => exact MicroEffect.cancelled req J rfl hc rfl
    | bid req J msg => exact MicroEffect.stay rfl
    | result req conn => exact MicroEffect.stay rfl
  | wake k =>
    simp only [micro]
    cases hk : σ.tasks.get? k with
    | none => exact MicroEffect.stay rfl
    | some p =>
      cases p with
      | sleeping c =>
        simp only
        cases hp : σ.pending c.jobId with
        | none => exact MicroEffect.wokeLate k c rfl hk hp rfl
        | some jb => exact MicroEffect.woke k c jb rfl hk hp rfl
      | sending c => exact MicroEffect.stay rfl
      | deleting c => exact MicroEffect.stay rfl
      | done c => exact MicroEffect.stay rfl
  | taskSent k =>
    simp only [micro]
    cases hk : σ.tasks.get? k with
    | none => exact MicroEffect.stay rfl
    | some p =>
      cases p with
      | sleeping c => exact MicroEffect.stay rfl
      | sending c => exact MicroEffect.sentTimeout k c rfl hk rfl
      | deleting c => exact MicroEffect.stay rfl
      | done c => exact MicroEffect.stay rfl
  | taskRuns k =>
    simp only [micro]
    cases hk : σ.tasks.get? k with
    | none => exact MicroEffect.stay rfl
    | some p =>
      cases p with
      | sleeping c => exact MicroEffect.stay rfl
      | sending c => exact MicroEffect.stay rfl
      | deleting c => exact MicroEffect.timedOut k c rfl hk rfl
      | done c => exact MicroEffect.stay rfl

theorem mrun_snoc (t : JsonText) (timeout : Nat) (acts : List Act) (a : Act) (σ : Sys) :
    mrun t timeout (acts ++ [a]) σ = micro t timeout (mrun t timeout acts σ) a := by
  simp [mrun, List.foldl_append]

theorem mrun_append (t : JsonText) (timeout : Nat) (acts acts1 : List Act) (σ : Sys) :
    mrun t timeout (acts ++ acts1) σ = mrun t timeout acts1 (mrun t timeout acts σ) := by
  simp [mrun, List.foldl_append]

/-- The generator's history only grows. -/
theorem micro_drawn (t : JsonText) (timeout : Nat) (σ : Sys) (a : Act) :
    ∃ more, (micro t timeout σ a).drawn = σ.drawn ++ more := by
  have heff := micro_effect t timeout σ a
  cases heff with
  | gotSubmit req id sr ha hc hdec hty h => exact ⟨[id], by rw [h]⟩
  | _ => exact ⟨[], by rename_i h; rw [h]; simp⟩

/-- The envelopes taken only grow. -/
theorem micro_outgoing (t : JsonText) (timeout : Nat) (σ : Sys) (a : Act) :
    ∃ new, (micro t timeout σ a).outgoing = σ.outgoing ++ new := by
  have heff := micro_effect t timeout σ a
  cases heff with
  | sentAck req id sr ha hc h => exact ⟨_, by rw [h]⟩
  | sentSpread req id sr ha hc h => exact ⟨_, by rw [h]⟩
  | sentCancel req J ha hc h => exact ⟨_, by rw [h]⟩
  | sentBid req J msg ha hc h => exact ⟨_, by rw [h]⟩
  | sentResult req conn ha hc h => exact ⟨_, by rw [h]⟩
  | sentTimeout k c ha hk h => exact ⟨_, by rw [h]⟩
  | _ => exact ⟨[], by rename_i h; rw [h]; simp⟩

theorem mrun_drawn (t : JsonText) (timeout : Nat) (σ : Sys) :
    ∀ acts : List Act, ∃ more, (mrun t timeout acts σ).drawn = σ.drawn ++ more := by
  intro acts
  induction acts using List.reverseRecOn with
  | nil => exact ⟨[], by simp [mrun]⟩
  | append_singleton acts a ih =>
    obtain ⟨m1, h1⟩ := ih
    obtain ⟨m2, h2⟩ := micro_drawn t timeout (mrun t timeout acts σ) a
    exact ⟨m1 ++ m2, by rw [mrun_snoc, h2, h1, List.append_assoc]⟩

theorem mrun_outgoing (t : JsonText) (timeout : Nat) (σ : Sys) :
    ∀ acts : List Act, ∃ new, (mrun t timeout acts σ).outgoing = σ.outgoing ++ new := by
  intro acts
  induction acts using List.reverseRecOn with
  | nil => exact ⟨[], by simp [mrun]⟩
  | append_singleton acts a ih =>
    obtain ⟨m1, h1⟩ := ih
    obtain ⟨m2, h2⟩ := micro_outgoing t timeout (mrun t timeout acts σ) a
    exact ⟨m1 ++ m2, by rw [mrun_snoc, h2, h1, List.append_assoc]⟩

/-- Distinct ids at the end of a schedule are distinct ids at each moment of it. -/
theorem nodup_drawn_earlier (t : JsonText) (timeout : Nat) (σ : Sys) (acts more : List Act)
    (h : (mrun t timeout (acts ++ more) σ).drawn.Nodup) :
    (mrun t timeout acts σ).drawn.Nodup := by
  rw [mrun_append] at h
  obtain ⟨m, hm⟩ := mrun_drawn t timeout (mrun t timeout acts σ) more
  rw [hm] at h
  exact (List.nodup_append.mp h).1

/-! ## The events of `step` among the schedules -/

/-- The event `recv` of `step` is the schedule in which the coordinator is
let through at once: the receive followed by `coordSent`, `coordRuns`,
`coordSent` leaves the table and the envelopes that `processMessage` leaves,
the coordinator idle again, and a sleeping goroutine for each cleanup it
scheduled. -/
theorem step_recv_is_a_schedule (t : JsonText) (timeout : Nat) (st : State) (σ : Sys)
    (req : request) (id : String) (hc : σ.coord = CoordPc.idle)
    (hp : σ.pending = st.pending) (ho : σ.outgoing = st.outgoing) :
    (mrun t timeout [Act.recv req id, Act.coordSent, Act.coordRuns, Act.coordSent] σ).coord =
      CoordPc.idle ∧
    (mrun t timeout [Act.recv req id, Act.coordSent, Act.coordRuns, Act.coordSent] σ).pending =
      (step t timeout st (Event.recv req id)).pending ∧
    (mrun t timeout [Act.recv req id, Act.coordSent, Act.coordRuns, Act.coordSent] σ).outgoing =
      (step t timeout st (Event.recv req id)).outgoing ∧
    (mrun t timeout [Act.recv req id, Act.coordSent, Act.coordRuns, Act.coordSent] σ).tasks =
      σ.tasks ++ ((step t timeout st (Event.recv req id)).cleanups.drop
        st.cleanups.length).map CleanupPc.sleeping := by
  simp only [mrun, List.foldl_cons, List.foldl_nil, step, handleMessages, processMessage]
  simp only [micro, hc, accept]
  cases hb : BaseRequest.unmarshal t req.Data with
  | none => simp [micro, hc, hp, ho]
  | some m =>
    obtain ⟨ty, J⟩ := m
    simp only
    by_cases h1 : ty = enums.Submit
    · subst h1
      simp only [if_true, handleSubmit]
      cases hs : SubmitRequest.unmarshal t req.Data with
      | none => simp [micro, hc, hp, ho]
      | some sr =>
        have hty : sr.Type_ = enums.Submit := by
          have := submit_unmarshal_base t req.Data sr hs
          rw [hb] at this
          simp at this
          exact this.1.symm
        simp [micro, hp, ho, State.send, ackReply, spreadReply]
    · by_cases h2 : ty = enums.Cancel
      · subst h2
        simp only [h1, if_false, if_true, handleCancel, hb, cancelJob]
        rw [hp]
        cases hj : st.pending J with
        | none => simp [micro, hc, hp, ho]
        | some jb => simp [micro, hp, ho, State.send, failureReply]
      · by_cases h3 : ty = enums.Bid
        · subst h3
          simp only [h1, h2, if_false, if_true, handleBid, hb]
          rw [hp]
          cases hj : st.pending J with
          | none => simp [micro, hc, hp, ho]
          | some jb =>
            obtain ⟨c, b⟩ := jb
            cases b <;> simp [micro, hp, ho, State.send, bidReply]
        · by_cases h4 : ty = enums.JobFailure ∨ ty = enums.JobSuccess
          · simp only [h1, h2, h3, h4, if_false, if_true, handleJobResult, hb]
            rw [hp]
            cases hj : st.pending J with
            | none => simp [micro, hc, hp, ho]
            | some jb => simp [micro, hp, ho, State.send, resultReply]
          · simp [h1, h2, h3, h4, micro, hc, hp, ho]

/-- The event `wake` of `step` is the schedule in which the cleanup is let
through at once: its waking followed by `taskSent` and `taskRuns` leaves the
table and the envelopes that `setupCleanup` leaves, and the coordinator where
it was. -/
theorem step_wake_is_a_schedule (t : JsonText) (timeout : Nat) (st : State) (σ : Sys)
    (k j : Nat) (c : Cleanup) (hk : st.cleanups.get? k = some c)
    (hj : σ.tasks.get? j = some (CleanupPc.sleeping c))
    (hp : σ.pending = st.pending) (ho : σ.outgoing = st.outgoing) :
    (mrun t timeout [Act.wake j, Act.taskSent j, Act.taskRuns j] σ).coord = σ.coord ∧
    (mrun t timeout [Act.wake j, Act.taskSent j, Act.taskRuns j] σ).pending =
      (step t timeout st (Event.wake k)).pending ∧
    (mrun t timeout [Act.wake j, Act.taskSent j, Act.taskRuns j] σ).outgoing =
      (step t timeout st (Event.wake k)).outgoing ∧
    (mrun t timeout [Act.wake j, Act.taskSent j, Act.taskRuns j] σ).tasks =
      σ.tasks.set j (CleanupPc.done c) := by
  have hlt : j < σ.tasks.length := by
    by_contra hge
    have : σ.tasks.get? j = none := List.get?_eq_none.mpr (by omega)
    rw [this] at hj
    exact Option.noConfusion hj
  simp only [mrun, List.foldl_cons, List.foldl_nil, step, wake, hk, setupCleanup, cancelJob]
  simp only [micro, hj]
  rw [hp]
  cases hjb : st.pending c.jobId with
  | none => simp [micro, List.getElem?_set, hlt, hp, ho]
  | some jb => simp [micro, List.getElem?_set, hlt, hp, ho, State.send, failureReply]

/-! ## The interleaved goroutines: what distinct ids give -/

theorem map_set_same {α β : Type} (f : α → β) :
    ∀ (l : List α) (k : Nat) (x y : α), l.get? k = some x → f y = f x →
      (l.set k y).map f = l.map f := by
  intro l
  induction l with
  | nil => intro k x y h _; simp at h
  | cons a rest ih =>
    intro k x y h hf
    cases k with
    | zero =>
      simp at h
      subst h
      simp [hf]
    | succ k =>
      simp only [List.get?_cons_succ] at h
      simp [ih k x y h hf]

theorem mem_set_cases {α : Type} (l : List α) (k : Nat) (y p : α) (h : p ∈ l.set k y) :
    p ∈ l ∨ p = y :=
  List.mem_or_eq_of_mem_set h

/-- With distinct keys, replacing the `k`-th element leaves no other element
with the key of the one replaced. -/
theorem set_key_unique {α β : Type} (f : α → β) :
    ∀ (l : List α) (k : Nat) (x y p : α), (l.map f).Nodup → l.get? k = some x →
      p ∈ l.set k y → f p = f x → p = y := by
  intro l
  induction l with
  | nil => intro k x y p _ h; simp at h
  | cons a rest ih =>
    intro k x y p hnd h hp hf
    simp only [List.map_cons, List.nodup_cons] at hnd
    cases k with
    | zero =>
      simp only [List.get?_cons_zero, Option.some.injEq] at h
      subst h
      simp only [List.set_cons_zero, List.mem_cons] at hp
      rcases hp with hp | hp
      · exact hp
      · exact absurd (hf ▸ List.mem_map_of_mem f hp) hnd.1
    | succ k =>
      simp only [List.get?_cons_succ] at h
      simp only [List.set_cons_succ, List.mem_cons] at hp
      rcases hp with hp | hp
      · subst hp
        exact absurd (hf ▸ List.mem_map_of_mem f (List.get?_mem h)) hnd.1
      · exact ih k x y p hnd.2 h hp hf

theorem good_init : Sys.init.Good := by
  refine ⟨?_, ?_, ?_, ?_, ?_, ?_⟩ <;>
    simp [Sys.init, Pending.empty, CoordPc.reserved, CoordPc.wellTyped]

theorem good_step (t : JsonText) (timeout : Nat) (σ : Sys) (a : Act) (hg : σ.Good)
    (hnd : (micro t timeout σ a).drawn.Nodup) : (micro t timeout σ a).Good := by
  have heff := micro_effect t timeout σ a
  obtain ⟨g1, g2, g3, g4, g5, g6⟩ := hg
  cases heff with
  | stay h => rw [h]; exact ⟨g1, g2, g3, g4, g5, g6⟩
  | gotSubmit req id sr ha hc hdec hty h =>
    rw [h] at hnd ⊢
    simp only at hnd
    have hfresh : id ∉ σ.drawn := fun hm =>
      (List.nodup_append.mp hnd).2.2 hm (List.mem_singleton_self id)
    refine ⟨?_, ?_, ?_, ?_, g5, hty⟩
    · intro J jb hj
      have := (g1 J jb hj).1
      refine ⟨List.mem_append_left _ this, ?_⟩
      simp only [CoordPc.reserved, ne_eq, Option.some.injEq]
      intro e
      exact hfresh (e ▸ this)
    · intro p hp
      have := (g2 p hp).1
      refine ⟨List.mem_append_left _ this, ?_⟩
      simp only [CoordPc.reserved, ne_eq, Option.some.injEq]
      intro e
      exact hfresh (e ▸ this)
    · intro req1 J e
      simp at e
    · intro N e
      simp only [CoordPc.reserved, Option.some.injEq] at e
      simp [e]
  | gotCancel req id J jb ha hc hdec hj h =>
    rw [h]
    refine ⟨?_, ?_, ?_, ?_, g5, trivial⟩
    · intro K kb hk
      exact ⟨(g1 K kb hk).1, by simp [CoordPc.reserved]⟩
    · intro p hp
      exact ⟨(g2 p hp).1, by simp [CoordPc.reserved]⟩
    · intro req1 K e
      simp only [CoordPc.cancel.injEq, reduceCtorEq, or_false] at e
      exact e.2 ▸ (g1 J jb hj).1
    · intro N e
      simp [CoordPc.reserved] at e
  | gotBidAck req id J jb ha hc hdec hj hb h =>
    rw [h]
    refine ⟨?_, ?_, ?_, ?_, g5, Or.inl rfl⟩
    · intro K kb hk
      refine ⟨?_, by simp [CoordPc.reserved]⟩
      by_cases e : K = J
      · exact e ▸ (g1 J jb hj).1
      · simp only [Pending.set, e, if_false] at hk
        exact (g1 K kb hk).1
    · intro p hp
      exact ⟨(g2 p hp).1, by simp [CoordPc.reserved]⟩
    · intro req1 K e
      simp at e
    · intro N e
      simp [CoordPc.reserved] at e
  | gotBidReject req id J jb ha hc hdec hj hb h =>
    rw [h]
    refine ⟨?_, ?_, ?_, ?_, g5, Or.inr rfl⟩
    · intro K kb hk
      exact ⟨(g1 K kb hk).1, by simp [CoordPc.reserved]⟩
    · intro p hp
      exact ⟨(g2 p hp).1, by simp [CoordPc.reserved]⟩
    · intro req1 K e
      simp at e
    · intro N e
      simp [CoordPc.reserved] at e
  | gotResult req id m jb ha hc hdec hty hj h =>
    rw [h]
    refine ⟨?_, ?_, ?_, ?_, g5, trivial⟩
    · intro K kb hk
      exact ⟨(g1 K kb hk).1, by simp [CoordPc.reserved]⟩
    · intro p hp
      exact ⟨(g2 p hp).1, by simp [CoordPc.reserved]⟩
    · intro req1 K e
      simp at e
    · intro N e
      simp [CoordPc.reserved] at e
  | sentAck req id sr ha hc h =>
    rw [h]
    rw [hc] at g1 g2 g4 g6
    refine ⟨g1, g2, ?_, g4, g5, g6⟩
    intro req1 K e
    simp at e
  | stored req id sr ha hc h =>
    rw [h]
    have hid : id ∈ σ.drawn := g4 id (by rw [hc]; rfl)
    rw [hc] at g6
    refine ⟨?_, ?_, ?_, ?_, ?_, g6⟩
    · intro K kb hk
      refine ⟨?_, by simp [CoordPc.reserved]⟩
      by_cases e : K = id
      · exact e ▸ hid
      · simp only [Pending.set, e, if_false] at hk
        exact (g1 K kb hk).1
    · intro p hp
      refine ⟨?_, by simp [CoordPc.reserved]⟩
      simp only [List.mem_append, List.mem_singleton] at hp
      rcases hp with hp | hp
      · exact (g2 p hp).1
      · rw [hp]
        exact hid
    · intro req1 K e
      simp at e
    · intro N e
      simp [CoordPc.reserved] at e
    · simp only [List.map_append, List.map_cons, List.map_nil]
      refine List.nodup_append.mpr ⟨g5, by simp, ?_⟩
      intro x hx hx1
      simp only [List.mem_singleton] at hx1
      obtain ⟨p, hp, hpx⟩ := List.mem_map.mp hx
      have := (g2 p hp).2
      rw [hc] at this
      simp only [CoordPc.reserved, ne_eq, Option.some.injEq] at this
      apply this
      rw [hpx, hx1]
      rfl
  | sentSpread req id sr ha hc h =>
    rw [h]
    refine ⟨?_, ?_, ?_, ?_, g5, trivial⟩
    · intro K kb hk
      exact ⟨(g1 K kb hk).1, by simp [CoordPc.reserved]⟩
    · intro p hp
      exact ⟨(g2 p hp).1, by simp [CoordPc.reserved]⟩
    · intro req1 K e
      simp at e
    · intro N e
      simp [CoordPc.reserved] at e
  | sentCancel req J ha hc h =>
    rw [h]
    refine ⟨?_, ?_, ?_, ?_, g5, trivial⟩
    · intro K kb hk
      exact ⟨(g1 K kb hk).1, by simp [CoordPc.reserved]⟩
    · intro p hp
      exact ⟨(g2 p hp).1, by simp [CoordPc.reserved]⟩
    · intro req1 K e
      simp only [CoordPc.cancelDelete.injEq, reduceCtorEq, false_or] at e
      exact e.2 ▸ g3 req J (Or.inl hc)
    · intro N e
      simp [CoordPc.reserved] at e
  | cancelled req J ha hc h =>
    rw [h]
    refine ⟨?_, ?_, ?_, ?_, g5, trivial⟩
    · intro K kb hk
      refine ⟨?_, by simp [CoordPc.reserved]⟩
      by_cases e : K = J
      · simp [Pending.delete, e] at hk
      · simp only [Pending.delete, e, if_false] at hk
        exact (g1 K kb hk).1
    · intro p hp
      exact ⟨(g2 p hp).1, by simp [CoordPc.reserved]⟩
    · intro req1 K e
      simp at e
    · intro N e
      simp [CoordPc.reserved] at e
  | sentBid req J msg ha hc h =>
    rw [h]
    refine ⟨?_, ?_, ?_, ?_, g5, trivial⟩
    · intro K kb hk
      exact ⟨(g1 K kb hk).1, by simp [CoordPc.reserved]⟩
    · intro p hp
      exact ⟨(g2 p hp).1, by simp [CoordPc.reserved]⟩
    · intro req1 K e
      simp at e
    · intro N e
      simp [CoordPc.reserved] at e
  | sentResult req conn ha hc h =>
    rw [h]
    refine ⟨?_, ?_, ?_, ?_, g5, trivial⟩
    · intro K kb hk
      exact ⟨(g1 K kb hk).1, by simp [CoordPc.reserved]⟩
    · intro p hp
      exact ⟨(g2 p hp).1, by simp [CoordPc.reserved]⟩
    · intro req1 K e
      simp at e
    · intro N e
      simp [CoordPc.reserved] at e
  | woke k c jb ha hk hj h =>
    rw [h]
    have hmem : CleanupPc.sleeping c ∈ σ.tasks := List.get?_mem hk
    refine ⟨g1, ?_, g3, g4, ?_, g6⟩
    · intro p hp
      rcases mem_set_cases _ _ _ _ hp with hp | hp
      · exact g2 p hp
      · rw [hp]
        exact g2 (CleanupPc.sleeping c) hmem
    · simp only
      rw [map_set_same CleanupPc.jobId σ.tasks k (CleanupPc.sleeping c) (CleanupPc.sending c) hk rfl]
      exact g5
  | wokeLate k c ha hk hj h =>
    rw [h]
    have hmem : CleanupPc.sleeping c ∈ σ.tasks := List.get?_mem hk
    refine ⟨g1, ?_, g3, g4, ?_, g6⟩
    · intro p hp
      rcases mem_set_cases _ _ _ _ hp with hp | hp
      · exact g2 p hp
      · rw [hp]
        exact g2 (CleanupPc.sleeping c) hmem
    · simp only
      rw [map_set_same CleanupPc.jobId σ.tasks k (CleanupPc.sleeping c) (CleanupPc.done c) hk rfl]
      exact g5
  | sentTimeout k c ha hk h =>
    rw [h]
    have hmem : CleanupPc.sending c ∈ σ.tasks := List.get?_mem hk
    refine ⟨g1, ?_, g3, g4, ?_, g6⟩
    · intro p hp
      rcases mem_set_cases _ _ _ _ hp with hp | hp
      · exact g2 p hp
      · rw [hp]
        exact g2 (CleanupPc.sending c) hmem
    · simp only
      rw [map_set_same CleanupPc.jobId σ.tasks k (CleanupPc.sending c) (CleanupPc.deleting c) hk rfl]
      exact g5
  | timedOut k c ha hk h =>
    rw [h]
    have hmem : CleanupPc.deleting c ∈ σ.tasks := List.get?_mem hk
    refine ⟨?_, ?_, g3, g4, ?_, g6⟩
    · intro K kb hkk
      by_cases e : K = c.jobId
      · simp [Pending.delete, e] at hkk
      · simp only [Pending.delete, e, if_false] at hkk
        exact g1 K kb hkk
    · intro p hp
      rcases mem_set_cases _ _ _ _ hp with hp | hp
      · exact g2 p hp
      · rw [hp]
        exact g2 (CleanupPc.deleting c) hmem
    · simp only
      rw [map_set_same CleanupPc.jobId σ.tasks k (CleanupPc.deleting c) (CleanupPc.done c) hk rfl]
      exact g5

theorem good_run (t : JsonText) (timeout : Nat) :
    ∀ acts : List Act, (mrun t timeout acts Sys.init).drawn.Nodup →
      (mrun t timeout acts Sys.init).Good := by
  intro acts
  induction acts using List.reverseRecOn with
  | nil => intro _; exact good_init
  | append_singleton acts a ih =>
    intro hnd
    have hpre := nodup_drawn_earlier t timeout Sys.init acts [a] hnd
    rw [mrun_snoc] at hnd ⊢
    exact good_step t timeout _ a (ih hpre) hnd

theorem idIs_ackReply (t : JsonText) (hrt : t.RoundTrip) (req : request) (id : String)
    (sr : SubmitRequest) (J : String) : (ackReply t req id sr).idIs t J ↔ id = J := by
  simp [reply.idIs, ackReply, ack_unmarshal_doc t hrt]

theorem idIs_spreadReply (t : JsonText) (hrt : t.RoundTrip) (req : request) (id : String)
    (sr : SubmitRequest) (J : String) : (spreadReply t req id sr).idIs t J ↔ id = J := by
  simp [reply.idIs, spreadReply, submit_unmarshal_doc t hrt]

theorem idIs_failureReply (t : JsonText) (hrt : t.RoundTrip) (req : request) (K : String)
    (reason : String) (J : String) : (failureReply t K req reason).idIs t J ↔ K = J := by
  simp [reply.idIs, failureReply, failure_unmarshal_doc t hrt]

theorem idIs_bidReply (t : JsonText) (hrt : t.RoundTrip) (req : request) (K : String)
    (msg : enums.Message) (J : String) : (bidReply t req K msg).idIs t J ↔ K = J := by
  simp [reply.idIs, bidReply, base_unmarshal_doc t hrt]

/-- From a state in which `J` was drawn, is not pending and is not about to be
stored: after one more action this is still so, and an envelope reading `J`
that a goroutine is then blocked sending, or that the action handed to
`publish`, is one that a goroutine was already blocked sending. -/
theorem ended_step (t : JsonText) (timeout : Nat) (hrt : t.RoundTrip) (J : String)
    (held : reply → Prop) (σ : Sys) (a : Act)
    (hdead : σ.pending J = none) (hgen : J ∈ σ.drawn) (hres : σ.coord.reserved ≠ some J)
    (hheld : ∀ r, σ.holds t r → r.idIs t J → held r)
    (hnd : (micro t timeout σ a).drawn.Nodup) :
    (micro t timeout σ a).pending J = none ∧ J ∈ (micro t timeout σ a).drawn ∧
    (micro t timeout σ a).coord.reserved ≠ some J ∧
    (∀ r, (micro t timeout σ a).holds t r → r.idIs t J → held r) ∧
    ∃ new, (micro t timeout σ a).outgoing = σ.outgoing ++ new ∧
      ∀ r ∈ new, r.idIs t J → held r := by
  have heff := micro_effect t timeout σ a
  have hcoord : ∀ r, σ.coord.held t = some r → r.idIs t J → held r :=
    fun r h => hheld r (Or.inl h)
  have htask : ∀ c, CleanupPc.sending c ∈ σ.tasks →
      (failureReply t c.jobId c.req "Queue timeout").idIs t J →
      held (failureReply t c.jobId c.req "Queue timeout") :=
    fun c h => hheld _ (Or.inr ⟨c, h, rfl⟩)
  have htasks : ∀ r, (∃ c, CleanupPc.sending c ∈ σ.tasks ∧
      r = failureReply t c.jobId c.req "Queue timeout") → r.idIs t J → held r :=
    fun r h => hheld r (Or.inr h)
  cases heff with
  | stay h =>
    rw [h]
    exact ⟨hdead, hgen, hres, hheld, [], by simp, by simp⟩
  | gotSubmit req id sr ha hc hdec hty h =>
    rw [h] at hnd ⊢
    simp only at hnd
    have hfresh : id ∉ σ.drawn := fun hm =>
      (List.nodup_append.mp hnd).2.2 hm (List.mem_singleton_self id)
    have hne : ¬ id = J := fun e => hfresh (e ▸ hgen)
    refine ⟨hdead, List.mem_append_left _ hgen, ?_, ?_, [], by simp, by simp⟩
    · simp [CoordPc.reserved, hne]
    · rintro r (hr | hr) hid
      · simp only [CoordPc.held, Option.some.injEq] at hr
        rw [← hr, idIs_ackReply t hrt] at hid
        exact absurd hid hne
      · exact htasks r hr hid
  | gotCancel req id K jb ha hc hdec hj h =>
    rw [h]
    have hne : ¬ K = J := fun e => by rw [e, hdead] at hj; exact Option.noConfusion hj
    refine ⟨hdead, hgen, by simp [CoordPc.reserved], ?_, [], by simp, by simp⟩
    rintro r (hr | hr) hid
    · simp only [CoordPc.held, Option.some.injEq] at hr
      rw [← hr, idIs_failureReply t hrt] at hid
      exact absurd hid hne
    · exact htasks r hr hid
  | gotBidAck req id K jb ha hc hdec hj hb h =>
    rw [h]
    have hne : ¬ K = J := fun e => by rw [e, hdead] at hj; exact Option.noConfusion hj
    have hne1 : ¬ J = K := fun e => hne e.symm
    refine ⟨by simp only [Pending.set, hne1, if_false]; exact hdead, hgen,
      by simp [CoordPc.reserved], ?_, [], by simp, by simp⟩
    rintro r (hr | hr) hid
    · simp only [CoordPc.held, Option.some.injEq] at hr
      rw [← hr, idIs_bidReply t hrt] at hid
      exact absurd hid hne
    · exact htasks r hr hid
  | gotBidReject req id K jb ha hc hdec hj hb h =>
    rw [h]
    have hne : ¬ K = J := fun e => by rw [e, hdead] at hj; exact Option.noConfusion hj
    refine ⟨hdead, hgen, by simp [CoordPc.reserved], ?_, [], by simp, by simp⟩
    rintro r (hr | hr) hid
    · simp only [CoordPc.held, Option.some.injEq] at hr
      rw [← hr, idIs_bidReply t hrt] at hid
      exact absurd hid hne
    · exact htasks r hr hid
  | gotResult req id m jb ha hc hdec hty hj h =>
    rw [h]
    have hne : ¬ m.Id = J := fun e => by rw [e, hdead] at hj; exact Option.noConfusion hj
    refine ⟨hdead, hgen, by simp [CoordPc.reserved], ?_, [], by simp, by simp⟩
    rintro r (hr | hr) hid
    · simp only [CoordPc.held, Option.some.injEq] at hr
      rw [← hr] at hid
      simp [reply.idIs, resultReply, hdec, hne] at hid
    · exact htasks r hr hid
  | sentAck req id sr ha hc h =>
    rw [h]
    rw [hc] at hres
    refine ⟨hdead, hgen, hres, ?_, [ackReply t req id sr], rfl, ?_⟩
    · rintro r (hr | hr) hid
      · simp [CoordPc.held] at hr
      · exact htasks r hr hid
    · intro r hr hid
      simp only [List.mem_singleton] at hr
      exact hcoord r (by rw [hc, hr]; rfl) hid
  | stored req id sr ha hc h =>
    rw [h]
    have hne : ¬ id = J := by
      intro e
      apply hres
      rw [hc, e]
      rfl
    have hne1 : ¬ J = id := fun e => hne e.symm
    refine ⟨by simp only [Pending.set, hne1, if_false]; exact hdead, hgen,
      by simp [CoordPc.reserved], ?_, [], by simp, by simp⟩
    rintro r (hr | ⟨c, hc1, hr⟩) hid
    · simp only [CoordPc.held, Option.some.injEq] at hr
      rw [← hr, idIs_spreadReply t hrt] at hid
      exact absurd hid hne
    · simp only [List.mem_append, List.mem_singleton, reduceCtorEq, or_false] at hc1
      exact htasks r ⟨c, hc1, hr⟩ hid
  | sentSpread req id sr ha hc h =>
    rw [h]
    refine ⟨hdead, hgen, by simp [CoordPc.reserved], ?_, [spreadReply t req id sr], rfl, ?_⟩
    · rintro r (hr | hr) hid
      · simp [CoordPc.held] at hr
      · exact htasks r hr hid
    · intro r hr hid
      simp only [List.mem_singleton] at hr
      exact hcoord r (by rw [hc, hr]; rfl) hid
  | sentCancel req K ha hc h =>
    rw [h]
    refine ⟨hdead, hgen, by simp [CoordPc.reserved], ?_,
      [failureReply t K req "Client cancel"], rfl, ?_⟩
    · rintro r (hr | hr) hid
      · simp [CoordPc.held] at hr
      · exact htasks r hr hid
    · intro r hr hid
      simp only [List.mem_singleton] at hr
      exact hcoord r (by rw [hc, hr]; rfl) hid
  | cancelled req K ha hc h =>
    rw [h]
    refine ⟨?_, hgen, by simp [CoordPc.reserved], ?_, [], by simp, by simp⟩
    · by_cases e : J = K
      · simp [Pending.delete, e]
      · simp only [Pending.delete, e, if_false]
        exact hdead
    · rintro r (hr | hr) hid
      · simp [CoordPc.held] at hr
      · exact htasks r hr hid
  | sentBid req K msg ha hc h =>
    rw [h]
    refine ⟨hdead, hgen, by simp [CoordPc.reserved], ?_, [bidReply t req K msg], rfl, ?_⟩
    · rintro r (hr | hr) hid
      · simp [CoordPc.held] at hr
      · exact htasks r hr hid
    · intro r hr hid
      simp only [List.mem_singleton] at hr
      exact hcoord r (by rw [hc, hr]; rfl) hid
  | sentResult req conn ha hc h =>
    rw [h]
    refine ⟨hdead, hgen, by simp [CoordPc.reserved], ?_, [resultReply req conn], rfl, ?_⟩
    · rintro r (hr | hr) hid
      · simp [CoordPc.held] at hr
      · exact htasks r hr hid
    · intro r hr hid
      simp only [List.mem_singleton] at hr
      exact hcoord r (by rw [hc, hr]; rfl) hid
  | woke k c jb ha hk hj h =>
    rw [h]
    have hne : ¬ c.jobId = J := fun e => by rw [e, hdead] at hj; exact Option.noConfusion hj
    refine ⟨hdead, hgen, hres, ?_, [], by simp, by simp⟩
    rintro r (hr | ⟨c1, hc1, hr⟩) hid
    · exact hcoord r hr hid
    · rcases mem_set_cases _ _ _ _ hc1 with hc1 | hc1
      · exact htasks r ⟨c1, hc1, hr⟩ hid
      · simp only [CleanupPc.sending.injEq] at hc1
        rw [hr, hc1, idIs_failureReply t hrt] at hid
        exact absurd hid hne
  | wokeLate k c ha hk hj h =>
    rw [h]
    refine ⟨hdead, hgen, hres, ?_, [], by simp, by simp⟩
    rintro r (hr | ⟨c1, hc1, hr⟩) hid
    · exact hcoord r hr hid
    · rcases mem_set_cases _ _ _ _ hc1 with hc1 | hc1
      · exact htasks r ⟨c1, hc1, hr⟩ hid
      · exact CleanupPc.noConfusion hc1
  | sentTimeout k c ha hk h =>
    rw [h]
    have hmem : CleanupPc.sending c ∈ σ.tasks := List.get?_mem hk
    refine ⟨hdead, hgen, hres, ?_, [failureReply t c.jobId c.req "Queue timeout"], rfl, ?_⟩
    · rintro r (hr | ⟨c1, hc1, hr⟩) hid
      · exact hcoord r hr hid
      · rcases mem_set_cases _ _ _ _ hc1 with hc1 | hc1
        · exact htasks r ⟨c1, hc1, hr⟩ hid
        · exact CleanupPc.noConfusion hc1
    · intro r hr hid
      simp only [List.mem_singleton] at hr
      rw [hr] at hid ⊢
      exact htask c hmem hid
  | timedOut k c ha hk h =>
    rw [h]
    refine ⟨?_, hgen, hres, ?_, [], by simp, by simp⟩
    · by_cases e : J = c.jobId
      · simp [Pending.delete, e]
      · simp only [Pending.delete, e, if_false]
        exact hdead
    · rintro r (hr | ⟨c1, hc1, hr⟩) hid
      · exact hcoord r hr hid
      · rcases mem_set_cases _ _ _ _ hc1 with hc1 | hc1
        · exact htasks r ⟨c1, hc1, hr⟩ hid
        · exact CleanupPc.noConfusion hc1

theorem failure_unmarshal_own_doc (t : JsonText) (hrt : t.RoundTrip) (r : FailureReply) :
    FailureReply.unmarshal t (t.print (FailureReply.doc r)) = some r := by
  obtain ⟨ty, id, c⟩ := r
  by_cases h : ty = "" <;>
    simp [FailureReply.unmarshal, FailureReply.doc, hrt _, omitempty, h, FailureReply.members,
      FailureReply.member, fold_type, fold_id, fold_reason, storeString]

/-- An envelope that decodes as a `BaseRequest` of another type, or for another
id, is not a failure for `J`. -/
theorem failureFor_of_base (t : JsonText) (J reason : String) (r : reply) (m : BaseRequest)
    (hb : BaseRequest.unmarshal t r.Data = some m)
    (hne : m.Type_ ≠ enums.JobFailure ∨ m.Id ≠ J) : r.failureFor t J reason = false := by
  unfold reply.failureFor
  cases hf : FailureReply.unmarshal t r.Data with
  | none => rfl
  | some f =>
    have := failure_unmarshal_base t _ f hf
    rw [hb] at this
    simp only [Option.some.injEq] at this
    subst this
    simp only [decide_eq_false_iff_not, not_and]
    intro h1 h2
    rcases hne with hne | hne
    · exact absurd h1 hne
    · exact absurd h2 hne

theorem carries_of_base (t : JsonText) (ty : enums.Message) (J : String) (r : reply)
    (m : BaseRequest) (hb : BaseRequest.unmarshal t r.Data = some m) (hne : m.Type_ ≠ ty) :
    ¬ r.carries t ty J := by
  unfold reply.carries
  rw [hb]
  intro e
  simp only [Option.some.injEq] at e
  exact hne (by rw [e])

theorem failureFor_of_none (t : JsonText) (J reason : String) (r : reply)
    (hb : BaseRequest.unmarshal t r.Data = none) : r.failureFor t J reason = false := by
  unfold reply.failureFor
  cases hf : FailureReply.unmarshal t r.Data with
  | none => rfl
  | some f =>
    have := failure_unmarshal_base t _ f hf
    rw [hb] at this
    exact Option.noConfusion this

theorem failureFor_failureReply (t : JsonText) (hrt : t.RoundTrip) (J reason K reason1 : String)
    (req : request) :
    (failureReply t K req reason1).failureFor t J reason = decide (K = J ∧ reason1 = reason) := by
  simp [reply.failureFor, failureReply, failure_unmarshal_own_doc t hrt]

/-- A frame that does not report on `J` is, when forwarded, neither a success
nor a failure for `J`. -/
theorem forwarded_not_terminal (t : JsonText) (J : String) (req : request) (conn : Conn)
    (h : req.reportsOn t J = false) :
    ¬ (resultReply req conn).carries t enums.JobSuccess J ∧
    ∀ reason, (resultReply req conn).failureFor t J reason = false := by
  unfold request.reportsOn at h
  cases hb : BaseRequest.unmarshal t req.Data with
  | none =>
    refine ⟨by simp [reply.carries, resultReply, hb], fun reason => ?_⟩
    exact failureFor_of_none t J reason _ hb
  | some m =>
    simp only [hb, decide_eq_false_iff_not, not_and] at h
    refine ⟨?_, fun reason => ?_⟩
    · simp only [reply.carries, resultReply, hb, Option.some.injEq]
      intro e
      subst e
      exact h (Or.inr rfl) rfl
    · apply failureFor_of_base t J reason (resultReply req conn) m hb
      by_cases hty : m.Type_ = enums.JobFailure
      · exact Or.inr (h (Or.inl hty))
      · exact Or.inl hty

theorem micro_outgoing_taken (t : JsonText) (timeout : Nat) (σ : Sys) (a : Act) :
    (micro t timeout σ a).outgoing = σ.outgoing ++ (σ.taken t a).toList := by
  cases a with
  | recv req id =>
    have heff := micro_effect t timeout σ (Act.recv req id)
    cases heff with
    | stay h => rw [h]; simp [Sys.taken]
    | gotSubmit _ _ _ _ _ _ _ h => rw [h]; simp [Sys.taken]
    | gotCancel _ _ _ _ _ _ _ _ h => rw [h]; simp [Sys.taken]
    | gotBidAck _ _ _ _ _ _ _ _ _ h => rw [h]; simp [Sys.taken]
    | gotBidReject _ _ _ _ _ _ _ _ _ h => rw [h]; simp [Sys.taken]
    | gotResult _ _ _ _ _ _ _ _ _ h => rw [h]; simp [Sys.taken]
    | sentAck _ _ _ ha => exact Act.noConfusion ha
    | stored _ _ _ ha => exact Act.noConfusion ha
    | sentSpread _ _ _ ha => exact Act.noConfusion ha
    | sentCancel _ _ ha => exact Act.noConfusion ha
    | cancelled _ _ ha => exact Act.noConfusion ha
    | sentBid _ _ _ ha => exact Act.noConfusion ha
    | sentResult _ _ ha => exact Act.noConfusion ha
    | woke _ _ _ ha => exact Act.noConfusion ha
    | wokeLate _ _ ha => exact Act.noConfusion ha
    | sentTimeout _ _ ha => exact Act.noConfusion ha
    | timedOut _ _ ha => exact Act.noConfusion ha
  | coordSent =>
    cases hc : σ.coord <;> simp [micro, Sys.taken, hc, CoordPc.held]
  | coordRuns =>
    cases hc : σ.coord <;> simp [micro, Sys.taken, hc]
  | wake k =>
    simp only [micro, Sys.taken]
    cases hk : σ.tasks.get? k with
    | none => simp
    | some p =>
      cases p with
      | sleeping c => cases hp : σ.pending c.jobId <;> simp [hp]
      | sending c => simp
      | deleting c => simp
      | done c => simp
  | taskSent k =>
    simp only [micro, Sys.taken]
    cases hk : σ.tasks.get? k with
    | none => simp
    | some p => cases p <;> simp
  | taskRuns k =>
    simp only [micro, Sys.taken]
    cases hk : σ.tasks.get? k with
    | none => simp
    | some p => cases p <;> simp

/-- What the envelope taken in one action can be read as. -/
theorem taken_class (t : JsonText) (hrt : t.RoundTrip) (J : String) (σ : Sys) (a : Act)
    (r : reply) (hty : σ.coord.wellTyped)
    (hres : ∀ req conn, σ.coord = CoordPc.result req conn → req.reportsOn t J = false)
    (h : σ.taken t a = some r) :
    ¬ r.carries t enums.JobSuccess J ∧
    (r.failureFor t J "Client cancel" = true →
      a = Act.coordSent ∧ ∃ req, σ.coord = CoordPc.cancel req J) ∧
    (r.failureFor t J "Queue timeout" = true →
      ∃ k c, a = Act.taskSent k ∧ σ.tasks.get? k = some (CleanupPc.sending c) ∧ c.jobId = J) := by
  cases a with
  | recv req id => simp [Sys.taken] at h
  | coordRuns => simp [Sys.taken] at h
  | wake k => simp [Sys.taken] at h
  | taskRuns k => simp [Sys.taken] at h
  | coordSent =>
    simp only [Sys.taken] at h
    cases hc : σ.coord with
    | idle => simp [hc, CoordPc.held] at h
    | submitStore req id sr => simp [hc, CoordPc.held] at h
    | cancelDelete req K => simp [hc, CoordPc.held] at h
    | submitAck req id sr =>
      simp only [hc, CoordPc.held, Option.some.injEq] at h
      subst h
      have hb : BaseRequest.unmarshal t (ackReply t req id sr).Data =
          some ⟨enums.SubmitAck, id⟩ := ack_unmarshal_doc t hrt ⟨enums.SubmitAck, id, sr.Id⟩
      have hnf : enums.SubmitAck ≠ enums.JobFailure := by decide
      refine ⟨carries_of_base t _ J _ ⟨enums.SubmitAck, id⟩ hb
        (show enums.SubmitAck ≠ enums.JobSuccess by decide), ?_, ?_⟩
      · intro hf
        rw [failureFor_of_base t J _ _ _ hb (Or.inl hnf)] at hf
        exact Bool.noConfusion hf
      · intro hf
        rw [failureFor_of_base t J _ _ _ hb (Or.inl hnf)] at hf
        exact Bool.noConfusion hf
    | submitSpread req id sr =>
      simp only [hc, CoordPc.held, Option.some.injEq] at h
      subst h
      rw [hc] at hty
      have hsub : sr.Type_ = enums.Submit := hty
      have hb : BaseRequest.unmarshal t (spreadReply t req id sr).Data =
          some ⟨sr.Type_, id⟩ := submit_unmarshal_doc t hrt { sr with Id := id }
      have hnf : sr.Type_ ≠ enums.JobFailure := by rw [hsub]; decide
      have hns : sr.Type_ ≠ enums.JobSuccess := by rw [hsub]; decide
      refine ⟨carries_of_base t _ J _ _ hb hns, ?_, ?_⟩
      · intro hf
        rw [failureFor_of_base t J _ _ _ hb (Or.inl hnf)] at hf
        exact Bool.noConfusion hf
      · intro hf
        rw [failureFor_of_base t J _ _ _ hb (Or.inl hnf)] at hf
        exact Bool.noConfusion hf
    | cancel req K =>
      simp only [hc, CoordPc.held, Option.some.injEq] at h
      subst h
      have hb : BaseRequest.unmarshal t (failureReply t K req "Client cancel").Data =
          some ⟨enums.JobFailure, K⟩ :=
        failure_unmarshal_doc t hrt ⟨enums.JobFailure, K, "Client cancel"⟩
      refine ⟨carries_of_base t _ J _ ⟨enums.JobFailure, K⟩ hb
        (show enums.JobFailure ≠ enums.JobSuccess by decide), ?_, ?_⟩
      · intro hf
        rw [failureFor_failureReply t hrt] at hf
        simp only [decide_eq_true_eq] at hf
        exact ⟨rfl, req, by rw [hf.1]⟩
      · intro hf
        rw [failureFor_failureReply t hrt] at hf
        simp at hf
    | bid req K msg =>
      simp only [hc, CoordPc.held, Option.some.injEq] at h
      subst h
      rw [hc] at hty
      have hmsg : msg = enums.BidAck ∨ msg = enums.BidReject := hty
      have hb : BaseRequest.unmarshal t (bidReply t req K msg).Data = some ⟨msg, K⟩ :=
        base_unmarshal_doc t hrt ⟨msg, K⟩
      have hnf : msg ≠ enums.JobFailure := by
        rcases hmsg with e | e <;> rw [e] <;> decide
      have hns : msg ≠ enums.JobSuccess := by
        rcases hmsg with e | e <;> rw [e] <;> decide
      refine ⟨carries_of_base t _ J _ _ hb hns, ?_, ?_⟩
      · intro hf
        rw [failureFor_of_base t J _ _ _ hb (Or.inl hnf)] at hf
        exact Bool.noConfusion hf
      · intro hf
        rw [failureFor_of_base t J _ _ _ hb (Or.inl hnf)] at hf
        exact Bool.noConfusion hf
    | result req conn =>
      simp only [hc, CoordPc.held, Option.some.injEq] at h
      subst h
      obtain ⟨h1, h2⟩ := forwarded_not_terminal t J req conn (hres req conn hc)
      refine ⟨h1, ?_, ?_⟩
      · intro hf
        rw [h2] at hf
        exact Bool.noConfusion hf
      · intro hf
        rw [h2] at hf
        exact Bool.noConfusion hf
  | taskSent k =>
    change (match σ.tasks.get? k with
      | some (CleanupPc.sending c) => some (failureReply t c.jobId c.req "Queue timeout")
      | _ => none) = some r at h
    cases hk : σ.tasks.get? k with
    | none => rw [hk] at h; exact Option.noConfusion h
    | some p =>
      rw [hk] at h
      cases p with
      | sleeping c => exact Option.noConfusion h
      | deleting c => exact Option.noConfusion h
      | done c => exact Option.noConfusion h
      | sending c =>
        simp only [Option.some.injEq] at h
        subst h
        have hb : BaseRequest.unmarshal t (failureReply t c.jobId c.req "Queue timeout").Data =
            some ⟨enums.JobFailure, c.jobId⟩ :=
          failure_unmarshal_doc t hrt ⟨enums.JobFailure, c.jobId, "Queue timeout"⟩
        refine ⟨carries_of_base t _ J _ ⟨enums.JobFailure, c.jobId⟩ hb
          (show enums.JobFailure ≠ enums.JobSuccess by decide), ?_, ?_⟩
        · intro hf
          rw [failureFor_failureReply t hrt] at hf
          simp at hf
        · intro hf
          rw [failureFor_failureReply t hrt] at hf
          simp only [decide_eq_true_eq] at hf
          exact ⟨k, c, rfl, hk, hf.1⟩

/-- The id about to be stored is the one it was, or one just drawn. -/
theorem reserved_next (t : JsonText) (timeout : Nat) (σ : Sys) (a : Act) (N : String)
    (hnd : (micro t timeout σ a).drawn.Nodup)
    (h1 : (micro t timeout σ a).coord.reserved = some N) :
    σ.coord.reserved = some N ∨ N ∉ σ.drawn := by
  have heff := micro_effect t timeout σ a
  cases heff with
  | gotSubmit req id sr ha hc hdec hty h =>
    rw [h] at hnd h1
    simp only [CoordPc.reserved, Option.some.injEq] at h1
    subst h1
    right
    intro hm
    exact (List.nodup_append.mp hnd).2.2 hm (List.mem_singleton_self id)
  | sentAck req id sr ha hc h =>
    rw [h] at h1
    left
    rw [hc]
    exact h1
  | stay h => rw [h] at h1; exact Or.inl h1
  | woke k c jb ha hk hj h => rw [h] at h1; exact Or.inl h1
  | wokeLate k c ha hk hj h => rw [h] at h1; exact Or.inl h1
  | sentTimeout k c ha hk h => rw [h] at h1; exact Or.inl h1
  | timedOut k c ha hk h => rw [h] at h1; exact Or.inl h1
  | _ => rename_i h; rw [h] at h1; simp [CoordPc.reserved] at h1

/-- The coordinator enters the send of `cancelJob` for `J` only from its
receive, with `J` pending. -/
theorem enters_cancel (t : JsonText) (timeout : Nat) (σ : Sys) (a : Act) (req : request)
    (J : String) (h1 : (micro t timeout σ a).coord = CoordPc.cancel req J) :
    σ.coord = CoordPc.cancel req J ∨ (σ.coord = CoordPc.idle ∧ ∃ jb, σ.pending J = some jb) := by
  have heff := micro_effect t timeout σ a
  cases heff with
  | gotCancel req1 id K jb ha hc hdec hj h =>
    rw [h] at h1
    simp only [CoordPc.cancel.injEq] at h1
    exact Or.inr ⟨hc, jb, h1.2 ▸ hj⟩
  | stay h => rw [h] at h1; exact Or.inl h1
  | woke k c jb ha hk hj h => rw [h] at h1; exact Or.inl h1
  | wokeLate k c ha hk hj h => rw [h] at h1; exact Or.inl h1
  | sentTimeout k c ha hk h => rw [h] at h1; exact Or.inl h1
  | timedOut k c ha hk h => rw [h] at h1; exact Or.inl h1
  | _ => rename_i h; rw [h] at h1; simp at h1

/-- The coordinator enters the send of `handleJobResult` only from its receive. -/
theorem enters_result (t : JsonText) (timeout : Nat) (σ : Sys) (a : Act) (req : request)
    (conn : Conn) (h1 : (micro t timeout σ a).coord = CoordPc.result req conn) :
    σ.coord = CoordPc.result req conn ∨ ∃ id, a = Act.recv req id := by
  have heff := micro_effect t timeout σ a
  cases heff with
  | gotResult req1 id m jb ha hc hdec hty hj h =>
    rw [h] at h1
    simp only [CoordPc.result.injEq] at h1
    exact Or.inr ⟨id, h1.1 ▸ ha⟩
  | stay h => rw [h] at h1; exact Or.inl h1
  | woke k c jb ha hk hj h => rw [h] at h1; exact Or.inl h1
  | wokeLate k c ha hk hj h => rw [h] at h1; exact Or.inl h1
  | sentTimeout k c ha hk h => rw [h] at h1; exact Or.inl h1
  | timedOut k c ha hk h => rw [h] at h1; exact Or.inl h1
  | _ => rename_i h; rw [h] at h1; simp at h1

/-- The coordinator leaves the point before `delete(pending, J)` only by deleting `J`. -/
theorem leaves_cancelDelete (t : JsonText) (timeout : Nat) (σ : Sys) (a : Act) (req : request)
    (J : String) (h0 : σ.coord = CoordPc.cancelDelete req J) :
    (micro t timeout σ a).coord = CoordPc.cancelDelete req J ∨
      (micro t timeout σ a).pending J = none := by
  have heff := micro_effect t timeout σ a
  cases heff with
  | cancelled req1 K ha hc h =>
    rw [h]
    rw [h0] at hc
    simp only [CoordPc.cancelDelete.injEq] at hc
    right
    simp [Pending.delete, hc.2]
  | stay h => rw [h]; exact Or.inl h0
  | woke k c jb ha hk hj h => rw [h]; exact Or.inl h0
  | wokeLate k c ha hk hj h => rw [h]; exact Or.inl h0
  | sentTimeout k c ha hk h => rw [h]; exact Or.inl h0
  | timedOut k c ha hk h =>
    rw [h]
    exact Or.inl h0
  | gotSubmit req1 id sr ha hc hdec hty h => rw [h0] at hc; exact CoordPc.noConfusion hc
  | gotCancel req1 id K jb ha hc hdec hj h => rw [h0] at hc; exact CoordPc.noConfusion hc
  | gotBidAck req1 id K jb ha hc hdec hj hb h => rw [h0] at hc; exact CoordPc.noConfusion hc
  | gotBidReject req1 id K jb ha hc hdec hj hb h => rw [h0] at hc; exact CoordPc.noConfusion hc
  | gotResult req1 id m jb ha hc hdec hty hj h => rw [h0] at hc; exact CoordPc.noConfusion hc
  | sentAck req1 id sr ha hc h => rw [h0] at hc; exact CoordPc.noConfusion hc
  | stored req1 id sr ha hc h => rw [h0] at hc; exact CoordPc.noConfusion hc
  | sentSpread req1 id sr ha hc h => rw [h0] at hc; exact CoordPc.noConfusion hc
  | sentCancel req1 K ha hc h => rw [h0] at hc; exact CoordPc.noConfusion hc
  | sentBid req1 K msg ha hc h => rw [h0] at hc; exact CoordPc.noConfusion hc
  | sentResult req1 conn ha hc h => rw [h0] at hc; exact CoordPc.noConfusion hc

/-- A cleanup goroutine of the next state is one of this state, no further
back than it was, or the one just started for the id about to be stored. -/
theorem tasks_next (t : JsonText) (timeout : Nat) (σ : Sys) (a : Act) (q : CleanupPc)
    (hq : q ∈ (micro t timeout σ a).tasks) :
    (∃ p ∈ σ.tasks, p.jobId = q.jobId ∧ (p.past = true → q.past = true)) ∨
      σ.coord.reserved = some q.jobId := by
  have heff := micro_effect t timeout σ a
  have hsame : q ∈ σ.tasks →
      (∃ p ∈ σ.tasks, p.jobId = q.jobId ∧ (p.past = true → q.past = true)) ∨
        σ.coord.reserved = some q.jobId := fun hm => Or.inl ⟨q, hm, rfl, fun x => x⟩
  cases heff with
  | stored req id sr ha hc h =>
    rw [h] at hq
    simp only [List.mem_append, List.mem_singleton] at hq
    rcases hq with hq | hq
    · exact hsame hq
    · right
      rw [hc, hq]
      rfl
  | woke k c jb ha hk hj h =>
    rw [h] at hq
    rcases mem_set_cases _ _ _ _ hq with hq | hq
    · exact hsame hq
    · exact Or.inl ⟨CleanupPc.sleeping c, List.get?_mem hk, by rw [hq]; rfl,
        fun x => Bool.noConfusion x⟩
  | wokeLate k c ha hk hj h =>
    rw [h] at hq
    rcases mem_set_cases _ _ _ _ hq with hq | hq
    · exact hsame hq
    · exact Or.inl ⟨CleanupPc.sleeping c, List.get?_mem hk, by rw [hq]; rfl,
        fun x => Bool.noConfusion x⟩
  | sentTimeout k c ha hk h =>
    rw [h] at hq
    rcases mem_set_cases _ _ _ _ hq with hq | hq
    · exact hsame hq
    · exact Or.inl ⟨CleanupPc.sending c, List.get?_mem hk, by rw [hq]; rfl,
        fun x => Bool.noConfusion x⟩
  | timedOut k c ha hk h =>
    rw [h] at hq
    rcases mem_set_cases _ _ _ _ hq with hq | hq
    · exact hsame hq
    · exact Or.inl ⟨CleanupPc.deleting c, List.get?_mem hk, by rw [hq]; rfl,
        fun _ => by rw [hq]; rfl⟩
  | _ => rename_i h; rw [h] at hq; exact hsame hq

theorem failureCount_snoc (t : JsonText) (J reason : String) (l : List reply) (o : Option reply) :
    failureCount t J reason (l ++ o.toList) = failureCount t J reason l +
      (match o with
       | some r => if r.failureFor t J reason = true then 1 else 0
       | none => 0) := by
  cases o with
  | none => simp [failureCount]
  | some r =>
    by_cases h : r.failureFor t J reason = true <;>
      simp [failureCount, List.countP_append, List.countP_cons, h]

/-- While no further failure `Client cancel` for `J` is taken, what is known
after one has been taken stays known. -/
theorem cancelSeen_frame (t : JsonText) (timeout : Nat) (hrt : t.RoundTrip) (J : String)
    (σ : Sys) (a : Act) (hc : σ.CancelSeen t J)
    (hnd : (micro t timeout σ a).drawn.Nodup)
    (hsame : failureCount t J "Client cancel" (micro t timeout σ a).outgoing =
      failureCount t J "Client cancel" σ.outgoing) :
    (micro t timeout σ a).CancelSeen t J := by
  obtain ⟨c1, c2, c3, c4, c5⟩ := hc
  obtain ⟨more, hmore⟩ := micro_drawn t timeout σ a
  have hgen : 1 ≤ failureCount t J "Client cancel" σ.outgoing → J ∈ (micro t timeout σ a).drawn := by
    intro h
    rw [hmore]
    exact List.mem_append_left _ (c2 h)
  have hresv : 1 ≤ failureCount t J "Client cancel" σ.outgoing →
      (micro t timeout σ a).coord.reserved ≠ some J := by
    intro h e
    rcases reserved_next t timeout σ a J hnd e with h2 | h2
    · exact c3 h h2
    · exact h2 (c2 h)
  refine ⟨by rw [hsame]; exact c1, by rw [hsame]; exact hgen, by rw [hsame]; exact hresv, ?_, ?_⟩
  · rw [hsame]
    intro h req e
    rcases enters_cancel t timeout σ a req J e with h2 | ⟨h2, jb, h3⟩
    · exact c4 h req h2
    · rcases c5 h with h4 | ⟨req1, h4⟩
      · rw [h4] at h3
        exact Option.noConfusion h3
      · rw [h4] at h2
        exact CoordPc.noConfusion h2
  · rw [hsame]
    intro h
    rcases c5 h with h4 | ⟨req1, h4⟩
    · left
      exact (ended_step t timeout hrt J (fun _ => True) σ a h4 (c2 h) (c3 h)
        (fun _ _ _ => trivial) hnd).1
    · rcases leaves_cancelDelete t timeout σ a req1 J h4 with h5 | h5
      · exact Or.inr ⟨req1, h5⟩
      · exact Or.inl h5

theorem cancelSeen_step (t : JsonText) (timeout : Nat) (hrt : t.RoundTrip) (J : String)
    (σ : Sys) (a : Act) (hg : σ.Good)
    (hres : ∀ req conn, σ.coord = CoordPc.result req conn → req.reportsOn t J = false)
    (hc : σ.CancelSeen t J) (hnd : (micro t timeout σ a).drawn.Nodup) :
    (micro t timeout σ a).CancelSeen t J := by
  have hout := micro_outgoing_taken t timeout σ a
  have hcount := failureCount_snoc t J "Client cancel" σ.outgoing (σ.taken t a)
  rw [← hout] at hcount
  cases htk : σ.taken t a with
  | none =>
    rw [htk] at hcount
    exact cancelSeen_frame t timeout hrt J σ a hc hnd hcount
  | some r =>
    rw [htk] at hcount
    by_cases hf : r.failureFor t J "Client cancel" = true
    · obtain ⟨_, hcc, _⟩ := taken_class t hrt J σ a r hg.typed hres htk
      obtain ⟨ha, req, hcoord⟩ := hcc hf
      have hzero : failureCount t J "Client cancel" σ.outgoing = 0 := by
        by_contra hne
        exact hc.left (by omega) req hcoord
      simp only [hf, if_true, hzero] at hcount
      have hJ := hg.canc req J (Or.inl hcoord)
      subst ha
      have hmic : micro t timeout σ Act.coordSent =
          { σ with outgoing := σ.outgoing ++ [failureReply t J req "Client cancel"],
                   coord := CoordPc.cancelDelete req J } := by
        simp [micro, hcoord]
      refine ⟨by omega, ?_, ?_, ?_, ?_⟩
      · intro _
        rw [hmic]
        exact hJ
      · intro _
        rw [hmic]
        simp [CoordPc.reserved]
      · intro _ req1
        rw [hmic]
        simp
      · intro _
        rw [hmic]
        exact Or.inr ⟨req, rfl⟩
    · simp only [hf, if_false] at hcount
      exact cancelSeen_frame t timeout hrt J σ a hc hnd hcount

/-- While no further failure `Queue timeout` for `J` is taken, what is known
after one has been taken stays known. -/
theorem timeoutSeen_frame (t : JsonText) (timeout : Nat) (J : String)
    (σ : Sys) (a : Act) (hc : σ.TimeoutSeen t J)
    (hnd : (micro t timeout σ a).drawn.Nodup)
    (hsame : failureCount t J "Queue timeout" (micro t timeout σ a).outgoing =
      failureCount t J "Queue timeout" σ.outgoing) :
    (micro t timeout σ a).TimeoutSeen t J := by
  obtain ⟨c1, c2, c3, c4⟩ := hc
  obtain ⟨more, hmore⟩ := micro_drawn t timeout σ a
  refine ⟨by rw [hsame]; exact c1, ?_, ?_, ?_⟩
  · rw [hsame]
    intro h
    rw [hmore]
    exact List.mem_append_left _ (c2 h)
  · rw [hsame]
    intro h e
    rcases reserved_next t timeout σ a J hnd e with h2 | h2
    · exact c3 h h2
    · exact h2 (c2 h)
  · rw [hsame]
    intro h q hq hqJ
    rcases tasks_next t timeout σ a q hq with ⟨p, hp, hpq, hpast⟩ | h2
    · exact hpast (c4 h p hp (by rw [hpq, hqJ]))
    · rw [hqJ] at h2
      exact absurd h2 (c3 h)

theorem timeoutSeen_step (t : JsonText) (timeout : Nat) (hrt : t.RoundTrip) (J : String)
    (σ : Sys) (a : Act) (hg : σ.Good)
    (hres : ∀ req conn, σ.coord = CoordPc.result req conn → req.reportsOn t J = false)
    (hc : σ.TimeoutSeen t J) (hnd : (micro t timeout σ a).drawn.Nodup) :
    (micro t timeout σ a).TimeoutSeen t J := by
  have hout := micro_outgoing_taken t timeout σ a
  have hcount := failureCount_snoc t J "Queue timeout" σ.outgoing (σ.taken t a)
  rw [← hout] at hcount
  cases htk : σ.taken t a with
  | none =>
    rw [htk] at hcount
    exact timeoutSeen_frame t timeout J σ a hc hnd hcount
  | some r =>
    rw [htk] at hcount
    by_cases hf : r.failureFor t J "Queue timeout" = true
    · obtain ⟨_, _, hqt⟩ := taken_class t hrt J σ a r hg.typed hres htk
      obtain ⟨k, c, ha, hk, hcJ⟩ := hqt hf
      have hmem : CleanupPc.sending c ∈ σ.tasks := List.get?_mem hk
      have hzero : failureCount t J "Queue timeout" σ.outgoing = 0 := by
        by_contra hne
        have := hc.past (by omega) (CleanupPc.sending c) hmem hcJ
        exact Bool.noConfusion this
      simp only [hf, if_true, hzero] at hcount
      have hJ := hg.task (CleanupPc.sending c) hmem
      subst ha
      have hmic : micro t timeout σ (Act.taskSent k) =
          { σ with outgoing := σ.outgoing ++ [failureReply t c.jobId c.req "Queue timeout"],
                   tasks := σ.tasks.set k (CleanupPc.deleting c) } := by
        simp only [micro, hk]
      refine ⟨by omega, ?_, ?_, ?_⟩
      · intro _
        rw [hmic]
        exact hcJ ▸ hJ.1
      · intro _
        rw [hmic]
        exact hcJ ▸ hJ.2
      · intro _ q hq hqJ
        rw [hmic] at hq
        have := set_key_unique CleanupPc.jobId σ.tasks k (CleanupPc.sending c)
          (CleanupPc.deleting c) q hg.uniq hk hq (by rw [hqJ]; exact hcJ.symm)
        rw [this]
        rfl
    · simp only [hf, if_false] at hcount
      exact timeoutSeen_frame t timeout J σ a hc hnd hcount

/-- No envelope taken in a schedule without reports on `J` reads as `JOB_SUCCESS` for `J`. -/
theorem success_step (t : JsonText) (timeout : Nat) (hrt : t.RoundTrip) (J : String)
    (σ : Sys) (a : Act) (hty : σ.coord.wellTyped)
    (hres : ∀ req conn, σ.coord = CoordPc.result req conn → req.reportsOn t J = false)
    (h0 : successCount t J σ.outgoing = 0) :
    successCount t J (micro t timeout σ a).outgoing = 0 := by
  rw [micro_outgoing_taken t timeout σ a]
  cases htk : σ.taken t a with
  | none => simpa [successCount] using h0
  | some r =>
    have := (taken_class t hrt J σ a r hty hres htk).1
    simp only [successCount, Option.toList, List.countP_append, List.countP_cons,
      List.countP_nil, this, decide_False, Bool.false_eq_true, if_false, Nat.add_zero]
    exact h0

theorem result_step (t : JsonText) (timeout : Nat) (J : String) (σ : Sys) (a : Act)
    (hres : ∀ req conn, σ.coord = CoordPc.result req conn → req.reportsOn t J = false)
    (ha : a.reportsOn t J = false) :
    ∀ req conn, (micro t timeout σ a).coord = CoordPc.result req conn →
      req.reportsOn t J = false := by
  intro req conn e
  rcases enters_result t timeout σ a req conn e with h | ⟨id, h⟩
  · exact hres req conn h
  · rw [h] at ha
    exact ha

/-- What holds along a schedule with distinct ids in which no frame reports on `J`. -/
theorem seen_run (t : JsonText) (timeout : Nat) (hrt : t.RoundTrip) (J : String) :
    ∀ acts : List Act, (mrun t timeout acts Sys.init).drawn.Nodup →
      (∀ a ∈ acts, Act.reportsOn t J a = false) →
      (mrun t timeout acts Sys.init).CancelSeen t J ∧
      (mrun t timeout acts Sys.init).TimeoutSeen t J ∧
      successCount t J (mrun t timeout acts Sys.init).outgoing = 0 ∧
      ∀ req conn, (mrun t timeout acts Sys.init).coord = CoordPc.result req conn →
        req.reportsOn t J = false := by
  intro acts
  induction acts using List.reverseRecOn with
  | nil =>
    intro _ _
    refine ⟨⟨?_, ?_, ?_, ?_, ?_⟩, ⟨?_, ?_, ?_, ?_⟩, ?_, ?_⟩ <;>
      simp [mrun, Sys.init, failureCount, successCount]
  | append_singleton acts a ih =>
    intro hnd hno
    have hpre := nodup_drawn_earlier t timeout Sys.init acts [a] hnd
    obtain ⟨i1, i2, i3, i4⟩ := ih hpre (fun b hb => hno b (List.mem_append_left _ hb))
    have hg := good_run t timeout acts hpre
    have ha := hno a (List.mem_append_right _ (List.mem_singleton_self a))
    rw [mrun_snoc] at hnd ⊢
    exact ⟨cancelSeen_step t timeout hrt J _ a hg i4 i1 hnd,
      timeoutSeen_step t timeout hrt J _ a hg i4 i2 hnd,
      success_step t timeout hrt J _ a hg.typed i4 i3,
      result_step t timeout J _ a i4 ha⟩

theorem terminal_cases (t : JsonText) (J : String) (s : Conn) (r : reply)
    (h : reply.terminal t J s r = true) :
    decide (r.carries t enums.JobSuccess J) = true ∨
      r.failureFor t J "Client cancel" = true ∨ r.failureFor t J "Queue timeout" = true := by
  unfold reply.terminal at h
  simp only [Bool.and_eq_true, Bool.or_eq_true] at h
  rcases h.2 with h2 | h2
  · exact Or.inl h2
  · right
    unfold reply.failureFor
    cases hf : FailureReply.unmarshal t r.Data with
    | none => simp [hf] at h2
    | some f =>
      simp only [hf, decide_eq_true_eq] at h2 ⊢
      rcases h2.2.2 with h3 | h3
      · exact Or.inl ⟨h2.1, h2.2.1, h3⟩
      · exact Or.inr ⟨h2.1, h2.2.1, h3⟩

theorem terminalCount_le (t : JsonText) (J : String) (s : Conn) :
    ∀ l : List reply, terminalCount t J s l ≤
      successCount t J l + failureCount t J "Client cancel" l +
        failureCount t J "Queue timeout" l := by
  intro l
  induction l with
  | nil => simp [terminalCount, successCount, failureCount]
  | cons r rest ih =>
    simp only [terminalCount, successCount, failureCount, List.countP_cons] at ih ⊢
    have hcase := terminal_cases t J s r
    by_cases h : reply.terminal t J s r = true <;>
    by_cases h1 : decide (r.carries t enums.JobSuccess J) = true <;>
    by_cases h2 : r.failureFor t J "Client cancel" = true <;>
    by_cases h3 : r.failureFor t J "Queue timeout" = true <;>
    simp only [h, h1, h2, h3, if_true, if_false, Bool.false_eq_true] <;>
    first
      | omega
      | (exfalso; rcases hcase h with x | x | x <;> contradiction)

/-- C3, amended. In any schedule of the goroutines with distinct generated
ids in which no frame of type `JOB_SUCCESS` or `JOB_FAILURE` naming `J` is
received, `publish` takes no envelope that reads as `JOB_SUCCESS` for `J`, at
most one that reads as `JOB_FAILURE` for `J` with reason `Client cancel` and
at most one with reason `Queue timeout`; so at most two terminal frames for
`J` reach a connection `s`. -/
theorem terminal_frames_without_report (t : JsonText) (timeout : Nat) (acts : List Act)
    (J : String) (s : Conn) (hrt : t.RoundTrip)
    (hfresh : (mrun t timeout acts Sys.init).drawn.Nodup)
    (hno : ∀ a ∈ acts, Act.reportsOn t J a = false) :
    successCount t J (mrun t timeout acts Sys.init).outgoing = 0 ∧
    failureCount t J "Client cancel" (mrun t timeout acts Sys.init).outgoing ≤ 1 ∧
    failureCount t J "Queue timeout" (mrun t timeout acts Sys.init).outgoing ≤ 1 ∧
    terminalCount t J s (mrun t timeout acts Sys.init).outgoing ≤ 2 := by
  obtain ⟨hc, hq, hs, _⟩ := seen_run t timeout hrt J acts hfresh hno
  have hle := terminalCount_le t J s (mrun t timeout acts Sys.init).outgoing
  have h1 := hc.once
  have h2 := hq.once
  exact ⟨hs, h1, h2, by omega⟩

set_option maxRecDepth 8000 in
/-- Witness for C3 amended: a `CANCEL` for `j1` and the timeout of `j1` are
both past the lookup of `cancelJob` before either deletes `j1`; no frame
reports on `j1`, and connection `3` gets two terminal frames for `j1`. -/
theorem terminal_frames_without_report_witness :
    wire.RoundTrip ∧ (mrun wire 30 bothBeforeDelete Sys.init).drawn.Nodup ∧
    (∀ a ∈ bothBeforeDelete, Act.reportsOn wire "j1" a = false) ∧
    terminalCount wire "j1" 3 (mrun wire 30 bothBeforeDelete Sys.init).outgoing ≤ 2 ∧
    terminalCount wire "j1" 3 (mrun wire 30 bothBeforeDelete Sys.init).outgoing = 2 :=
  ⟨wire_roundTrip, by decide, by decide,
    (terminal_frames_without_report wire 30 bothBeforeDelete "j1" 3 wire_roundTrip (by decide)
      (by decide)).2.2.2,
    by decide⟩

/-! ## Who touches the table -/

set_option maxRecDepth 8000 in
/-- C17, as the code behaves. Connection `3` submits, gets `j1` and sends
`CANCEL`; the timeout of `j1` expires.  The cleanup goroutine of `j1` looks
`j1` up itself while the coordinator is blocked in the send of `handleCancel`,
and finds it.  After both failures are taken, the coordinator and the cleanup
goroutine both stand before `delete(pending, "j1")`, with `j1` still in the
table; the cleanup goroutine then deletes `j1` in a step of its own, the
coordinator standing where it stood. -/
theorem cleanup_touches_table_itself :
    (mrun wire 30 cancelUnderWay Sys.init).coord =
      CoordPc.cancel ⟨cancelFrame, 3⟩ "j1" ∧
    (mrun wire 30 cancelUnderWay Sys.init).tasks =
      [CleanupPc.sleeping ⟨"j1", ⟨submitFrame, 3⟩, 30⟩] ∧
    (mrun wire 30 bothInCancelJob Sys.init).tasks =
      [CleanupPc.sending ⟨"j1", ⟨submitFrame, 3⟩, 30⟩] ∧
    (mrun wire 30 bothInCancelJob Sys.init).coord = CoordPc.cancel ⟨cancelFrame, 3⟩ "j1" ∧
    (mrun wire 30 bothBeforeDelete Sys.init).coord =
      CoordPc.cancelDelete ⟨cancelFrame, 3⟩ "j1" ∧
    (mrun wire 30 bothBeforeDelete Sys.init).tasks =
      [CleanupPc.deleting ⟨"j1", ⟨submitFrame, 3⟩, 30⟩] ∧
    (mrun wire 30 bothBeforeDelete Sys.init).pending "j1" = some ⟨3, false⟩ ∧
    (mrun wire 30 (bothBeforeDelete ++ [Act.taskRuns 0]) Sys.init).pending "j1" = none ∧
    (mrun wire 30 (bothBeforeDelete ++ [Act.taskRuns 0]) Sys.init).coord =
      CoordPc.cancelDelete ⟨cancelFrame, 3⟩ "j1" :=
  ⟨rfl, rfl, rfl, rfl, rfl, rfl, by decide, by decide, rfl⟩

/-- Whenever a step of a goroutine removes the entry of `J` from the pending
table, it is the coordinator running `delete(pending, J)` at the end of
`handleCancel`, or the cleanup goroutine of `J` running `delete(pending, J)`
itself; in the second case the step leaves the coordinator where it stands
and sends nothing. -/
theorem entry_removed_by (t : JsonText) (timeout : Nat) (σ : Sys) (a : Act) (J : String)
    (jb : job) (h0 : σ.pending J = some jb) (h1 : (micro t timeout σ a).pending J = none) :
    (a = Act.coordRuns ∧ ∃ req, σ.coord = CoordPc.cancelDelete req J) ∨
    (∃ k c, a = Act.taskRuns k ∧ σ.tasks.get? k = some (CleanupPc.deleting c) ∧ c.jobId = J ∧
      (micro t timeout σ a).coord = σ.coord ∧
      (micro t timeout σ a).outgoing = σ.outgoing) := by
  have heff := micro_effect t timeout σ a
  have hsame : (micro t timeout σ a).pending = σ.pending → False := by
    intro e
    rw [e, h0] at h1
    exact Option.noConfusion h1
  cases heff with
  | gotBidAck req id K jb1 ha hc hdec hj hb h =>
    exfalso
    rw [h] at h1
    by_cases e : J = K
    · simp [Pending.set, e] at h1
    · simp only [Pending.set, e, if_false] at h1
      rw [h0] at h1
      exact Option.noConfusion h1
  | stored req id sr ha hc h =>
    exfalso
    rw [h] at h1
    by_cases e : J = id
    · simp [Pending.set, e] at h1
    · simp only [Pending.set, e, if_false] at h1
      rw [h0] at h1
      exact Option.noConfusion h1
  | cancelled req K ha hc h =>
    left
    rw [h] at h1
    by_cases e : J = K
    · exact ⟨ha, req, by rw [hc, e]⟩
    · simp only [Pending.delete, e, if_false] at h1
      rw [h0] at h1
      exact Option.noConfusion h1
  | timedOut k c ha hk h =>
    right
    by_cases e : J = c.jobId
    · exact ⟨k, c, ha, hk, e.symm, by rw [h], by rw [h]⟩
    · rw [h] at h1
      simp only [Pending.delete, e, if_false] at h1
      rw [h0] at h1
      exact Option.noConfusion h1
  | _ => rename_i h; exact False.elim (hsame (by rw [h]))

theorem get?_lt {α : Type} (l : List α) (k : Nat) (x : α) (h : l.get? k = some x) :
    k < l.length := by
  by_contra hge
  have : l.get? k = none := List.get?_eq_none.mpr (by omega)
  rw [this] at h
  exact Option.noConfusion h

theorem get?_set_same {α : Type} (l : List α) (k : Nat) (x y : α) (h : l.get? k = some x) :
    (l.set k y).get? k = some y := by
  have hlt := get?_lt l k x h
  simp [List.getElem?_set, hlt]

theorem get?_set_other {α : Type} (l : List α) (k j : Nat) (y : α) (h : j ≠ k) :
    (l.set k y).get? j = l.get? j := by
  simp [List.getElem?_set, h.symm]

theorem get?_snoc_old {α : Type} (l : List α) (k : Nat) (x y : α) (h : l.get? k = some x) :
    (l ++ [y]).get? k = some x := by
  have hlt := get?_lt l k x h
  simp only [List.get?_eq_getElem?] at h ⊢
  rw [List.getElem?_append_left hlt]
  exact h

theorem get?_snoc_new {α : Type} (l : List α) (y : α) : (l ++ [y]).get? l.length = some y := by
  simp

theorem live_step (t : JsonText) (timeout : Nat) (σ : Sys) (a : Act) (hl : σ.Live) :
    (micro t timeout σ a).Live := by
  have heff := micro_effect t timeout σ a
  cases heff with
  | stay h => rw [h]; exact hl
  | gotSubmit req id sr ha hc hdec hty h => rw [h]; exact hl
  | gotCancel req id J jb ha hc hdec hj h => rw [h]; exact hl
  | gotBidReject req id J jb ha hc hdec hj hb h => rw [h]; exact hl
  | gotResult req id m jb ha hc hdec hty hj h => rw [h]; exact hl
  | sentAck req id sr ha hc h => rw [h]; exact hl
  | sentSpread req id sr ha hc h => rw [h]; exact hl
  | sentCancel req J ha hc h => rw [h]; exact hl
  | sentBid req J msg ha hc h => rw [h]; exact hl
  | sentResult req conn ha hc h => rw [h]; exact hl
  | gotBidAck req id J jb ha hc hdec hj hb h =>
    rw [h]
    intro K kb hk
    by_cases e : K = J
    · exact e ▸ hl J jb hj
    · simp only [Pending.set, e, if_false] at hk
      exact hl K kb hk
  | stored req id sr ha hc h =>
    rw [h]
    intro K kb hk
    by_cases e : K = id
    · exact ⟨σ.tasks.length, CleanupPc.sleeping ⟨id, req, timeout⟩, get?_snoc_new _ _,
        e.symm, rfl⟩
    · simp only [Pending.set, e, if_false] at hk
      obtain ⟨k, p, h1, h2, h3⟩ := hl K kb hk
      exact ⟨k, p, get?_snoc_old _ _ _ _ h1, h2, h3⟩
  | cancelled req J ha hc h =>
    rw [h]
    intro K kb hk
    by_cases e : K = J
    · simp [Pending.delete, e] at hk
    · simp only [Pending.delete, e, if_false] at hk
      exact hl K kb hk
  | woke k c jb ha hk hj h =>
    rw [h]
    intro K kb hK
    obtain ⟨j, p, h1, h2, h3⟩ := hl K kb hK
    by_cases e : j = k
    · subst e
      rw [hk] at h1
      simp only [Option.some.injEq] at h1
      subst h1
      exact ⟨j, CleanupPc.sending c, get?_set_same _ _ _ _ hk, h2, rfl⟩
    · exact ⟨j, p, by rw [get?_set_other _ _ _ _ e]; exact h1, h2, h3⟩
  | wokeLate k c ha hk hj h =>
    rw [h]
    intro K kb hK
    obtain ⟨j, p, h1, h2, h3⟩ := hl K kb hK
    by_cases e : j = k
    · subst e
      rw [hk] at h1
      simp only [Option.some.injEq] at h1
      subst h1
      have : c.jobId = K := h2
      rw [this, hK] at hj
      exact Option.noConfusion hj
    · exact ⟨j, p, by rw [get?_set_other _ _ _ _ e]; exact h1, h2, h3⟩
  | sentTimeout k c ha hk h =>
    rw [h]
    intro K kb hK
    obtain ⟨j, p, h1, h2, h3⟩ := hl K kb hK
    by_cases e : j = k
    · subst e
      rw [hk] at h1
      simp only [Option.some.injEq] at h1
      subst h1
      exact ⟨j, CleanupPc.deleting c, get?_set_same _ _ _ _ hk, h2, rfl⟩
    · exact ⟨j, p, by rw [get?_set_other _ _ _ _ e]; exact h1, h2, h3⟩
  | timedOut k c ha hk h =>
    rw [h]
    intro K kb hK
    by_cases e0 : K = c.jobId
    · simp [Pending.delete, e0] at hK
    · simp only [Pending.delete, e0, if_false] at hK
      obtain ⟨j, p, h1, h2, h3⟩ := hl K kb hK
      by_cases e : j = k
      · subst e
        rw [hk] at h1
        simp only [Option.some.injEq] at h1
        subst h1
        exact absurd h2.symm e0
      · exact ⟨j, p, by rw [get?_set_other _ _ _ _ e]; exact h1, h2, h3⟩

theorem live_run (t : JsonText) (timeout : Nat) :
    ∀ acts : List Act, (mrun t timeout acts Sys.init).Live := by
  intro acts
  induction acts using List.reverseRecOn with
  | nil =>
    intro J jb h
    simp [mrun, Sys.init, Pending.empty] at h
  | append_singleton acts a ih =>
    rw [mrun_snoc]
    exact live_step t timeout _ a ih

/-- A cleanup goroutine that has not returned, let through alone while its job
is pending, deletes the job and leaves the coordinator where it stands; it
sends its failure unless that was already taken. -/
theorem cleanupAlone_from (t : JsonText) (timeout : Nat) (σ : Sys) (k : Nat) (p : CleanupPc)
    (jb : job) (hk : σ.tasks.get? k = some p) (hd : p.isDone = false)
    (hj : σ.pending p.jobId = some jb) :
    (mrun t timeout (cleanupAlone k) σ).pending = Pending.delete σ.pending p.jobId ∧
    (mrun t timeout (cleanupAlone k) σ).coord = σ.coord ∧
    ((mrun t timeout (cleanupAlone k) σ).outgoing = σ.outgoing ∨
      (mrun t timeout (cleanupAlone k) σ).outgoing =
        σ.outgoing ++ [failureReply t p.jobId p.cleanup.req "Queue timeout"]) := by
  cases p with
  | done c => exact Bool.noConfusion hd
  | sleeping c =>
    have hj1 : σ.pending c.jobId = some jb := hj
    have h1 : micro t timeout σ (Act.wake k) =
        { σ with tasks := σ.tasks.set k (CleanupPc.sending c) } := by
      simp only [micro, hk, hj1]
    have hk1 := get?_set_same σ.tasks k _ (CleanupPc.sending c) hk
    have h2 : micro t timeout { σ with tasks := σ.tasks.set k (CleanupPc.sending c) }
        (Act.taskSent k) =
        { σ with outgoing := σ.outgoing ++ [failureReply t c.jobId c.req "Queue timeout"],
                 tasks := (σ.tasks.set k (CleanupPc.sending c)).set k (CleanupPc.deleting c) } := by
      simp only [micro, hk1]
    have hk2 := get?_set_same (σ.tasks.set k (CleanupPc.sending c)) k _ (CleanupPc.deleting c) hk1
    simp only [mrun, cleanupAlone, List.foldl_cons, List.foldl_nil, h1, h2]
    simp only [micro, hk2]
    simp [CleanupPc.jobId, CleanupPc.cleanup]
  | sending c =>
    have h1 : micro t timeout σ (Act.wake k) = σ := by
      simp only [micro, hk]
    have h2 : micro t timeout σ (Act.taskSent k) =
        { σ with outgoing := σ.outgoing ++ [failureReply t c.jobId c.req "Queue timeout"],
                 tasks := σ.tasks.set k (CleanupPc.deleting c) } := by
      simp only [micro, hk]
    have hk2 := get?_set_same σ.tasks k _ (CleanupPc.deleting c) hk
    simp only [mrun, cleanupAlone, List.foldl_cons, List.foldl_nil, h1, h2]
    simp only [micro, hk2]
    simp [CleanupPc.jobId, CleanupPc.cleanup]
  | deleting c =>
    have h1 : micro t timeout σ (Act.wake k) = σ := by
      simp only [micro, hk]
    have h2 : micro t timeout σ (Act.taskSent k) = σ := by
      simp only [micro, hk]
    simp only [mrun, cleanupAlone, List.foldl_cons, List.foldl_nil, h1, h2]
    simp only [micro, hk]
    simp [CleanupPc.jobId, CleanupPc.cleanup]

/-- C17, amended. At any moment of any schedule, wherever the coordinator
stands, let `J` be in the pending table.  A step that removes the entry of
`J` is the coordinator running `delete(pending, J)` at the end of
`handleCancel`, or the cleanup goroutine of `J` running `delete(pending, J)`
itself, the coordinator standing still.  And `J` has a cleanup goroutine that
has not returned; let through alone, without any step of the coordinator, it
looks `J` up, sends the failure `Queue timeout` unless that was already taken,
and deletes `J` from the table. -/
theorem pending_entry_removal (t : JsonText) (timeout : Nat) (acts : List Act) (J : String)
    (jb : job) (hp : (mrun t timeout acts Sys.init).pending J = some jb) :
    (∀ a, (micro t timeout (mrun t timeout acts Sys.init) a).pending J = none →
      (a = Act.coordRuns ∧
        ∃ req, (mrun t timeout acts Sys.init).coord = CoordPc.cancelDelete req J) ∨
      (∃ k c, a = Act.taskRuns k ∧
        (mrun t timeout acts Sys.init).tasks.get? k = some (CleanupPc.deleting c) ∧
        c.jobId = J ∧
        (micro t timeout (mrun t timeout acts Sys.init) a).coord =
          (mrun t timeout acts Sys.init).coord ∧
        (micro t timeout (mrun t timeout acts Sys.init) a).outgoing =
          (mrun t timeout acts Sys.init).outgoing)) ∧
    ∃ k p, (mrun t timeout acts Sys.init).tasks.get? k = some p ∧ p.jobId = J ∧
      p.isDone = false ∧
      (mrun t timeout (acts ++ cleanupAlone k) Sys.init).pending =
        Pending.delete (mrun t timeout acts Sys.init).pending J ∧
      (mrun t timeout (acts ++ cleanupAlone k) Sys.init).coord =
        (mrun t timeout acts Sys.init).coord ∧
      ((mrun t timeout (acts ++ cleanupAlone k) Sys.init).outgoing =
          (mrun t timeout acts Sys.init).outgoing ∨
        (mrun t timeout (acts ++ cleanupAlone k) Sys.init).outgoing =
          (mrun t timeout acts Sys.init).outgoing ++
            [failureReply t J p.cleanup.req "Queue timeout"]) := by
  refine ⟨fun a h1 => entry_removed_by t timeout _ a J jb hp h1, ?_⟩
  obtain ⟨k, p, hk, hpJ, hd⟩ := live_run t timeout acts J jb hp
  have := cleanupAlone_from t timeout (mrun t timeout acts Sys.init) k p jb hk hd
    (by rw [hpJ]; exact hp)
  rw [hpJ] at this
  refine ⟨k, p, hk, hpJ, hd, ?_⟩
  rw [mrun_append]
  exact this

set_option maxRecDepth 8000 in
/-- Witness for C17 amended: `j1` is pending and the coordinator is blocked in
the send of `handleCancel`. -/
theorem pending_entry_removal_witness :
    (mrun wire 30 cancelUnderWay Sys.init).pending "j1" = some ⟨3, false⟩ ∧
    ∃ k p, (mrun wire 30 cancelUnderWay Sys.init).tasks.get? k = some p ∧ p.jobId = "j1" ∧
      p.isDone = false ∧
      (mrun wire 30 (cancelUnderWay ++ cleanupAlone k) Sys.init).pending =
        Pending.delete (mrun wire 30 cancelUnderWay Sys.init).pending "j1" ∧
      (mrun wire 30 (cancelUnderWay ++ cleanupAlone k) Sys.init).coord =
        (mrun wire 30 cancelUnderWay Sys.init).coord ∧
      ((mrun wire 30 (cancelUnderWay ++ cleanupAlone k) Sys.init).outgoing =
          (mrun wire 30 cancelUnderWay Sys.init).outgoing ∨
        (mrun wire 30 (cancelUnderWay ++ cleanupAlone k) Sys.init).outgoing =
          (mrun wire 30 cancelUnderWay Sys.init).outgoing ++
            [failureReply wire "j1" p.cleanup.req "Queue timeout"]) :=
  ⟨by decide, (pending_entry_removal wire 30 cancelUnderWay "j1" ⟨3, false⟩ (by decide)).2⟩

end Bidq
